import Mathlib

/-!
# qpid HA: `ReplicatingSubscription`

A shallow embedding of `qpid/cpp/src/qpid/ha/ReplicatingSubscription.cpp`.

The subscription object is a record of its member variables.  Every call the
code makes on a collaborator (the queue guard, the Primary role, the queue, the
`ConsumerImpl` base class) is appended to a trace kept in the record, together
with the status of the subscription mutex at the moment of the call.  Results
that come back from a collaborator (the return value or exception of the base
class delivery, the queue snapshot, ...) are inputs of the embedded function.
-/

namespace ReplicatingSubscription

/-! ## Data model -/

/-- Modelled from the spec: `ReplicationId` (declared in `ha/types.h`, which is
not among the sources) is an unsigned integer assigned to a message when it is
enqueued. -/
abbrev ReplicationId := Nat

/-- Modelled from the spec: `QueuePosition` (declared in `ha/types.h`) is an
unsigned sequence number denoting a slot in the delivery order of the queue. -/
abbrev QueuePosition := Nat

/-- Modelled from the spec: `ReplicationIdSet` (declared in `ha/types.h`) is a
set of replication ids with union, difference, membership and emptiness test,
compared by membership only. -/
abbrev ReplicationIdSet := Finset ReplicationId

/-- The part of `broker::Message` that the subscription reads:
`getReplicationId()` and `getSequence()`. -/
structure Message where
  replicationId : ReplicationId
  sequence : QueuePosition
  deriving DecidableEq, Repr

/-- The part of `broker::DeliveryRecord` that the subscription reads:
`getReplicationId()` and `getMessageId()`. -/
structure DeliveryRecord where
  replicationId : ReplicationId
  messageId : QueuePosition
  deriving DecidableEq, Repr

/-- Identity of the remote (backup) broker, assigned from the broker-info table
of the subscription arguments. -/
structure BrokerInfo where
  systemId : String
  deriving DecidableEq, Repr

/-- The control messages built in `sendDequeueEvent` and `sendIdEvent`. -/
inductive Event where
  | DequeueEvent (ids : ReplicationIdSet)
  | IdEvent (id : ReplicationId)
  deriving DecidableEq

/-- A call made by the subscription on one of its collaborators. -/
inductive Call where
  /-- The call `guard->complete(id)`. -/
  | guardComplete (id : ReplicationId)
  /-- The call `guard->cancel()`. -/
  | guardCancel
  /-- The call `notify()` that wakes the dispatch loop. -/
  | notify
  /-- The call `ConsumerImpl::deliver(QueueCursor(), event.message(), <no consumer>)`
  made by `sendEvent`. -/
  | sendEvent (e : Event)
  /-- The call `ConsumerImpl::deliver(c, m)`. -/
  | consumerDeliver (m : Message)
  /-- The call `ConsumerImpl::acknowledged(r)`. -/
  | consumerAcknowledged (r : DeliveryRecord)
  /-- The call `ConsumerImpl::doDispatch()`. -/
  | consumerDoDispatch
  /-- The call `ConsumerImpl::cancel()`. -/
  | consumerCancel
  /-- The call `primary->addReplica(*this)`. -/
  | primaryAddReplica
  /-- The call `primary->readyReplica(*this)`. -/
  | primaryReadyReplica
  /-- The call `primary->removeReplica(*this)`. -/
  | primaryRemoveReplica
  /-- The call `primary->getGuard(queue, info)`. -/
  | primaryGetGuard
  /-- The construction `new QueueGuard(*queue, info)`. -/
  | newQueueGuard
  /-- The call `queue->getMessageInterceptors().add(<new IdSetter>)`. -/
  | addIdSetter
  /-- The call `queue->addObserver(observer)`. -/
  | queueAddObserver
  /-- The call `queue->removeObserver(observer)`. -/
  | queueRemoveObserver
  /-- The call `haBroker.getQueueSnapshots()->get(queue)->snapshot()`. -/
  | snapshot
  /-- The call `queue->getRange(front, back, broker::REPLICATOR)`. -/
  | queueGetRange
  deriving DecidableEq

/-- A trace entry: the call and whether the subscription mutex was held by the
calling thread when the call was made. -/
structure Traced where
  call : Call
  lockHeld : Bool
  deriving DecidableEq

/-- The member variables of a `ReplicatingSubscription`, the boundary of its
guard, the status of its mutex and the trace of the calls made so far. -/
structure State where
  /-- Member `position`. -/
  position : QueuePosition
  /-- Member `ready`. -/
  ready : Bool
  /-- Member `cancelled`. -/
  cancelled : Bool
  /-- Member `dequeues`. -/
  dequeues : ReplicationIdSet
  /-- Member `skip`. -/
  skip : ReplicationIdSet
  /-- Member `unready`. -/
  unready : ReplicationIdSet
  /-- Whether member `primary` is a non-null pointer. -/
  hasPrimary : Bool
  /-- Modelled from the spec: `QueueGuard::getFirst()` (the class `QueueGuard`
  is not among the sources) returns the current safety boundary of the guard
  held in member `guard`.  This is the value that a call of `getFirst()` returns
  in this state.  The member functions of the subscription do not write it; the
  guard moves it, which is `Happening.boundary`. -/
  guardFirst : QueuePosition
  /-- Whether the mutex `lock` is held by the thread running the subscription code. -/
  lockHeld : Bool
  /-- Calls made on collaborators, oldest first. -/
  trace : List Traced

/-- The calls of a trace, without the mutex flags. -/
def State.calls (s : State) : List Call := s.trace.map Traced.call

/-- Record a call on a collaborator. -/
def call (c : Call) (s : State) : State :=
  { s with trace := s.trace ++ [⟨c, s.lockHeld⟩] }

/-- Entering the scope of a `Mutex::ScopedLock l(lock)` (and leaving the scope of a
`Mutex::ScopedUnlock`). -/
def acquire (s : State) : State := { s with lockHeld := true }

/-- Leaving the scope of a `Mutex::ScopedLock` (and entering the scope of a
`Mutex::ScopedUnlock u(lock)`). -/
def release (s : State) : State := { s with lockHeld := false }

/-! ## Member functions -/

/-- The `ReplicatingSubscription::isGuarded`:
`return position+1 >= guard->getFirst();` -/
def isGuarded (s : State) : Bool := decide (s.position + 1 ≥ s.guardFirst)

/-- The `ReplicatingSubscription::checkReady`, called with the lock held. -/
def checkReady (s : State) : State :=
  if !s.ready && isGuarded s && decide (s.unready = ∅) then
    let s := { s with ready := true }
    let s := release s                    -- ScopedUnlock u(lock)
    let s := if s.hasPrimary then call .primaryReadyReplica s else s
    acquire s                             -- end of the ScopedUnlock scope
  else s

/-- The `ReplicatingSubscription::sendEvent` when the hand-off returns: the lock
is released around the hand-off of the event to the base class delivery, whose
boolean result is dropped.  The hand-off that throws is in `sendEventThrowing`. -/
def sendEvent (e : Event) (s : State) : State :=
  let s := release s                      -- ScopedUnlock u(lock)
  let s := call (.sendEvent e) s
  acquire s

/-- The `ReplicatingSubscription::sendIdEvent`. -/
def sendIdEvent (pos : ReplicationId) (s : State) : State :=
  sendEvent (.IdEvent pos) s

/-- The `ReplicatingSubscription::sendDequeueEvent`, called with the lock held. -/
def sendDequeueEvent (s : State) : State :=
  if s.dequeues = ∅ then s
  else sendEvent (.DequeueEvent s.dequeues) s

/-- The `ReplicatingSubscription::deliver`.  `base` is what the call
`ConsumerImpl::deliver(c, m)` does when it is reached: it returns a boolean or
throws.  The `catch` block logs and rethrows; the `ScopedLock` is released on
both ways out. -/
def deliver (s : State) (m : Message) (base : Except String Bool) :
    Except String Bool × State :=
  let s := acquire s
  let id := m.replicationId
  let s := { s with position := m.sequence }
  if id ∈ s.skip then
    let s := { s with skip := s.skip.erase id }
    let s := call (.guardComplete id) s
    let s := call .notify s
    let s := checkReady s
    (.ok true, release s)
  else
    let s := if !s.ready && !isGuarded s then { s with unready := insert id s.unready } else s
    let s := sendIdEvent id s
    let s := call (.consumerDeliver m) s
    match base with
    | .ok result =>
      let s := checkReady s
      (.ok result, release s)
    | .error e => (.error e, release s)

/-- The `ReplicatingSubscription::cancel`. -/
def cancel (s : State) : State :=
  let s := acquire s
  if s.cancelled then release s
  else
    let s := { s with cancelled := true }
    let s := release s
    let s := if s.hasPrimary then call .primaryRemoveReplica s else s
    let s := call .queueRemoveObserver s
    let s := call .guardCancel s
    call .consumerCancel s

/-- The `ReplicatingSubscription::acknowledged`. -/
def acknowledged (s : State) (r : DeliveryRecord) : State :=
  let id := r.replicationId
  let s := call (.guardComplete id) s
  let s := acquire s
  let s := { s with unready := s.unready.erase id }
  let s := checkReady s
  let s := release s
  call (.consumerAcknowledged r) s

/-- The `ReplicatingSubscription::dequeued`. -/
def dequeued (s : State) (id : ReplicationId) : State :=
  let s := acquire s
  let s := { s with dequeues := insert id s.dequeues }
  let s := release s
  call .notify s

/-- The `ReplicatingSubscription::doDispatch` when the send of the dequeue
event returns.  `base` is what the call `ConsumerImpl::doDispatch()` does: it
returns a boolean or throws.  The send that throws is in `doDispatchThrowing`. -/
def doDispatch (s : State) (base : Except String Bool) : Bool × State :=
  let s := acquire s
  let s := if s.dequeues ≠ ∅ then sendDequeueEvent s else s
  let s := release s
  let s := call .consumerDoDispatch s
  match base with
  | .ok b => (b, s)
  | .error _ => (false, s)

/-- The `ReplicatingSubscription::addSkip`. -/
def addSkip (s : State) (ids : ReplicationIdSet) : State :=
  let s := acquire s
  let s := { s with skip := s.skip ∪ ids }
  release s

/-- The `ReplicatingSubscription::initialize` (the word is reserved in Lean). -/
def initialise (s : State) : State :=
  let s := if s.hasPrimary then call .primaryAddReplica s else s
  let s := acquire s
  let s := sendDequeueEvent s
  release s

/-- The calls that a ready check makes in state `s`: one `readyReplica` when the
check fires and there is a Primary role, none otherwise. -/
def readyCalls (s : State) : List Call :=
  if !s.ready && isGuarded s && decide (s.unready = ∅) && s.hasPrimary
  then [.primaryReadyReplica] else []

/-! ## Construction -/

/-- The entries of the `arguments` field table that the code reads. -/
structure Arguments where
  /-- Whether `arguments.isSet(QPID_REPLICATING_SUBSCRIPTION)`. -/
  replicating : Bool
  /-- The table under `QPID_BROKER_INFO`, when `arguments.getTable` finds one. -/
  brokerInfo : Option BrokerInfo
  /-- The string `arguments.getAsString(QPID_ID_SET)`. -/
  idSet : String

/-- What the collaborators answer during construction.  A step that can throw
answers with `Except`. -/
structure Collaborators where
  /-- Whether the role of the HA broker is a `Primary`. -/
  hasPrimary : Bool
  /-- Whether the interceptors of the queue already hold an `IdSetter`. -/
  hasIdSetter : Bool
  /-- The boundary of the guard that `primary->getGuard(queue, info)` returns,
  when it returns one. -/
  existingGuard : Option QueuePosition
  /-- The boundary of a guard made by `new QueueGuard(*queue, info)`. -/
  newGuard : Except String QueuePosition
  /-- The result of `snapshot()`. -/
  primaryIds : Except String ReplicationIdSet
  /-- Modelled from the spec: `decodeStr<ReplicationIdSet>` (not among the
  sources) decodes the transmissible string form of an id set; this is its
  result on the id-set string of the arguments. -/
  decoded : Except String ReplicationIdSet
  /-- The result `(front, back)` of `queue->getRange`. -/
  range : Except String (QueuePosition × QueuePosition)

/-- The member initialiser list of the constructor:
`position(0), ready(false), cancelled(false)`, the three sets default
constructed, `primary` cast from the role of the HA broker, no guard yet. -/
def State.init (hasPrimary : Bool) : State :=
  { position := 0, ready := false, cancelled := false,
    dequeues := ∅, skip := ∅, unready := ∅,
    hasPrimary := hasPrimary, guardFirst := 0, lockHeld := false, trace := [] }

/-- The local variables of the constructor that are live when it takes the lock. -/
structure Locals where
  primaryIds : ReplicationIdSet
  backupIds : ReplicationIdSet
  initDequeues : ReplicationIdSet
  front : QueuePosition
  back : QueuePosition

/-- Constructor body, from the broker-info check to `queue->addObserver(observer)`. -/
def ctorAttach (args : Arguments) (env : Collaborators) (s : State) :
    Except String Unit × State :=
  match args.brokerInfo with
  | none => (.error "Replicating subscription does not have broker info", s)
  | some _ =>
    let s := if !env.hasIdSetter then call .addIdSetter s else s
    -- if (primary) guard = primary->getGuard(queue, info);
    let (guard, s) :=
      if s.hasPrimary then (env.existingGuard, call .primaryGetGuard s) else (none, s)
    -- if (!guard) guard.reset(new QueueGuard(*queue, info));
    let (made, s) :=
      match guard with
      | some g => (Except.ok g, s)
      | none => (env.newGuard, call .newQueueGuard s)
    match made with
    | .error e => (.error e, s)
    | .ok g =>
      let s := { s with guardFirst := g }
      let s := call .queueAddObserver s
      (.ok (), s)

/-- Constructor body, the value of the local `backupIds`:
`if (!backupStr.empty()) backupIds = decodeStr<ReplicationIdSet>(backupStr);` -/
def decodeBackupIds (args : Arguments) (env : Collaborators) :
    Except String ReplicationIdSet :=
  let backupStr := args.idSet
  if !backupStr.isEmpty then env.decoded else .ok ∅

/-- Constructor body, from the snapshot to `queue->getRange`. -/
def ctorSnapshot (args : Arguments) (env : Collaborators) (s : State) :
    Except String Locals × State :=
  let s := call .snapshot s
  match env.primaryIds with
  | .error e => (.error e, s)
  | .ok primaryIds =>
    match decodeBackupIds args env with
    | .error e => (.error e, s)
    | .ok backupIds =>
      let initDequeues := backupIds \ primaryIds
      let s := call .queueGetRange s
      match env.range with
      | .error e => (.error e, s)
      | .ok (front, back) =>
        (.ok { primaryIds := primaryIds, backupIds := backupIds,
               initDequeues := initDequeues, front := front, back := back }, s)

/-- Constructor body, the block under the lock. -/
def ctorReconcile (v : Locals) (s : State) : State :=
  let s := acquire s
  let s := { s with dequeues := s.dequeues ∪ v.initDequeues }
  let s := { s with skip := v.backupIds \ v.initDequeues }
  let s := { s with position := v.front }
  let s := checkReady s
  release s

/-- The constructor `ReplicatingSubscription::ReplicatingSubscription`.  The
`catch` block logs and rethrows.  The state is returned also when the
constructor throws, for the calls it made before. -/
def construct (args : Arguments) (env : Collaborators) : Except String Unit × State :=
  let s := State.init env.hasPrimary
  match ctorAttach args env s with
  | (.error e, s) => (.error e, s)
  | (.ok (), s) =>
    match ctorSnapshot args env s with
    | (.error e, s) => (.error e, s)
    | (.ok v, s) => (.ok (), ctorReconcile v s)

/-- The `ReplicatingSubscription::Factory::create`: the pointer `rs` it returns
(empty, or the subscription after `initialize`) or the exception of the
constructor that it passes on, and the calls made on collaborators meanwhile. -/
def Factory.create (args : Arguments) (env : Collaborators) :
    Except String (Option State) × List Traced :=
  if args.replicating then
    match construct args env with
    | (.error e, s) => (.error e, s.trace)
    | (.ok (), s) =>
      let s := initialise s
      (.ok (some s), s.trace)
  else (.ok none, [])

/-! ## Sequences of operations -/

/-- A call of a public member function, with what the base class answers. -/
inductive Op where
  | deliver (m : Message) (base : Except String Bool)
  | acknowledged (r : DeliveryRecord)
  | dequeued (id : ReplicationId)
  | doDispatch (base : Except String Bool)
  | addSkip (ids : ReplicationIdSet)
  | initialise
  | cancel

/-- The state after one operation. -/
def step (s : State) : Op → State
  | .deliver m base => (deliver s m base).2
  | .acknowledged r => acknowledged s r
  | .dequeued id => dequeued s id
  | .doDispatch base => (doDispatch s base).2
  | .addSkip ids => addSkip s ids
  | .initialise => initialise s
  | .cancel => cancel s

/-- The state after a sequence of operations, first to last. -/
def run (s : State) (ops : List Op) : State := ops.foldl step s

/-- The operation is not an acknowledgement of a record with replication id `i`. -/
def Op.notAckOf (i : ReplicationId) : Op → Bool
  | .acknowledged r => decide (r.replicationId ≠ i)
  | _ => true

/-- Arguments of a backup that holds ids from an earlier session. -/
def exArgs : Arguments :=
  { replicating := true, brokerInfo := some ⟨"backup-1"⟩, idSet := "1-3" }

/-- Collaborators of the reconciliation scenario: the backup holds `{1,2,3}`,
the primary snapshot is `{2,3,4}`, the queue range is `(5, 9)` and a fresh
guard starts at 10. -/
def exEnv : Collaborators :=
  { hasPrimary := true, hasIdSetter := true, existingGuard := none,
    newGuard := .ok 10, primaryIds := .ok {2, 3, 4}, decoded := .ok {1, 2, 3},
    range := .ok (5, 9) }

/-- A catching-up subscription with `skip = {2,3}` behind a guard at 10. -/
def exState : State :=
  { position := 4, ready := false, cancelled := false,
    dequeues := {1}, skip := {2, 3}, unready := ∅,
    hasPrimary := true, guardFirst := 10, lockHeld := false, trace := [] }

/-- A ready subscription behind the guard boundary 10. -/
def exReady : State := { exState with position := 9, ready := true, skip := ∅ }

/-- Collaborators as in `exEnv` with the queue front at position 9, next to the
guard boundary 10. -/
def exEnvFront : Collaborators := { exEnv with range := .ok (9, 9) }

/-- A subscription as `exState` with nothing dequeued yet. -/
def exFresh : State := { exState with dequeues := ∅ }

/-- A cancelled subscription as `exState`. -/
def exCancelled : State := { exState with cancelled := true }

/-- A subscription as `exState` on a broker whose role is not a `Primary`
(standalone replication). -/
def exStandalone : State := { exState with hasPrimary := false }

/-- Arguments that carry the replicating-subscription flag and no broker-info
table. -/
def exArgsNoInfo : Arguments :=
  { replicating := true, brokerInfo := none, idSet := "1-3" }

/-- Arguments as `exArgs` without the replicating-subscription flag. -/
def exArgsPlain : Arguments := { exArgs with replicating := false }

/-- Collaborators as `exEnv` for a queue without an `IdSetter` and an id-set
string that does not decode. -/
def exEnvBadIdSet : Collaborators :=
  { exEnv with hasIdSetter := false, decoded := .error "cannot decode id set" }

/-- The deliveries of a list of messages with the answers of the base class. -/
def deliveries (ds : List (Message × Except String Bool)) : List Op :=
  ds.map (fun d => Op.deliver d.1 d.2)

/-- The replication ids of a list of deliveries, in order. -/
def deliveredIds (ds : List (Message × Except String Bool)) : List ReplicationId :=
  ds.map (fun d => d.1.replicationId)

/-- The id sets of the dequeue events sent, in the order of sending. -/
def dequeueBatches : List Call → List ReplicationIdSet
  | [] => []
  | .sendEvent (.DequeueEvent ids) :: cs => ids :: dequeueBatches cs
  | _ :: cs => dequeueBatches cs

/-- The operation is a call of `cancel`. -/
def Op.isCancel : Op → Bool
  | .cancel => true
  | _ => false

/-- The four calls that `cancel` makes on its collaborators. -/
def Call.isTeardown : Call → Bool
  | .primaryRemoveReplica => true
  | .queueRemoveObserver => true
  | .guardCancel => true
  | .consumerCancel => true
  | _ => false

/-- How often the first `cancel` of a subscription makes the teardown call `c`:
the Primary role is told only if there is one. -/
def teardownCount (s : State) (c : Call) : Nat :=
  if c = .primaryRemoveReplica ∧ s.hasPrimary = false then 0 else 1

/-- The calls that the constructor makes on the queue, the guard and the
snapshot provider before it takes the lock. -/
def Call.isSetup : Call → Bool
  | .addIdSetter => true
  | .primaryGetGuard => true
  | .newQueueGuard => true
  | .queueAddObserver => true
  | .snapshot => true
  | .queueGetRange => true
  | _ => false

/-- The calls that hand control to the Primary role or to the delivery path:
the three Primary notifications and the send of an event. -/
def Call.isCallOut : Call → Bool
  | .primaryAddReplica => true
  | .primaryReadyReplica => true
  | .primaryRemoveReplica => true
  | .sendEvent _ => true
  | _ => false

/-- Every call-out of the trace was made while the mutex was not held. -/
def disciplined (tr : List Traced) : Prop :=
  ∀ t ∈ tr, t.call.isCallOut = true → t.lockHeld = false

/-- The number of `readyReplica` notifications made so far. -/
def readyNotices (s : State) : Nat := s.calls.count .primaryReadyReplica

/-- Modelled from the spec: the queue (class `broker::Queue` and the snapshot
provider are not among the sources) holds the set `queueIds` of ids currently
enqueued, the snapshot returns that set, and a dequeue removes the id and then
calls `dequeued` on every registered observer.  This is the constructor run
against such a queue while the primary dequeues the ids `before` ahead of the
registration of the observer, the ids `between` after the registration and
ahead of the snapshot, and the ids `after` once the snapshot is taken and
before the constructor locks. -/
def constructInterleaved (args : Arguments) (env : Collaborators)
    (queueIds : ReplicationIdSet) (before between after : List ReplicationId) :
    Except String Unit × State :=
  -- no observer yet: the queue loses the ids and the subscription is not told
  let queueIds := queueIds \ before.toFinset
  match ctorAttach args env (State.init env.hasPrimary) with
  | (.error e, s) => (.error e, s)
  | (.ok (), s) =>
    -- the observer is registered: each dequeue reaches `dequeued`
    let queueIds := queueIds \ between.toFinset
    let s := between.foldl dequeued s
    match ctorSnapshot args { env with primaryIds := .ok queueIds } s with
    | (.error e, s) => (.error e, s)
    | (.ok v, s) =>
      let s := after.foldl dequeued s
      (.ok (), ctorReconcile v s)

/-- Arguments of a fresh backup: an empty id-set string. -/
def exArgsFresh : Arguments := { exArgs with idSet := "" }

/-- A subscription on a broker whose role is not a `Primary`, at position 9
behind the guard boundary 10, with nothing unacknowledged. -/
def exStandaloneAtGuard : State := { exStandalone with position := 9 }

/-- Collaborators as `exEnvFront` on a broker whose role is not a `Primary`. -/
def exEnvStandalone : Collaborators := { exEnvFront with hasPrimary := false }

/-- The `readyReplica` notification was made once if the subscription is ready
and there is a Primary role, and was not made otherwise. -/
def notifiedOnce (s : State) : Prop :=
  readyNotices s = if s.ready && s.hasPrimary then 1 else 0

/-! ## The boundary of the guard on the move -/

/-- The `ReplicatingSubscription::sendEvent` with the outcome of the hand-off as
an input: `sent` is what the call `ConsumerImpl::deliver(QueueCursor(),
event.message(), ...)` does, it returns a boolean, which is dropped, or throws.
The `ScopedUnlock` takes the lock again on both ways out. -/
def sendEventThrowing (e : Event) (sent : Except String Bool) (s : State) :
    Except String Unit × State :=
  let s := release s                      -- ScopedUnlock u(lock)
  let s := call (.sendEvent e) s
  let s := acquire s
  match sent with
  | .ok _ => (.ok (), s)
  | .error err => (.error err, s)

/-- The `ReplicatingSubscription::sendDequeueEvent` over `sendEventThrowing`. -/
def sendDequeueEventThrowing (sent : Except String Bool) (s : State) :
    Except String Unit × State :=
  if s.dequeues = ∅ then (.ok (), s)
  else sendEventThrowing (.DequeueEvent s.dequeues) sent s

/-- The `ReplicatingSubscription::doDispatch` over `sendDequeueEventThrowing`:
what it returns, or the exception that leaves it.  `sent` is what the hand-off of
the dequeue event does and `base` is what the call `ConsumerImpl::doDispatch()`
does when it is reached.  The block with the send (lines 323-326) is outside
the `try`; the `ScopedLock` is released on both ways out of it.  The exceptions
are the `std::exception`s that the `catch` clause names, given by their
message. -/
def doDispatchThrowing (s : State) (sent base : Except String Bool) :
    Except String Bool × State :=
  let s := acquire s
  let (sending, s) :=
    if s.dequeues ≠ ∅ then sendDequeueEventThrowing sent s else (Except.ok (), s)
  let s := release s
  match sending with
  | .error e => (.error e, s)
  | .ok _ =>
    let s := call .consumerDoDispatch s
    match base with
    | .ok b => (.ok b, s)
    | .error _ => (.ok false, s)

end ReplicatingSubscription

/-!
# Dispatch: the pool allocator

A shallow embedding of `extras/dispatch/src/alloc.c` for one type descriptor
and one thread.  A call that would dereference a null pointer or fail an
`assert` yields `none`.
-/

namespace Alloc

/-- An item of a pool, named by its address.  The code hands out `&item[1]` and
gets back `p - 1`; the two pointers of one item are not told apart here. -/
abbrev Item := Nat

/-- The free list of a `dx_alloc_pool_t`.  The `DEQ_` macros of `ctools.h` are
not among the sources; the list is taken as a queue on which `DEQ_HEAD` reads
the first item, `DEQ_REMOVE_HEAD` removes it, `DEQ_INSERT_TAIL` appends and
`DEQ_SIZE` is the number of items. -/
abbrev Pool := List Item

/-- The `dx_alloc_config_t` of `alloc.h`, in the field order of the two
default configurations. -/
structure dx_alloc_config_t where
  transfer_batch_size : Nat
  local_free_list_max : Nat
  global_free_list_max : Nat
  deriving DecidableEq, Repr

/-- The `dx_alloc_stats_t` of `alloc.h`.  The counters are unbounded naturals
here. -/
structure dx_alloc_stats_t where
  total_alloc_from_heap : Nat
  total_free_to_heap : Nat
  held_by_threads : Nat
  batches_rebalanced_to_threads : Nat
  batches_rebalanced_to_global : Nat
  deriving DecidableEq, Repr

/-- The default configuration for big types. -/
def dx_alloc_default_config_big : dx_alloc_config_t := ⟨16, 32, 0⟩

/-- The default configuration for small types. -/
def dx_alloc_default_config_small : dx_alloc_config_t := ⟨64, 128, 0⟩

/-- The size above which a type is big. -/
def BIG_THRESHOLD : Nat := 256

/-- What `dx_alloc_init` hangs on a descriptor in one go: the global pool (with
its lock) and the statistics, zeroed. -/
structure Runtime where
  global_pool : Pool
  stats : dx_alloc_stats_t
  deriving DecidableEq, Repr

/-- The `dx_alloc_type_desc_t`.  `runtime` is `none` as long as `global_pool` is
a null pointer. -/
structure dx_alloc_type_desc_t where
  type_size : Nat
  additional_size : Option Nat
  total_size : Nat
  config : Option dx_alloc_config_t
  runtime : Option Runtime
  deriving DecidableEq, Repr

/-- The statistics after `memset(desc->stats, 0, ...)`. -/
def zeroStats : dx_alloc_stats_t := ⟨0, 0, 0, 0, 0⟩

/-- The statements `desc->total_size = desc->type_size; if
(desc->additional_size) desc->total_size += *desc->additional_size;`. -/
def totalSize (desc : dx_alloc_type_desc_t) : Nat :=
  desc.type_size +
    (match desc.additional_size with
     | some a => a
     | none => 0)

/-- The configuration after `if (desc->config == 0) desc->config =
desc->total_size > BIG_THRESHOLD ? &dx_alloc_default_config_big :
&dx_alloc_default_config_small;`. -/
def chooseConfig (desc : dx_alloc_type_desc_t) : dx_alloc_config_t :=
  match desc.config with
  | some c => c
  | none =>
    if desc.total_size > BIG_THRESHOLD then dx_alloc_default_config_big
    else dx_alloc_default_config_small

/-- The `dx_alloc_init`.  The registration in `type_list` (read by the agent
query only) is left out.  A failed `assert` yields `none`. -/
def dx_alloc_init (desc : dx_alloc_type_desc_t) : Option dx_alloc_type_desc_t :=
  let desc := { desc with total_size := totalSize desc }
  match desc.runtime with
  | some _ => some desc
  | none =>
    let config := chooseConfig desc
    -- assert (desc->config->local_free_list_max >= desc->config->transfer_batch_size);
    if config.local_free_list_max ≥ config.transfer_batch_size then
      some { desc with config := some config,
                       runtime := some { global_pool := [], stats := zeroStats } }
    else none

/-- The loop `for (idx = 0; idx < n; idx++) { item = DEQ_HEAD(src);
DEQ_REMOVE_HEAD(src); DEQ_INSERT_TAIL(dst, item); }`, giving `(src, dst)`.  With
`src` empty the item is a null pointer and its insertion dereferences it. -/
def moveItems : Nat → Pool → Pool → Option (Pool × Pool)
  | 0, src, dst => some (src, dst)
  | _ + 1, [], _ => none
  | n + 1, item :: src, dst => moveItems n src (dst ++ [item])

/-- The loop of `dx_alloc` that takes up to `n` items from the heap.  `heap` holds
the results of the calls of `malloc` in order (`none` for a null pointer); past
its end `malloc` returns a null pointer. -/
def mallocBatch : Nat → List (Option Item) → Pool → dx_alloc_stats_t →
    Pool × dx_alloc_stats_t
  | 0, _, pool, stats => (pool, stats)
  | _ + 1, [], pool, stats => (pool, stats)
  | _ + 1, none :: _, pool, stats => (pool, stats)
  | n + 1, some item :: heap, pool, stats =>
    mallocBatch n heap (pool ++ [item])
      { stats with held_by_threads := stats.held_by_threads + 1,
                   total_alloc_from_heap := stats.total_alloc_from_heap + 1 }

/-- The loop `while (DEQ_SIZE(global) > max) { item = DEQ_HEAD(global);
DEQ_REMOVE_HEAD(global); free(item); total_free_to_heap++; }`. -/
def freeExcess (max : Nat) : Pool → dx_alloc_stats_t → Pool × dx_alloc_stats_t
  | [], stats => ([], stats)
  | item :: rest, stats =>
    if (item :: rest).length > max then
      freeExcess max rest { stats with total_free_to_heap := stats.total_free_to_heap + 1 }
    else (item :: rest, stats)

/-- The block `if (*tpool == 0) { *tpool = NEW(dx_alloc_pool_t);
DEQ_INIT((*tpool)->free_list); }` followed by `pool = *tpool`: the free list of
the thread pool, empty if the pool is new. -/
def ensurePool (tpool : Option Pool) : Pool :=
  match tpool with
  | some pool => pool
  | none => []

/-- The end of `dx_alloc`: `item = DEQ_HEAD(pool->free_list); if (item) {
DEQ_REMOVE_HEAD(pool->free_list); return &item[1]; } return 0;`. -/
def takeHead (desc : dx_alloc_type_desc_t) (pool : Pool) :
    Option Item × dx_alloc_type_desc_t × Option Pool :=
  match pool with
  | item :: rest => (some item, desc, some rest)
  | [] => (none, desc, some [])

/-- The `dx_alloc`: the pointer returned (`none` for 0), the descriptor and the
thread pool `*tpool` afterwards. -/
def dx_alloc (desc : dx_alloc_type_desc_t) (tpool : Option Pool)
    (heap : List (Option Item)) :
    Option (Option Item × dx_alloc_type_desc_t × Option Pool) :=
  -- if (!desc->global_pool) dx_alloc_init(desc);
  let initialised :=
    match desc.runtime with
    | none => dx_alloc_init desc
    | some _ => some desc
  match initialised with
  | none => none
  | some desc =>
    let pool := ensurePool tpool
    match pool with
    | item :: rest => some (some item, desc, some rest)
    | [] =>
      match desc.config, desc.runtime with
      | some config, some rt =>
        if rt.global_pool.length ≥ config.transfer_batch_size then
          let stats := { rt.stats with
            batches_rebalanced_to_threads := rt.stats.batches_rebalanced_to_threads + 1,
            held_by_threads := rt.stats.held_by_threads + config.transfer_batch_size }
          match moveItems config.transfer_batch_size rt.global_pool pool with
          | none => none
          | some (global, pool) =>
            some (takeHead { desc with runtime := some { global_pool := global, stats := stats } }
              pool)
        else
          let (pool, stats) := mallocBatch config.transfer_batch_size heap pool rt.stats
          some (takeHead
            { desc with runtime := some { global_pool := rt.global_pool, stats := stats } } pool)
      | _, _ => none

/-- The `dx_dealloc`: the descriptor and the thread pool `*tpool` afterwards. -/
def dx_dealloc (desc : dx_alloc_type_desc_t) (tpool : Option Pool) (p : Item) :
    Option (dx_alloc_type_desc_t × Option Pool) :=
  let item := p
  let pool := ensurePool tpool
  let pool := pool ++ [item]
  match desc.config with
  | none => none
  | some config =>
    if pool.length ≤ config.local_free_list_max then some (desc, some pool)
    else
      match desc.runtime with
      | none => none
      | some rt =>
        let stats := { rt.stats with
          batches_rebalanced_to_global := rt.stats.batches_rebalanced_to_global + 1,
          held_by_threads := rt.stats.held_by_threads - config.transfer_batch_size }
        match moveItems config.transfer_batch_size pool rt.global_pool with
        | none => none
        | some (pool, global) =>
          let (global, stats) :=
            if config.global_free_list_max ≠ 0 then
              freeExcess config.global_free_list_max global stats
            else (global, stats)
          some ({ desc with runtime := some { global_pool := global, stats := stats } },
            some pool)

/-- One thread using one descriptor: the descriptor, the thread pool, and the
items handed out by `dx_alloc` that were not given back yet (kept for the
statements only; the code has no such list). -/
structure World where
  desc : dx_alloc_type_desc_t
  tpool : Option Pool
  out : List Item
  deriving DecidableEq, Repr

/-- A call of the allocator. -/
inductive Request where
  | alloc (heap : List (Option Item))
  | dealloc (p : Item)
  deriving DecidableEq, Repr

/-- The world after one call. -/
def handle (w : World) : Request → Option World
  | .alloc heap =>
    match dx_alloc w.desc w.tpool heap with
    | none => none
    | some (some p, desc, tpool) => some { desc := desc, tpool := tpool, out := p :: w.out }
    | some (none, desc, tpool) => some { desc := desc, tpool := tpool, out := w.out }
  | .dealloc p =>
    match dx_dealloc w.desc w.tpool p with
    | none => none
    | some (desc, tpool) => some { desc := desc, tpool := tpool, out := w.out.erase p }

/-- The world after a sequence of calls. -/
def handleAll (w : World) : List Request → Option World
  | [] => some w
  | r :: rs =>
    match handle w r with
    | none => none
    | some w => handleAll w rs

/-- Every `dx_dealloc` of the sequence gives back an item that is handed out at
that moment. -/
def wellUsed (w : World) : List Request → Bool
  | [] => true
  | r :: rs =>
    (match r with
     | .dealloc p => decide (p ∈ w.out)
     | .alloc _ => true) &&
    (match handle w r with
     | none => true
     | some w => wellUsed w rs)

/-- A descriptor before its first use, with the configuration given to it (or
none), and a thread that has no pool yet. -/
def World.fresh (type_size : Nat) (additional_size : Option Nat)
    (config : Option dx_alloc_config_t) : World :=
  { desc := { type_size := type_size, additional_size := additional_size, total_size := 0,
              config := config, runtime := none },
    tpool := none, out := [] }

/-- The thread-local free list (empty while the thread has no pool). -/
def World.localList (w : World) : Pool := ensurePool w.tpool

/-- The accounting of the statistics: the items taken from the heap and not
freed are the items held by threads and the items of the global free list, and
the items held by threads are those of the thread-local free list and those
handed out. -/
def Accounted (w : World) : Prop :=
  ∀ rt, w.desc.runtime = some rt →
    rt.stats.total_alloc_from_heap - rt.stats.total_free_to_heap =
      rt.stats.held_by_threads + rt.global_pool.length ∧
    rt.stats.total_free_to_heap ≤ rt.stats.total_alloc_from_heap ∧
    rt.stats.held_by_threads = w.localList.length + w.out.length

/-- The descriptor is as `dx_alloc_init` leaves it, with a configuration that
passes its `assert`, or untouched with nothing handed out. -/
def Ready (w : World) : Prop :=
  (∀ c, w.desc.config = some c → c.transfer_batch_size ≤ c.local_free_list_max) ∧
  match w.desc.runtime with
  | some _ => w.desc.config ≠ none
  | none => w.out = [] ∧ w.localList = []

/-- The cap on the global free list: at most `global_free_list_max` items when
that is not 0, and nothing freed to the heap when it is 0. -/
def Capped (w : World) : Prop :=
  ∀ rt c, w.desc.runtime = some rt → w.desc.config = some c →
    (c.global_free_list_max ≠ 0 → rt.global_pool.length ≤ c.global_free_list_max) ∧
    (c.global_free_list_max = 0 → rt.stats.total_free_to_heap = 0)

/-- A small configuration: batches of 2, at most 3 items on the thread list, at
most 2 on the global list. -/
def exConfig : dx_alloc_config_t := ⟨2, 3, 2⟩

/-- Six allocations with a willing heap, then the six items given back. -/
def exRequests : List Request :=
  [.alloc [some 10, some 11], .alloc [], .alloc [some 12, some 13], .alloc [],
   .alloc [some 14, some 15], .alloc [],
   .dealloc 10, .dealloc 11, .dealloc 12, .dealloc 13, .dealloc 14, .dealloc 15]

/-- The configuration `dx_alloc` reads as `desc->config` after its first
statement `if (!desc->global_pool) dx_alloc_init(desc);`: the one of the
descriptor if it has a global pool, else the one `dx_alloc_init` settles on. -/
def configInUse (desc : dx_alloc_type_desc_t) : Option dx_alloc_config_t :=
  match desc.runtime with
  | some _ => desc.config
  | none => some (chooseConfig { desc with total_size := totalSize desc })

/-- The global free list `dx_alloc` reads as `desc->global_pool->free_list` after
its first statement: the one of the descriptor, or the empty one that
`dx_alloc_init` has just made. -/
def globalList (desc : dx_alloc_type_desc_t) : Pool :=
  match desc.runtime with
  | some rt => rt.global_pool
  | none => []

/-- A configuration that fails the `assert` of `dx_alloc_init`: batches of 2
with a thread list of at most 1. -/
def exConfigNarrow : dx_alloc_config_t := ⟨2, 1, 0⟩

/-- A descriptor before its first use. -/
def exDesc (config : Option dx_alloc_config_t) : dx_alloc_type_desc_t :=
  (World.fresh 8 none config).desc

end Alloc

/-!
# Broker: the management methods

A shallow embedding of `Broker::ManagementMethod` of
`qpid/broker/Broker.cpp`.  The method changes no member of the broker itself; what
it does is seen in the status it returns and in its calls on the link registry
`links` and on the message store `store`, which are recorded in order.
-/

namespace Broker

/-- The values of `Manageable::status_t` that `Broker.cpp` names.  The type is
declared in `Manageable.h`, which is not among the sources. -/
inductive status_t where
  | STATUS_OK
  | STATUS_UNKNOWN_METHOD
  | STATUS_NOT_IMPLEMENTED
  | STATUS_FEATURE_NOT_IMPLEMENTED
  deriving DecidableEq, Repr

/-- The constants `management::Broker::METHOD_...` that label the cases of the
`switch`.  They come from a generated header that is not among the sources, so
their values are left open. -/
structure MethodIds where
  METHOD_ECHO : Nat
  METHOD_CONNECT : Nat
  METHOD_JOINCLUSTER : Nat
  METHOD_LEAVECLUSTER : Nat
  deriving DecidableEq, Repr

/-- The labels of the cases of one `switch` are different from each other (the
compiler refuses the statement otherwise). -/
def MethodIds.distinct (ids : MethodIds) : Bool :=
  decide ([ids.METHOD_ECHO, ids.METHOD_CONNECT, ids.METHOD_JOINCLUSTER,
    ids.METHOD_LEAVECLUSTER].Nodup)

/-- The members of `management::ArgsBrokerConnect` that the method reads. -/
structure ArgsBrokerConnect where
  i_host : String
  i_port : Nat
  i_useSsl : Bool
  i_durable : Bool
  i_authMechanism : String
  i_username : String
  i_password : String
  deriving DecidableEq, Repr

/-- The object behind the `Args&` of the call: an `ArgsBrokerConnect`, or an
object of another class derived from `Args` (such as `ArgsBrokerEcho`). -/
inductive Args where
  | brokerConnect (hp : ArgsBrokerConnect)
  | other
  deriving DecidableEq, Repr

/-- The cast `dynamic_cast<management::ArgsBrokerConnect&>(args)`; `none` when
it throws `std::bad_cast`. -/
def asBrokerConnect : Args → Option ArgsBrokerConnect
  | .brokerConnect hp => some hp
  | .other => none

/-- A link of the registry, named by its address. -/
abbrev Link := Nat

/-- The calls of the method on its collaborators. -/
inductive Effect where
  /-- The call `links.declare (host, port, useSsl, durable, authMechanism,
  username, password)`. -/
  | linksDeclare (host : String) (port : Nat) (useSsl durable : Bool)
      (authMechanism username password : String)
  /-- The call `store->create(link)`. -/
  | storeCreate (link : Link)
  deriving DecidableEq, Repr

/-- What the collaborators answer, as an input: `LinkRegistry` and the message
store are not among the sources.  `declared` is the pair that `links.declare`
returns, the link and whether it was newly created, or the exception it throws;
`created` is the outcome of `store->create`. -/
structure Surroundings where
  declared : Except String (Link × Bool)
  created : Except String Unit

/-- The `Broker::ManagementMethod`: the status returned, or the exception that
escapes, and the calls made.  The `switch` is a chain of comparisons with its
labels.  The log statement is left out.  `store` is not a null pointer: the
constructor sets it (lines 170-171) and nothing resets it. -/
def ManagementMethod (ids : MethodIds) (env : Surroundings) (methodId : Nat) (args : Args) :
    Except String status_t × List Effect :=
  let status := status_t.STATUS_UNKNOWN_METHOD
  if methodId = ids.METHOD_ECHO then
    (.ok status_t.STATUS_OK, [])
  else if methodId = ids.METHOD_CONNECT then
    match asBrokerConnect args with
    | none => (.error "std::bad_cast", [])
    | some hp =>
      if hp.i_useSsl then
        (.ok status_t.STATUS_FEATURE_NOT_IMPLEMENTED, [])
      else
        let declare := Effect.linksDeclare hp.i_host hp.i_port hp.i_useSsl hp.i_durable
          hp.i_authMechanism hp.i_username hp.i_password
        match env.declared with
        | .error e => (.error e, [declare])
        | .ok response =>
          if hp.i_durable && response.2 then
            match env.created with
            | .error e => (.error e, [declare, Effect.storeCreate response.1])
            | .ok _ => (.ok status_t.STATUS_OK, [declare, Effect.storeCreate response.1])
          else
            (.ok status_t.STATUS_OK, [declare])
  else if methodId = ids.METHOD_JOINCLUSTER ∨ methodId = ids.METHOD_LEAVECLUSTER then
    (.ok status_t.STATUS_NOT_IMPLEMENTED, [])
  else
    (.ok status, [])

/-- A numbering of the four methods. -/
def exIds : MethodIds := ⟨1, 2, 3, 4⟩

/-- A request for a durable link without SSL. -/
def exConnect : ArgsBrokerConnect :=
  { i_host := "backup.example.com", i_port := 5672, i_useSsl := false, i_durable := true,
    i_authMechanism := "PLAIN", i_username := "guest", i_password := "guest" }

/-- The registry creates link 7 and the store takes it. -/
def exSurroundings : Surroundings := { declared := .ok (7, true), created := .ok () }

end Broker

namespace ReplicatingSubscription

/-! ## Basic facts about the helpers -/

section helpers

variable (s : State) (c : Call) (e : Event)

@[simp] theorem call_position : (call c s).position = s.position := rfl
@[simp] theorem call_ready : (call c s).ready = s.ready := rfl
@[simp] theorem call_cancelled : (call c s).cancelled = s.cancelled := rfl
@[simp] theorem call_dequeues : (call c s).dequeues = s.dequeues := rfl
@[simp] theorem call_skip : (call c s).skip = s.skip := rfl
@[simp] theorem call_unready : (call c s).unready = s.unready := rfl
@[simp] theorem call_hasPrimary : (call c s).hasPrimary = s.hasPrimary := rfl
@[simp] theorem call_guardFirst : (call c s).guardFirst = s.guardFirst := rfl
@[simp] theorem call_lockHeld : (call c s).lockHeld = s.lockHeld := rfl
@[simp] theorem call_calls : (call c s).calls = s.calls ++ [c] := by
  simp [call, State.calls]

@[simp] theorem acquire_position : (acquire s).position = s.position := rfl
@[simp] theorem acquire_ready : (acquire s).ready = s.ready := rfl
@[simp] theorem acquire_cancelled : (acquire s).cancelled = s.cancelled := rfl
@[simp] theorem acquire_dequeues : (acquire s).dequeues = s.dequeues := rfl
@[simp] theorem acquire_skip : (acquire s).skip = s.skip := rfl
@[simp] theorem acquire_unready : (acquire s).unready = s.unready := rfl
@[simp] theorem acquire_hasPrimary : (acquire s).hasPrimary = s.hasPrimary := rfl
@[simp] theorem acquire_guardFirst : (acquire s).guardFirst = s.guardFirst := rfl
@[simp] theorem acquire_lockHeld : (acquire s).lockHeld = true := rfl
@[simp] theorem acquire_calls : (acquire s).calls = s.calls := rfl

@[simp] theorem release_position : (release s).position = s.position := rfl
@[simp] theorem release_ready : (release s).ready = s.ready := rfl
@[simp] theorem release_cancelled : (release s).cancelled = s.cancelled := rfl
@[simp] theorem release_dequeues : (release s).dequeues = s.dequeues := rfl
@[simp] theorem release_skip : (release s).skip = s.skip := rfl
@[simp] theorem release_unready : (release s).unready = s.unready := rfl
@[simp] theorem release_hasPrimary : (release s).hasPrimary = s.hasPrimary := rfl
@[simp] theorem release_guardFirst : (release s).guardFirst = s.guardFirst := rfl
@[simp] theorem release_lockHeld : (release s).lockHeld = false := rfl
@[simp] theorem release_calls : (release s).calls = s.calls := rfl

@[simp] theorem sendEvent_position : (sendEvent e s).position = s.position := rfl
@[simp] theorem sendEvent_ready : (sendEvent e s).ready = s.ready := rfl
@[simp] theorem sendEvent_cancelled : (sendEvent e s).cancelled = s.cancelled := rfl
@[simp] theorem sendEvent_dequeues : (sendEvent e s).dequeues = s.dequeues := rfl
@[simp] theorem sendEvent_skip : (sendEvent e s).skip = s.skip := rfl
@[simp] theorem sendEvent_unready : (sendEvent e s).unready = s.unready := rfl
@[simp] theorem sendEvent_hasPrimary : (sendEvent e s).hasPrimary = s.hasPrimary := rfl
@[simp] theorem sendEvent_guardFirst : (sendEvent e s).guardFirst = s.guardFirst := rfl
@[simp] theorem sendEvent_calls : (sendEvent e s).calls = s.calls ++ [.sendEvent e] := by
  simp [sendEvent]

@[simp] theorem checkReady_position : (checkReady s).position = s.position := by
  unfold checkReady; cases hp : s.hasPrimary <;> split <;> simp [hp, release, acquire, call]
@[simp] theorem checkReady_cancelled : (checkReady s).cancelled = s.cancelled := by
  unfold checkReady; cases hp : s.hasPrimary <;> split <;> simp [hp, release, acquire, call]
@[simp] theorem checkReady_dequeues : (checkReady s).dequeues = s.dequeues := by
  unfold checkReady; cases hp : s.hasPrimary <;> split <;> simp [hp, release, acquire, call]
@[simp] theorem checkReady_skip : (checkReady s).skip = s.skip := by
  unfold checkReady; cases hp : s.hasPrimary <;> split <;> simp [hp, release, acquire, call]
@[simp] theorem checkReady_unready : (checkReady s).unready = s.unready := by
  unfold checkReady; cases hp : s.hasPrimary <;> split <;> simp [hp, release, acquire, call]
@[simp] theorem checkReady_hasPrimary : (checkReady s).hasPrimary = s.hasPrimary := by
  unfold checkReady; cases hp : s.hasPrimary <;> split <;> simp [hp, release, acquire, call]
@[simp] theorem checkReady_guardFirst : (checkReady s).guardFirst = s.guardFirst := by
  unfold checkReady; cases hp : s.hasPrimary <;> split <;> simp [hp, release, acquire, call]
theorem checkReady_ready :
    (checkReady s).ready = (s.ready || (isGuarded s && decide (s.unready = ∅))) := by
  unfold checkReady
  cases hp : s.hasPrimary <;> cases hr : s.ready <;> cases hg : isGuarded s <;>
    by_cases hu : s.unready = ∅ <;> simp [hr, hg, hp, hu, release, acquire, call]
theorem checkReady_calls : (checkReady s).calls = s.calls ++ readyCalls s := by
  unfold checkReady readyCalls
  cases hr : s.ready <;> cases hg : isGuarded s <;> cases hp : s.hasPrimary <;>
    by_cases hu : s.unready = ∅ <;> simp [hr, hg, hp, hu, State.calls, release, acquire, call]

end helpers

/-! ## Construction: reconciliation -/

theorem ctorAttach_dequeues (args : Arguments) (env : Collaborators) (s : State) :
    (ctorAttach args env s).2.dequeues = s.dequeues := by
  unfold ctorAttach
  cases h1 : args.brokerInfo <;> cases h2 : env.hasIdSetter <;> cases h3 : s.hasPrimary <;>
    cases h4 : env.existingGuard <;> cases h5 : env.newGuard <;> simp [h3]

theorem ctorSnapshot_dequeues (args : Arguments) (env : Collaborators) (s : State) :
    (ctorSnapshot args env s).2.dequeues = s.dequeues := by
  unfold ctorSnapshot
  cases env.primaryIds <;> cases decodeBackupIds args env <;> cases env.range <;> simp

theorem ctorSnapshot_locals (args : Arguments) (env : Collaborators) (s : State)
    (A B : ReplicationIdSet)
    (hA : decodeBackupIds args env = .ok A) (hB : env.primaryIds = .ok B)
    (v : Locals) (hv : (ctorSnapshot args env s).1 = .ok v) :
    v.backupIds = A ∧ v.primaryIds = B ∧ v.initDequeues = A \ B := by
  unfold ctorSnapshot at hv
  rw [hB, hA] at hv
  cases hr : env.range with
  | error e => simp [hr] at hv
  | ok fb =>
    obtain ⟨f, b⟩ := fb
    simp [hr] at hv
    subst hv
    simp

theorem ctorReconcile_sets (v : Locals) (s : State) :
    (ctorReconcile v s).dequeues = s.dequeues ∪ v.initDequeues ∧
    (ctorReconcile v s).skip = v.backupIds \ v.initDequeues := by
  simp [ctorReconcile]

theorem sdiff_sdiff_eq_inter (A B : ReplicationIdSet) : A \ (A \ B) = A ∩ B := by
  ext x
  simp only [Finset.mem_sdiff, Finset.mem_inter]
  tauto

/-- The state in which the constructor takes the lock and the locals it holds
there, when it gets that far. -/
theorem construct_ok (args : Arguments) (env : Collaborators)
    (hok : (construct args env).1 = .ok ()) :
    ∃ s1 s2 v, ctorAttach args env (State.init env.hasPrimary) = (.ok (), s1) ∧
      ctorSnapshot args env s1 = (.ok v, s2) ∧
      (construct args env).2 = ctorReconcile v s2 := by
  rcases h1 : ctorAttach args env (State.init env.hasPrimary) with ⟨r1, s1⟩
  simp only [construct, h1] at hok ⊢
  cases r1 with
  | error e => simp at hok
  | ok u =>
    rcases h2 : ctorSnapshot args env s1 with ⟨r2, s2⟩
    cases r2 with
    | error e => simp [h2] at hok
    | ok v => exact ⟨s1, s2, v, rfl, by simp [h2], by simp [h2]⟩

/-- C1.  Reconciliation at construction: when the backup id set decodes to
`A`, the primary snapshot is `B` and the constructor returns, the local
`initDequeues` is `A − B`, the member `skip` is `A − initDequeues = A ∩ B`, the
member `dequeues` (empty at the start) is `initDequeues`, and the two are
disjoint. -/
theorem construct_reconciliation (args : Arguments) (env : Collaborators)
    (A B : ReplicationIdSet)
    (hA : decodeBackupIds args env = .ok A) (hB : env.primaryIds = .ok B)
    (hok : (construct args env).1 = .ok ()) :
    (∀ s v, (ctorSnapshot args env s).1 = .ok v →
        v.backupIds = A ∧ v.primaryIds = B ∧ v.initDequeues = A \ B) ∧
    (State.init env.hasPrimary).dequeues = ∅ ∧
    (construct args env).2.dequeues = A \ B ∧
    (construct args env).2.skip = A \ (A \ B) ∧
    (construct args env).2.skip = A ∩ B ∧
    Disjoint (construct args env).2.dequeues (construct args env).2.skip := by
  obtain ⟨s1, s2, v, h1, h2, h3⟩ := construct_ok args env hok
  have hv := ctorSnapshot_locals args env s1 A B hA hB v (by rw [h2])
  have hd : s2.dequeues = ∅ := by
    have e2 := ctorSnapshot_dequeues args env s1
    have e1 := ctorAttach_dequeues args env (State.init env.hasPrimary)
    rw [h2] at e2
    rw [h1] at e1
    simp only at e1 e2
    rw [e2, e1]
    rfl
  have hs := ctorReconcile_sets v s2
  rw [hd, hv.1, hv.2.2] at hs
  have hdq : (construct args env).2.dequeues = A \ B := by rw [h3, hs.1]; simp
  have hsk : (construct args env).2.skip = A \ (A \ B) := by rw [h3, hs.2]
  refine ⟨fun s v hv => ctorSnapshot_locals args env s A B hA hB v hv, rfl, hdq, hsk, ?_, ?_⟩
  · rw [hsk, sdiff_sdiff_eq_inter]
  · rw [hdq, hsk, sdiff_sdiff_eq_inter]
    exact Finset.disjoint_left.mpr (fun x hx hx2 =>
      (Finset.mem_sdiff.mp hx).2 (Finset.mem_inter.mp hx2).2)

/-- C1, scenario: backup id set `{1,2,3}` and primary snapshot `{2,3,4}` give
`dequeues = initDequeues = {1}` and `skip = {2,3}`. -/
theorem construct_reconciliation_witness :
    (construct exArgs exEnv).1 = .ok () ∧
    (construct exArgs exEnv).2.dequeues = {1} ∧
    (construct exArgs exEnv).2.skip = {2, 3} := by
  have hok : (construct exArgs exEnv).1 = .ok () := by rfl
  have h := construct_reconciliation exArgs exEnv {1, 2, 3} {2, 3, 4} (by rfl) rfl hok
  refine ⟨hok, ?_, ?_⟩
  · rw [h.2.2.1]; decide
  · rw [h.2.2.2.2.1]; decide

/-! ## Delivery -/

/-- The ready check reads only `ready`, `position`, the guard boundary,
`unready` and `hasPrimary`. -/
theorem readyCalls_congr (s t : State) (h1 : s.ready = t.ready)
    (h2 : s.position = t.position) (h3 : s.guardFirst = t.guardFirst)
    (h4 : s.unready = t.unready) (h5 : s.hasPrimary = t.hasPrimary) :
    readyCalls s = readyCalls t := by
  simp [readyCalls, isGuarded, h1, h2, h3, h4, h5]

/-- The unready set with which `deliver` reaches its ready check on the forward
path. -/
theorem deliver_forward_unready (s : State) (m : Message) (base : Except String Bool)
    (h : m.replicationId ∉ s.skip) :
    (deliver s m base).2.unready =
      if s.ready = false ∧ m.sequence + 1 < s.guardFirst
      then insert m.replicationId s.unready else s.unready := by
  unfold deliver
  cases base <;> cases hr : s.ready <;> by_cases hg : m.sequence + 1 < s.guardFirst <;>
    simp [h, hr, hg, isGuarded, sendIdEvent, acquire]

/-- C2.  Skip path of `deliver`: when the id of `m` is in `skip`, the call
returns true, `skip` loses exactly that id, `position` becomes the position of
`m`, `unready` and `dequeues` are unchanged, and the calls made are
`guard->complete(id)` once, then `notify()`, then the notification of the ready
check if it fires: no event is sent and the base class delivery is not called. -/
theorem deliver_skip_path (s : State) (m : Message) (base : Except String Bool)
    (h : m.replicationId ∈ s.skip) :
    (deliver s m base).1 = .ok true ∧
    (deliver s m base).2.skip = s.skip.erase m.replicationId ∧
    (deliver s m base).2.position = m.sequence ∧
    (deliver s m base).2.unready = s.unready ∧
    (deliver s m base).2.dequeues = s.dequeues ∧
    (∃ new, (deliver s m base).2.calls = s.calls ++ new ∧
      new = [.guardComplete m.replicationId, .notify]
              ++ readyCalls { s with position := m.sequence } ∧
      new.count (.guardComplete m.replicationId) = 1 ∧
      new.count .notify = 1 ∧
      (∀ e, Call.sendEvent e ∉ new) ∧ (∀ m', Call.consumerDeliver m' ∉ new)) := by
  have hc : readyCalls (call Call.notify (call (Call.guardComplete m.replicationId)
      { acquire s with position := m.sequence, skip := s.skip.erase m.replicationId }))
      = readyCalls { s with position := m.sequence } :=
    readyCalls_congr _ _ rfl rfl rfl rfl rfl
  refine ⟨?_, ?_, ?_, ?_, ?_, _, ?_, rfl, ?_, ?_, ?_, ?_⟩
  · simp [deliver, h, acquire]
  · simp [deliver, h, acquire]
  · simp [deliver, h, acquire]
  · simp [deliver, h, acquire]
  · simp [deliver, h, acquire]
  · simp only [deliver, acquire, h, if_true, release_calls, checkReady_calls, call_calls] at hc ⊢
    rw [hc]
    simp [State.calls]
  all_goals
    unfold readyCalls
    split <;> simp [List.count_cons]

/-- C2, scenario: with `skip = {2,3}`, delivering id 2 is skipped and completes
the guard for id 2. -/
theorem deliver_skip_path_witness :
    (deliver exState ⟨2, 5⟩ (.ok false)).1 = .ok true ∧
    (deliver exState ⟨2, 5⟩ (.ok false)).2.skip = {3} ∧
    (deliver exState ⟨2, 5⟩ (.ok false)).2.calls = [.guardComplete 2, .notify] := by
  have h := deliver_skip_path exState ⟨2, 5⟩ (.ok false) (by decide)
  obtain ⟨h1, h2, -, -, -, new, h3, h4, -⟩ := h
  refine ⟨h1, ?_, ?_⟩
  · rw [h2]; decide
  · rw [h3, h4]; decide

/-- C4.  Unready tracking of `deliver`: for a message whose id is not in
`skip`, `unready` gains the id if before the call `ready` is false and the
position of the message plus one is below `guard.getFirst()`, and is unchanged
otherwise. -/
theorem deliver_unready_tracking (s : State) (m : Message) (base : Except String Bool)
    (h : m.replicationId ∉ s.skip) :
    (s.ready = false ∧ m.sequence + 1 < s.guardFirst →
      (deliver s m base).2.unready = s.unready ∪ {m.replicationId}) ∧
    (¬ (s.ready = false ∧ m.sequence + 1 < s.guardFirst) →
      (deliver s m base).2.unready = s.unready) := by
  rw [deliver_forward_unready s m base h]
  constructor
  · intro hc
    rw [if_pos hc]
    ext x
    simp [or_comm]
  · intro hc
    rw [if_neg hc]

/-- C4, scenario: guard boundary 10, not ready, message at position 5: its id
goes into `unready`, and the subscription is not ready afterwards. -/
theorem deliver_unready_tracking_witness :
    (deliver exState ⟨4, 5⟩ (.ok true)).2.unready = {4} ∧
    (deliver exState ⟨4, 5⟩ (.ok true)).2.ready = false := by
  have h := (deliver_unready_tracking exState ⟨4, 5⟩ (.ok true) (by decide)).1
    ⟨rfl, by decide⟩
  exact ⟨by rw [h]; decide, by decide⟩

/-! ## Readiness -/

theorem sendDequeueEvent_ready (s : State) : (sendDequeueEvent s).ready = s.ready := by
  unfold sendDequeueEvent; split <;> simp
theorem sendDequeueEvent_unready (s : State) : (sendDequeueEvent s).unready = s.unready := by
  unfold sendDequeueEvent; split <;> simp
theorem sendDequeueEvent_position (s : State) : (sendDequeueEvent s).position = s.position := by
  unfold sendDequeueEvent; split <;> simp
theorem sendDequeueEvent_guardFirst (s : State) :
    (sendDequeueEvent s).guardFirst = s.guardFirst := by
  unfold sendDequeueEvent; split <;> simp
theorem sendDequeueEvent_dequeues (s : State) : (sendDequeueEvent s).dequeues = s.dequeues := by
  unfold sendDequeueEvent; split <;> simp

/-- Fields of the state after `deliver`. -/
theorem deliver_fields (s : State) (m : Message) (base : Except String Bool) :
    (deliver s m base).2.position = m.sequence ∧
    (deliver s m base).2.guardFirst = s.guardFirst ∧
    (deliver s m base).2.unready =
      (if m.replicationId ∉ s.skip ∧ s.ready = false ∧ m.sequence + 1 < s.guardFirst
       then insert m.replicationId s.unready else s.unready) ∧
    (deliver s m base).2.ready =
      (s.ready || ((decide (m.replicationId ∈ s.skip) || base.isOk) &&
        decide (s.guardFirst ≤ m.sequence + 1) && decide (s.unready = ∅))) := by
  by_cases hm : m.replicationId ∈ s.skip
  · simp [deliver, hm, acquire, checkReady_ready, isGuarded]
  · have hu := deliver_forward_unready s m base hm
    refine ⟨?_, ?_, ?_, ?_⟩
    · cases base <;> simp [deliver, hm, acquire, sendIdEvent] <;> split <;> simp
    · cases base <;> simp [deliver, hm, acquire, sendIdEvent] <;> split <;> simp
    · simp [hu, hm]
    · cases base <;> cases hr : s.ready <;> by_cases hg : m.sequence + 1 < s.guardFirst <;>
        by_cases hu : s.unready = ∅ <;>
        simp [deliver, hm, hr, hg, hu, isGuarded, sendIdEvent, acquire, checkReady_ready,
          Except.isOk, Except.toBool]

/-- Fields of the state after `acknowledged`. -/
theorem acknowledged_fields (s : State) (r : DeliveryRecord) :
    (acknowledged s r).position = s.position ∧
    (acknowledged s r).guardFirst = s.guardFirst ∧
    (acknowledged s r).unready = s.unready.erase r.replicationId ∧
    (acknowledged s r).ready =
      (s.ready || (isGuarded s && decide (s.unready.erase r.replicationId = ∅))) := by
  simp [acknowledged, checkReady_ready, isGuarded, acquire]

/-- The operations other than `deliver` and `acknowledged` leave `position`,
the guard boundary, `unready` and `ready` as they are. -/
theorem other_fields (s : State) :
    (∀ id, (dequeued s id).position = s.position ∧ (dequeued s id).guardFirst = s.guardFirst ∧
      (dequeued s id).unready = s.unready ∧ (dequeued s id).ready = s.ready) ∧
    (∀ base, (doDispatch s base).2.position = s.position ∧
      (doDispatch s base).2.guardFirst = s.guardFirst ∧
      (doDispatch s base).2.unready = s.unready ∧ (doDispatch s base).2.ready = s.ready) ∧
    (∀ ids, (addSkip s ids).position = s.position ∧ (addSkip s ids).guardFirst = s.guardFirst ∧
      (addSkip s ids).unready = s.unready ∧ (addSkip s ids).ready = s.ready) ∧
    ((initialise s).position = s.position ∧ (initialise s).guardFirst = s.guardFirst ∧
      (initialise s).unready = s.unready ∧ (initialise s).ready = s.ready) ∧
    ((cancel s).position = s.position ∧ (cancel s).guardFirst = s.guardFirst ∧
      (cancel s).unready = s.unready ∧ (cancel s).ready = s.ready) := by
  refine ⟨?_, ?_, ?_, ?_, ?_⟩
  · intro id; simp [dequeued, acquire]
  · intro base
    cases base <;> by_cases hd : s.dequeues = ∅ <;>
      simp [doDispatch, hd, acquire, sendDequeueEvent]
  · intro ids; simp [addSkip, acquire]
  · cases hp : s.hasPrimary <;>
      simp [initialise, hp, sendDequeueEvent_ready, sendDequeueEvent_unready,
        sendDequeueEvent_position, sendDequeueEvent_guardFirst]
  · cases hp : s.hasPrimary <;> cases hc : s.cancelled <;> simp [cancel, hp, hc, acquire]

/-- One operation keeps a ready subscription ready. -/
theorem step_ready (s : State) (op : Op) (h : s.ready = true) : (step s op).ready = true := by
  obtain ⟨h1, h2, h3, h4, h5⟩ := other_fields s
  cases op with
  | deliver m base => simp [step, (deliver_fields s m base).2.2.2, h]
  | acknowledged r => simp [step, (acknowledged_fields s r).2.2.2, h]
  | dequeued id => simp [step, (h1 id).2.2.2, h]
  | doDispatch base => simp [step, (h2 base).2.2.2, h]
  | addSkip ids => simp [step, (h3 ids).2.2.2, h]
  | initialise => simp [step, h4.2.2.2, h]
  | cancel => simp [step, h5.2.2.2, h]

/-- C5.  Readiness is monotonic: from a state in which `ready` is true, each of
`deliver`, `acknowledged`, `dequeued`, `doDispatch`, `addSkip`, `initialize` and
`cancel`, and every finite sequence of them, leaves `ready` true. -/
theorem ready_monotonic (s : State) (h : s.ready = true) :
    (∀ op, (step s op).ready = true) ∧ (∀ ops, (run s ops).ready = true) := by
  refine ⟨fun op => step_ready s op h, fun ops => ?_⟩
  induction ops generalizing s with
  | nil => exact h
  | cons op ops ih => exact ih (step s op) (step_ready s op h)

/-- C5, scenario: a ready subscription stays ready through a delivery below the
guard boundary, a dequeue, a dispatch, an acknowledgement and a cancel. -/
theorem ready_monotonic_witness :
    exReady.ready = true ∧
    (run exReady [.deliver ⟨7, 3⟩ (.ok true), .dequeued 7, .doDispatch (.error "x"),
      .acknowledged ⟨7, 3⟩, .cancel]).ready = true :=
  ⟨rfl, (ready_monotonic exReady rfl).2 _⟩

/-! ## Invariants of the reachable states -/

theorem ctorAttach_fields (args : Arguments) (env : Collaborators) (s : State) :
    (ctorAttach args env s).2.ready = s.ready ∧
    (ctorAttach args env s).2.unready = s.unready := by
  unfold ctorAttach
  cases h1 : args.brokerInfo <;> cases h2 : env.hasIdSetter <;> cases h3 : s.hasPrimary <;>
    cases h4 : env.existingGuard <;> cases h5 : env.newGuard <;> simp [h3]

theorem ctorSnapshot_fields (args : Arguments) (env : Collaborators) (s : State) :
    (ctorSnapshot args env s).2.ready = s.ready ∧
    (ctorSnapshot args env s).2.unready = s.unready := by
  unfold ctorSnapshot
  cases env.primaryIds <;> cases decodeBackupIds args env <;> cases env.range <;> simp

/-- The state in which the constructor takes the lock is not ready and has an
empty `unready`. -/
theorem construct_before_lock (args : Arguments) (env : Collaborators) (s1 s2 : State)
    (v : Locals) (h1 : ctorAttach args env (State.init env.hasPrimary) = (.ok (), s1))
    (h2 : ctorSnapshot args env s1 = (.ok v, s2)) :
    s2.ready = false ∧ s2.unready = ∅ := by
  have e1 := ctorAttach_fields args env (State.init env.hasPrimary)
  have e2 := ctorSnapshot_fields args env s1
  rw [h1] at e1
  rw [h2] at e2
  simp only at e1 e2
  exact ⟨by rw [e2.1, e1.1]; rfl, by rw [e2.2, e1.2]; rfl⟩

/-- After a successful construction `unready` is empty and, if the subscription
is ready, its next position is guarded. -/
theorem construct_invariants (args : Arguments) (env : Collaborators)
    (hok : (construct args env).1 = .ok ()) :
    (construct args env).2.unready = ∅ ∧
    ((construct args env).2.ready = true →
      (construct args env).2.guardFirst ≤ (construct args env).2.position + 1) := by
  obtain ⟨s1, s2, v, h1, h2, h3⟩ := construct_ok args env hok
  obtain ⟨hr, hu⟩ := construct_before_lock args env s1 s2 v h1 h2
  rw [h3]
  constructor
  · simp [ctorReconcile, acquire, hu]
  · simp [ctorReconcile, acquire, checkReady_ready, hr, isGuarded]
    intro hg _
    exact hg

/-- One operation preserves: ready implies `unready` empty. -/
theorem step_ready_unready (s : State) (op : Op)
    (h : s.ready = true → s.unready = ∅) :
    (step s op).ready = true → (step s op).unready = ∅ := by
  obtain ⟨h1, h2, h3, h4, h5⟩ := other_fields s
  cases op with
  | deliver m base =>
    obtain ⟨-, -, du, dr⟩ := deliver_fields s m base
    simp only [step, du, dr]
    cases hr : s.ready
    · simp
      intro _ hg hu
      simp [hu]
      intro _
      exact hg
    · simp [h hr, hr]
  | acknowledged r =>
    obtain ⟨-, -, au, ar⟩ := acknowledged_fields s r
    simp only [step, au, ar]
    cases hr : s.ready
    · simp
    · simp [h hr]
  | dequeued id => simpa [step, (h1 id).2.2.1, (h1 id).2.2.2] using h
  | doDispatch base => simpa [step, (h2 base).2.2.1, (h2 base).2.2.2] using h
  | addSkip ids => simpa [step, (h3 ids).2.2.1, (h3 ids).2.2.2] using h
  | initialise => simpa [step, h4.2.2.1, h4.2.2.2] using h
  | cancel => simpa [step, h5.2.2.1, h5.2.2.2] using h

/-- C6.  A subscription with a non-empty `unready` never reports ready: in
every state reached from a successful construction by a sequence of `deliver`,
`acknowledged`, `dequeued`, `doDispatch`, `addSkip`, `initialize` and `cancel`
calls, `ready = true` implies that `unready` is empty. -/
theorem ready_implies_unready_empty (args : Arguments) (env : Collaborators) (ops : List Op)
    (hok : (construct args env).1 = .ok ())
    (hready : (run (construct args env).2 ops).ready = true) :
    (run (construct args env).2 ops).unready = ∅ := by
  have h0 : (construct args env).2.ready = true → (construct args env).2.unready = ∅ :=
    fun _ => (construct_invariants args env hok).1
  revert hready
  generalize (construct args env).2 = s at h0
  induction ops generalizing s with
  | nil => exact h0
  | cons op ops ih => exact ih (step s op) (step_ready_unready s op h0)

/-- C6, scenario: the subscription forwards id 4 ahead of the guard boundary,
has it acknowledged, then reaches the boundary: it is ready with `unready`
empty. -/
theorem ready_implies_unready_empty_witness :
    (run (construct exArgs exEnv).2
      [.deliver ⟨4, 5⟩ (.ok true), .acknowledged ⟨4, 5⟩, .deliver ⟨5, 9⟩ (.ok true)]).ready
        = true ∧
    (run (construct exArgs exEnv).2
      [.deliver ⟨4, 5⟩ (.ok true), .acknowledged ⟨4, 5⟩, .deliver ⟨5, 9⟩ (.ok true)]).unready
        = ∅ :=
  ⟨by decide, ready_implies_unready_empty exArgs exEnv _ (by rfl) (by decide)⟩

/-- C8.  The `acknowledged` call for a record with replication id `i` makes, in
this order, the call `guard->complete(i)`, the removal of `i` from `unready`,
the ready check (on the reduced `unready`) and the base class `acknowledged`;
`position`, `skip`, `dequeues` and `cancelled` are unchanged. -/
theorem acknowledged_effect (s : State) (r : DeliveryRecord) :
    (acknowledged s r).calls =
      s.calls ++ [.guardComplete r.replicationId]
        ++ readyCalls { s with unready := s.unready \ {r.replicationId} }
        ++ [.consumerAcknowledged r] ∧
    (acknowledged s r).unready = s.unready \ {r.replicationId} ∧
    (acknowledged s r).ready =
      (s.ready || (decide (s.position + 1 ≥ s.guardFirst) &&
        decide (s.unready \ {r.replicationId} = ∅))) ∧
    (acknowledged s r).position = s.position ∧
    (acknowledged s r).skip = s.skip ∧
    (acknowledged s r).dequeues = s.dequeues ∧
    (acknowledged s r).cancelled = s.cancelled := by
  have hc : readyCalls { acquire (call (Call.guardComplete r.replicationId) s) with
        unready := s.unready.erase r.replicationId }
      = readyCalls { s with unready := s.unready \ {r.replicationId} } :=
    readyCalls_congr _ _ rfl rfl rfl (Finset.sdiff_singleton_eq_erase _ _).symm rfl
  refine ⟨?_, ?_, ?_, ?_, ?_, ?_, ?_⟩
  · simp only [acknowledged, call_calls, release_calls, checkReady_calls]
    rw [← hc]
    simp [State.calls, acquire, call]
  · simp [acknowledged, acquire, Finset.sdiff_singleton_eq_erase]
  · simp [acknowledged, acquire, checkReady_ready, isGuarded, Finset.sdiff_singleton_eq_erase]
  · simp [acknowledged, acquire]
  · simp [acknowledged, acquire]
  · simp [acknowledged, acquire]
  · simp [acknowledged, acquire]

/-- One operation that is not an acknowledgement of `i` keeps `i` in `unready`
and the subscription not ready. -/
theorem step_keeps_unready (s : State) (op : Op) (i : ReplicationId)
    (hi : i ∈ s.unready) (hr : s.ready = false) (hop : op.notAckOf i = true) :
    i ∈ (step s op).unready ∧ (step s op).ready = false := by
  have hne : s.unready ≠ ∅ := Finset.ne_empty_of_mem hi
  obtain ⟨h1, h2, h3, h4, h5⟩ := other_fields s
  cases op with
  | deliver m base =>
    obtain ⟨-, -, du, dr⟩ := deliver_fields s m base
    simp only [step, du, dr]
    constructor
    · split
      · exact Finset.mem_insert_of_mem hi
      · exact hi
    · simp [hr, hne]
  | acknowledged r =>
    obtain ⟨-, -, au, ar⟩ := acknowledged_fields s r
    simp only [Op.notAckOf, decide_eq_true_eq] at hop
    have hmem : i ∈ s.unready.erase r.replicationId :=
      Finset.mem_erase.mpr ⟨fun e => hop e.symm, hi⟩
    simp only [step, au, ar]
    exact ⟨hmem, by simp [hr, Finset.ne_empty_of_mem hmem]⟩
  | dequeued id => simpa [step, (h1 id).2.2.1, (h1 id).2.2.2] using ⟨hi, hr⟩
  | doDispatch base => simpa [step, (h2 base).2.2.1, (h2 base).2.2.2] using ⟨hi, hr⟩
  | addSkip ids => simpa [step, (h3 ids).2.2.1, (h3 ids).2.2.2] using ⟨hi, hr⟩
  | initialise => simpa [step, h4.2.2.1, h4.2.2.2] using ⟨hi, hr⟩
  | cancel => simpa [step, h5.2.2.1, h5.2.2.2] using ⟨hi, hr⟩

/-- A sequence of operations without an acknowledgement of `i` keeps `i` in
`unready` and the subscription not ready. -/
theorem run_keeps_unready (s : State) (ops : List Op) (i : ReplicationId)
    (hi : i ∈ s.unready) (hr : s.ready = false)
    (hops : ∀ op ∈ ops, op.notAckOf i = true) :
    i ∈ (run s ops).unready ∧ (run s ops).ready = false := by
  induction ops generalizing s with
  | nil => exact ⟨hi, hr⟩
  | cons op ops ih =>
    obtain ⟨hi2, hr2⟩ := step_keeps_unready s op i hi hr (hops op (List.mem_cons_self _ _))
    exact ih (step s op) hi2 hr2 (fun o ho => hops o (List.mem_cons_of_mem _ ho))

/-- C9.  Readiness waits for the acknowledgement: if `deliver` added `i` to
`unready`, the subscription is not ready after it, and after every further
sequence of `deliver`, `dequeued`, `doDispatch`, `addSkip`, `initialize`,
`cancel` calls and `acknowledged` calls for ids other than `i`, `i` is still in
`unready` and `ready` is still false.  In any state, an operation other than
the acknowledgement of `i` keeps `i` in `unready`, and the acknowledgement of
`i` removes it. -/
theorem ready_waits_for_acknowledgement (s : State) (m : Message)
    (base : Except String Bool) (i : ReplicationId) (ops : List Op)
    (hbefore : i ∉ s.unready) (hadded : i ∈ (deliver s m base).2.unready)
    (hops : ∀ op ∈ ops, op.notAckOf i = true) :
    (deliver s m base).2.ready = false ∧
    i ∈ (run (deliver s m base).2 ops).unready ∧
    (run (deliver s m base).2 ops).ready = false ∧
    (∀ (t : State) (op : Op), i ∈ t.unready → op.notAckOf i = true →
      i ∈ (step t op).unready) ∧
    (∀ (t : State) (r : DeliveryRecord), r.replicationId = i →
      i ∉ (acknowledged t r).unready) := by
  have hr : (deliver s m base).2.ready = false := by
    obtain ⟨-, -, du, dr⟩ := deliver_fields s m base
    rw [du] at hadded
    rw [dr]
    split at hadded
    · rename_i hc
      have hg : ¬ (s.guardFirst ≤ m.sequence + 1) := Nat.not_le.mpr hc.2.2
      simp [hc.2.1, hg]
    · exact absurd hadded hbefore
  obtain ⟨h1, h2⟩ := run_keeps_unready _ ops i hadded hr hops
  refine ⟨hr, h1, h2, ?_, ?_⟩
  · intro t op hi hop
    obtain ⟨h1, h2, h3, h4, h5⟩ := other_fields t
    cases op with
    | deliver m base =>
      simp only [step, (deliver_fields t m base).2.2.1]
      split
      · exact Finset.mem_insert_of_mem hi
      · exact hi
    | acknowledged r =>
      simp only [Op.notAckOf, decide_eq_true_eq] at hop
      simp only [step, (acknowledged_fields t r).2.2.1]
      exact Finset.mem_erase.mpr ⟨fun e => hop e.symm, hi⟩
    | dequeued id => simpa [step, (h1 id).2.2.1] using hi
    | doDispatch base => simpa [step, (h2 base).2.2.1] using hi
    | addSkip ids => simpa [step, (h3 ids).2.2.1] using hi
    | initialise => simpa [step, h4.2.2.1] using hi
    | cancel => simpa [step, h5.2.2.1] using hi
  · intro t r hri
    rw [(acknowledged_fields t r).2.2.1, hri]
    exact Finset.not_mem_erase _ _

/-- C9, scenario: guard boundary 10; the delivery at position 5 puts id 4 into
`unready`; a skipped delivery, a dequeue, a dispatch, an acknowledgement of
another id and a delivery at the boundary leave the subscription not ready. -/
theorem ready_waits_for_acknowledgement_witness :
    4 ∈ (deliver exState ⟨4, 5⟩ (.ok true)).2.unready ∧
    (run (deliver exState ⟨4, 5⟩ (.ok true)).2
      [.deliver ⟨2, 6⟩ (.ok true), .dequeued 2, .doDispatch (.ok false),
       .acknowledged ⟨5, 7⟩, .deliver ⟨6, 9⟩ (.ok true)]).ready = false :=
  ⟨by decide,
   (ready_waits_for_acknowledgement exState ⟨4, 5⟩ (.ok true) 4 _ (by decide) (by decide)
      (by decide)).2.2.1⟩

/-! ## Dispatch -/

/-- C10.  Batching in `doDispatch`: if `dequeues` is not empty the calls made
are one send of a `DequeueEvent` carrying the whole `dequeues` set and then the
base class dispatch; if `dequeues` is empty the base class dispatch is the only
call. -/
theorem doDispatch_batching (s : State) (base : Except String Bool) :
    (doDispatch s base).2.calls =
      s.calls
        ++ (if s.dequeues = ∅ then [] else [Call.sendEvent (.DequeueEvent s.dequeues)])
        ++ [.consumerDoDispatch] := by
  cases base <;> by_cases hd : s.dequeues = ∅ <;>
    simp [doDispatch, hd, acquire, sendDequeueEvent] <;> rfl

/-! ## Dequeue batches -/

/-- The `sendDequeueEvent` call leaves every member as it is. -/
theorem sendDequeueEvent_frame (s : State) :
    (sendDequeueEvent s).dequeues = s.dequeues ∧ (sendDequeueEvent s).skip = s.skip ∧
    (sendDequeueEvent s).cancelled = s.cancelled ∧
    (sendDequeueEvent s).hasPrimary = s.hasPrimary := by
  unfold sendDequeueEvent; split <;> simp

/-- The `doDispatch` call leaves `dequeues` as it is. -/
theorem doDispatch_dequeues (s : State) (base : Except String Bool) :
    (doDispatch s base).2.dequeues = s.dequeues := by
  cases base <;> by_cases hd : s.dequeues = ∅ <;>
    simp [doDispatch, hd, acquire, sendDequeueEvent]

/-- C11, the code at the failing input: with `dequeues = {1}`, `doDispatch` sends
the dequeue event for `{1}` and `dequeues` is still `{1}` afterwards; likewise
after `initialize`. -/
theorem doDispatch_does_not_clear :
    (doDispatch exState (.ok true)).2.calls =
      [.sendEvent (.DequeueEvent {1}), .consumerDoDispatch] ∧
    (doDispatch exState (.ok true)).2.dequeues = {1} ∧
    (initialise exState).calls = [.primaryAddReplica, .sendEvent (.DequeueEvent {1})] ∧
    (initialise exState).dequeues = {1} := by
  refine ⟨by decide, by decide, by decide, by decide⟩

/-- C12, the code at the failing input: after `dequeued(1)`, `doDispatch`,
`dequeued(2)`, `doDispatch` the dequeue events sent carry `{1}` and `{1,2}`: id 1
is in two consecutive batches. -/
theorem dequeue_batches_repeat :
    dequeueBatches (run exFresh [.dequeued 1, .doDispatch (.ok true), .dequeued 2,
      .doDispatch (.ok true)]).calls = [{1}, {1, 2}] := by
  decide

/-- C13.  The `dequeued(id)` call adds `id` to `dequeues`, leaves `position`,
`ready`, `cancelled`, `skip` and `unready` as they are, and makes one call,
`notify()`: it sends no event. -/
theorem dequeued_effect (s : State) (id : ReplicationId) :
    (dequeued s id).dequeues = s.dequeues ∪ {id} ∧
    (dequeued s id).position = s.position ∧
    (dequeued s id).ready = s.ready ∧
    (dequeued s id).cancelled = s.cancelled ∧
    (dequeued s id).skip = s.skip ∧
    (dequeued s id).unready = s.unready ∧
    (dequeued s id).calls = s.calls ++ [.notify] := by
  refine ⟨?_, rfl, rfl, rfl, rfl, rfl, ?_⟩
  · ext x
    simp [dequeued, acquire, or_comm]
  · simp [dequeued, acquire]
    rfl

/-! ## Calls made by one operation -/

/-- The calls of `deliver`: the two calls of its branch, then at most the
notification of the ready check. -/
theorem deliver_calls (s : State) (m : Message) (base : Except String Bool) :
    ∃ tail, (tail = [] ∨ tail = [Call.primaryReadyReplica]) ∧
      (deliver s m base).2.calls =
        s.calls ++ (if m.replicationId ∈ s.skip
          then [.guardComplete m.replicationId, .notify]
          else [.sendEvent (.IdEvent m.replicationId), .consumerDeliver m]) ++ tail := by
  by_cases hm : m.replicationId ∈ s.skip
  · refine ⟨readyCalls (call Call.notify (call (Call.guardComplete m.replicationId)
      { acquire s with position := m.sequence, skip := s.skip.erase m.replicationId })), ?_, ?_⟩
    · unfold readyCalls; split <;> simp
    · simp only [deliver, acquire, hm, if_true, release_calls, checkReady_calls, call_calls]
      simp [State.calls]
  · cases base with
    | error e =>
      refine ⟨[], Or.inl rfl, ?_⟩
      simp [deliver, hm, acquire, sendIdEvent]
      split <;> rfl
    | ok b =>
      cases hr : s.ready <;> by_cases hg : m.sequence + 1 < s.guardFirst <;>
        cases hp : s.hasPrimary <;> by_cases hu : s.unready = ∅ <;>
        first
        | (refine ⟨[], Or.inl rfl, ?_⟩
           simp [deliver, hm, hr, hg, hp, hu, isGuarded, sendIdEvent, acquire,
              checkReady_calls, readyCalls]
           simp [State.calls, call, hg]
           done)
        | (refine ⟨[.primaryReadyReplica], Or.inr rfl, ?_⟩
           simp [deliver, hm, hr, hg, hp, hu, isGuarded, sendIdEvent, acquire,
              checkReady_calls, readyCalls]
           simp [State.calls, call, hg])

/-- The calls of `acknowledged`. -/
theorem acknowledged_calls (s : State) (r : DeliveryRecord) :
    ∃ tail, (tail = [] ∨ tail = [Call.primaryReadyReplica]) ∧
      (acknowledged s r).calls =
        s.calls ++ [.guardComplete r.replicationId] ++ tail ++ [.consumerAcknowledged r] := by
  refine ⟨readyCalls { acquire (call (Call.guardComplete r.replicationId) s) with
        unready := s.unready.erase r.replicationId }, ?_, ?_⟩
  · unfold readyCalls; split <;> simp
  · simp only [acknowledged, call_calls, release_calls, checkReady_calls]
    simp [State.calls, acquire, call]

/-- The calls of `doDispatch`. -/
theorem doDispatch_calls (s : State) (base : Except String Bool) :
    (doDispatch s base).2.calls =
      s.calls ++ (if s.dequeues = ∅ then [] else [Call.sendEvent (.DequeueEvent s.dequeues)])
        ++ [.consumerDoDispatch] := by
  cases base <;> by_cases hd : s.dequeues = ∅ <;>
    simp [doDispatch, hd, acquire, sendDequeueEvent] <;> rfl

/-- The calls of `initialize`. -/
theorem initialise_calls (s : State) :
    (initialise s).calls =
      s.calls ++ (if s.hasPrimary then [Call.primaryAddReplica] else [])
        ++ (if s.dequeues = ∅ then [] else [Call.sendEvent (.DequeueEvent s.dequeues)]) := by
  cases hp : s.hasPrimary <;> by_cases hd : s.dequeues = ∅ <;>
    simp [initialise, hp, hd, acquire, sendDequeueEvent] <;> simp [State.calls, call]

/-- The calls of `cancel`. -/
theorem cancel_calls (s : State) :
    (cancel s).calls =
      s.calls ++ (if s.cancelled then []
        else (if s.hasPrimary then [Call.primaryRemoveReplica] else [])
          ++ [.queueRemoveObserver, .guardCancel, .consumerCancel]) := by
  cases hp : s.hasPrimary <;> cases hc : s.cancelled <;>
    simp [cancel, hp, hc, acquire] <;> rfl

/-- The calls of `dequeued` and of `addSkip`. -/
theorem dequeued_addSkip_calls (s : State) :
    (∀ id, (dequeued s id).calls = s.calls ++ [.notify]) ∧
    (∀ ids, (addSkip s ids).calls = s.calls) := by
  constructor
  · intro id; simp [dequeued, acquire]; rfl
  · intro ids; simp [addSkip, acquire]; rfl

/-- The members `cancelled`, `hasPrimary` after one operation. -/
theorem step_cancelled (s : State) (op : Op) :
    (step s op).hasPrimary = s.hasPrimary ∧
    (step s op).cancelled = (s.cancelled || op.isCancel) := by
  cases op with
  | deliver m base =>
    by_cases hm : m.replicationId ∈ s.skip
    · simp [step, deliver, hm, acquire, Op.isCancel]
    · cases base <;> simp [step, deliver, hm, acquire, sendIdEvent, Op.isCancel] <;>
        split <;> simp
  | acknowledged r => simp [step, acknowledged, acquire, Op.isCancel]
  | dequeued id => simp [step, dequeued, acquire, Op.isCancel]
  | doDispatch base =>
    cases base <;> by_cases hd : s.dequeues = ∅ <;>
      simp [step, doDispatch, hd, acquire, sendDequeueEvent, Op.isCancel]
  | addSkip ids => simp [step, addSkip, acquire, Op.isCancel]
  | initialise =>
    cases hp : s.hasPrimary <;>
      simp [step, initialise, hp, (sendDequeueEvent_frame _).2.2, Op.isCancel]
  | cancel =>
    cases hp : s.hasPrimary <;> cases hc : s.cancelled <;>
      simp [step, cancel, hp, hc, acquire, Op.isCancel]

/-! ## Cancellation -/

/-- An operation other than the first `cancel` makes no teardown call. -/
theorem step_teardown_same (s : State) (op : Op) (c : Call) (hc : c.isTeardown = true)
    (hop : op.isCancel = false ∨ s.cancelled = true) :
    (step s op).calls.count c = s.calls.count c := by
  cases op with
  | deliver m base =>
    obtain ⟨tail, ht, hcalls⟩ := deliver_calls s m base
    simp only [step, hcalls]
    rcases ht with rfl | rfl <;> cases c <;> simp [Call.isTeardown] at hc <;>
      split <;> simp [List.count_cons]
  | acknowledged r =>
    obtain ⟨tail, ht, hcalls⟩ := acknowledged_calls s r
    simp only [step, hcalls]
    rcases ht with rfl | rfl <;> cases c <;> simp [Call.isTeardown] at hc <;>
      simp [List.count_cons]
  | dequeued id =>
    simp only [step, (dequeued_addSkip_calls s).1]
    cases c <;> simp [Call.isTeardown] at hc <;> simp [List.count_cons]
  | doDispatch base =>
    simp only [step, doDispatch_calls]
    cases c <;> simp [Call.isTeardown] at hc <;> split <;> simp [List.count_cons]
  | addSkip ids => simp only [step, (dequeued_addSkip_calls s).2]
  | initialise =>
    simp only [step, initialise_calls]
    cases c <;> simp [Call.isTeardown] at hc <;> split <;> split <;> simp [List.count_cons]
  | cancel =>
    have hcan : s.cancelled = true := by simpa [Op.isCancel] using hop
    simp [step, cancel_calls, hcan]

/-- The first `cancel` makes each teardown call once, the notification of the
Primary role only if there is one. -/
theorem cancel_teardown_first (s : State) (c : Call) (hc : c.isTeardown = true)
    (hs : s.cancelled = false) :
    (cancel s).calls.count c = s.calls.count c + teardownCount s c := by
  rw [cancel_calls]
  cases hp : s.hasPrimary <;> cases c <;> simp [Call.isTeardown] at hc <;>
    simp [hs, hp, teardownCount, List.count_cons]

/-- Once cancelled, a subscription stays cancelled and makes no teardown call. -/
theorem run_cancelled (s : State) (ops : List Op) (hs : s.cancelled = true) :
    (run s ops).cancelled = true ∧
    ∀ c, c.isTeardown = true → (run s ops).calls.count c = s.calls.count c := by
  induction ops generalizing s with
  | nil => exact ⟨hs, fun _ _ => rfl⟩
  | cons op ops ih =>
    have h1 : (step s op).cancelled = true := by simp [(step_cancelled s op).2, hs]
    obtain ⟨h2, h3⟩ := ih (step s op) h1
    refine ⟨h2, fun c hc => ?_⟩
    have := h3 c hc
    simp only [run, List.foldl_cons] at this ⊢
    rw [this, step_teardown_same s op c hc (Or.inr hs)]

/-- A sequence with a `cancel` in it, from a subscription that is not cancelled,
makes each teardown call as often as one first `cancel` does. -/
theorem run_teardown (s : State) (ops : List Op) (hs : s.cancelled = false)
    (hops : ∃ op ∈ ops, op.isCancel = true) :
    (run s ops).cancelled = true ∧
    ∀ c, c.isTeardown = true →
      (run s ops).calls.count c = s.calls.count c + teardownCount s c := by
  induction ops generalizing s with
  | nil => simp at hops
  | cons op ops ih =>
    cases hop : op.isCancel
    · have h1 : (step s op).cancelled = false := by simp [(step_cancelled s op).2, hs, hop]
      have hrest : ∃ o ∈ ops, o.isCancel = true := by
        obtain ⟨o, ho, hoc⟩ := hops
        rcases List.mem_cons.mp ho with rfl | ho
        · rw [hop] at hoc; cases hoc
        · exact ⟨o, ho, hoc⟩
      obtain ⟨h2, h3⟩ := ih (step s op) h1 hrest
      refine ⟨h2, fun c hc => ?_⟩
      have := h3 c hc
      simp only [run, List.foldl_cons] at this ⊢
      rw [this, step_teardown_same s op c hc (Or.inl hop)]
      simp [teardownCount, (step_cancelled s op).1]
    · have hcan : op = .cancel := by cases op <;> simp [Op.isCancel] at hop; rfl
      subst hcan
      have h1 : (step s .cancel).cancelled = true := by simp [(step_cancelled s .cancel).2, hop]
      obtain ⟨h2, h3⟩ := run_cancelled (step s .cancel) ops h1
      refine ⟨h2, fun c hc => ?_⟩
      have := h3 c hc
      simp only [run, List.foldl_cons] at this ⊢
      rw [this]
      exact cancel_teardown_first s c hc hs

/-- C14, counterexample: on a broker whose role is not a `Primary` the first
`cancel` makes no `removeReplica` notification; its calls are the removal of the
observer, the guard cancel and the base class cancel. -/
theorem cancel_without_primary_counterexample :
    exStandalone.cancelled = false ∧
    (cancel exStandalone).calls = [.queueRemoveObserver, .guardCancel, .consumerCancel] ∧
    (cancel exStandalone).calls.count .primaryRemoveReplica = 0 := by
  refine ⟨rfl, by decide, by decide⟩

/-- C14, amended.  The first `cancel` sets `cancelled` and makes, in this order,
the `removeReplica` notification if there is a Primary role, the removal of the
observer, the guard cancel and the base class cancel; a `cancel` of a cancelled
subscription changes no member and makes no call; over a sequence of operations
with one or more `cancel` calls in it each of the four calls is made as often as
by the first `cancel` alone; `cancelled` never goes back to false. -/
theorem cancel_one_shot (s : State) (ops : List Op) (hs : s.cancelled = false)
    (hops : Op.cancel ∈ ops) :
    ((cancel s).cancelled = true ∧
      (cancel s).calls = s.calls
        ++ (if s.hasPrimary then [Call.primaryRemoveReplica] else [])
        ++ [.queueRemoveObserver, .guardCancel, .consumerCancel]) ∧
    (∀ t : State, t.cancelled = true →
      (cancel t).calls = t.calls ∧ (cancel t).cancelled = true ∧
      (cancel t).position = t.position ∧ (cancel t).ready = t.ready ∧
      (cancel t).dequeues = t.dequeues ∧ (cancel t).skip = t.skip ∧
      (cancel t).unready = t.unready) ∧
    ((run s ops).calls.count .primaryRemoveReplica =
        s.calls.count .primaryRemoveReplica + (if s.hasPrimary then 1 else 0) ∧
      (run s ops).calls.count .queueRemoveObserver = s.calls.count .queueRemoveObserver + 1 ∧
      (run s ops).calls.count .guardCancel = s.calls.count .guardCancel + 1 ∧
      (run s ops).calls.count .consumerCancel = s.calls.count .consumerCancel + 1) ∧
    (run s ops).cancelled = true ∧
    (∀ (t : State) (more : List Op), t.cancelled = true → (run t more).cancelled = true) := by
  obtain ⟨hc, hn⟩ := run_teardown s ops hs ⟨.cancel, hops, rfl⟩
  refine ⟨⟨?_, ?_⟩, ?_, ⟨?_, ?_, ?_, ?_⟩, hc, fun t more ht => (run_cancelled t more ht).1⟩
  · have := (step_cancelled s .cancel).2
    simpa [step, Op.isCancel] using this
  · rw [cancel_calls]; simp [hs]
  · intro t ht
    refine ⟨by rw [cancel_calls]; simp [ht], ?_, ?_, ?_, ?_, ?_, ?_⟩ <;>
      simp [cancel, ht, acquire]
  · rw [hn .primaryRemoveReplica rfl]
    cases hp : s.hasPrimary <;> simp [teardownCount, hp]
  · rw [hn .queueRemoveObserver rfl]; simp [teardownCount]
  · rw [hn .guardCancel rfl]; simp [teardownCount]
  · rw [hn .consumerCancel rfl]; simp [teardownCount]

/-- C14 amended, scenario: two `cancel` calls with a delivery in between on a
subscription with a Primary role make each of the four calls once. -/
theorem cancel_one_shot_witness :
    (run exState [.cancel, .deliver ⟨4, 5⟩ (.ok true), .cancel]).calls.count
      .primaryRemoveReplica = 1 ∧
    (run exState [.cancel, .deliver ⟨4, 5⟩ (.ok true), .cancel]).calls.count
      .queueRemoveObserver = 1 ∧
    (run exState [.cancel, .deliver ⟨4, 5⟩ (.ok true), .cancel]).calls.count .guardCancel = 1 ∧
    (run exState [.cancel, .deliver ⟨4, 5⟩ (.ok true), .cancel]).calls.count
      .consumerCancel = 1 := by
  have h := (cancel_one_shot exState [.cancel, .deliver ⟨4, 5⟩ (.ok true), .cancel] rfl
    (by simp)).2.2.1
  exact h

/-! ## Calls made by the constructor -/

theorem mem_calls_call (s : State) (c d : Call) :
    d ∈ (call c s).calls ↔ d ∈ s.calls ∨ d = c := by
  simp [call_calls]

theorem ctorAttach_calls (args : Arguments) (env : Collaborators) (s : State) :
    ∀ c ∈ (ctorAttach args env s).2.calls, c ∈ s.calls ∨ c.isSetup = true := by
  intro c hc
  unfold ctorAttach at hc
  cases h1 : args.brokerInfo <;> cases h2 : env.hasIdSetter <;> cases h3 : s.hasPrimary <;>
    cases h4 : env.existingGuard <;> cases h5 : env.newGuard <;>
    simp [h1, h2, h3, h4, h5, State.calls, call] at hc ⊢ <;>
    aesop

theorem ctorSnapshot_calls (args : Arguments) (env : Collaborators) (s : State) :
    ∀ c ∈ (ctorSnapshot args env s).2.calls, c ∈ s.calls ∨ c.isSetup = true := by
  intro c hc
  unfold ctorSnapshot at hc
  cases h1 : env.primaryIds <;> cases h2 : decodeBackupIds args env <;>
    cases h3 : env.range <;>
    simp [h1, h2, h3, State.calls, call] at hc ⊢ <;>
    aesop

theorem ctorReconcile_calls (v : Locals) (s : State) :
    ∀ c ∈ (ctorReconcile v s).calls, c ∈ s.calls ∨ c = .primaryReadyReplica := by
  intro c hc
  simp only [ctorReconcile, release_calls, checkReady_calls, List.mem_append] at hc
  rcases hc with h | h
  · exact Or.inl h
  · right
    unfold readyCalls at h
    split at h <;> simp at h
    exact h

/-- Without a broker-info table the first part of the constructor throws at
once and leaves the state as it is. -/
theorem ctorAttach_no_info (args : Arguments) (env : Collaborators) (s : State)
    (h : args.brokerInfo = none) :
    ctorAttach args env s =
      (.error "Replicating subscription does not have broker info", s) := by
  simp [ctorAttach, h]

/-- Every call of the constructor is a setup call or the notification of the
ready check; a constructor that throws has made setup calls only. -/
theorem construct_calls (args : Arguments) (env : Collaborators) :
    (∀ c ∈ (construct args env).2.calls, c.isSetup = true ∨ c = .primaryReadyReplica) ∧
    (∀ e, (construct args env).1 = .error e →
      ∀ c ∈ (construct args env).2.calls, c.isSetup = true) := by
  have h0 : ∀ c ∈ (State.init env.hasPrimary).calls, False := by
    intro c hc; simp [State.init, State.calls] at hc
  have ha := ctorAttach_calls args env (State.init env.hasPrimary)
  rcases h1 : ctorAttach args env (State.init env.hasPrimary) with ⟨r1, s1⟩
  rw [h1] at ha
  have ha2 : ∀ c ∈ s1.calls, c.isSetup = true := fun c hc =>
    (ha c hc).elim (fun h => (h0 c h).elim) id
  cases r1 with
  | error e =>
    simp only [construct, h1]
    exact ⟨fun c hc => Or.inl (ha2 c hc), fun _ _ c hc => ha2 c hc⟩
  | ok u =>
    have hb := ctorSnapshot_calls args env s1
    rcases h2 : ctorSnapshot args env s1 with ⟨r2, s2⟩
    rw [h2] at hb
    have hb2 : ∀ c ∈ s2.calls, c.isSetup = true := fun c hc =>
      (hb c hc).elim (fun h => ha2 c h) id
    cases r2 with
    | error e =>
      simp only [construct, h1, h2]
      exact ⟨fun c hc => Or.inl (hb2 c hc), fun _ _ c hc => hb2 c hc⟩
    | ok v =>
      simp only [construct, h1, h2]
      refine ⟨fun c hc => ?_, fun e he => ?_⟩
      · exact (ctorReconcile_calls v s2 c hc).elim (fun h => Or.inl (hb2 c h)) Or.inr
      · cases he

/-! ## Faults -/

/-- When the send of the dequeue event returns, `doDispatchThrowing` is
`doDispatch`. -/
theorem doDispatchThrowing_sent (s : State) (r : Bool) (base : Except String Bool) :
    doDispatchThrowing s (.ok r) base = (.ok (doDispatch s base).1, (doDispatch s base).2) := by
  by_cases hd : s.dequeues = ∅ <;> cases base <;>
    simp [doDispatchThrowing, doDispatch, sendDequeueEventThrowing, sendDequeueEvent,
      sendEventThrowing, sendEvent, acquire, release, call, hd]

/-- C16.  Without a broker-info table in the arguments the constructor throws
before it has made any call on the queue, the guard, the snapshot provider or
the Primary role and before it has changed any member, the exception goes
through `Factory::create`, and `Factory::create` returns no subscription. -/
theorem construct_without_broker_info (args : Arguments) (env : Collaborators)
    (h : args.brokerInfo = none) :
    (∃ e, (construct args env).1 = .error e ∧
      (args.replicating = true → (Factory.create args env).1 = .error e)) ∧
    (construct args env).2.calls = [] ∧
    (construct args env).2.dequeues = ∅ ∧ (construct args env).2.skip = ∅ ∧
    (∀ s, (Factory.create args env).1 ≠ .ok (some s)) ∧
    (Factory.create args env).2 = [] := by
  have hc : construct args env =
      (.error "Replicating subscription does not have broker info",
        State.init env.hasPrimary) := by
    simp [construct, ctorAttach_no_info args env _ h]
  refine ⟨⟨_, by rw [hc], ?_⟩, by rw [hc]; rfl, by rw [hc]; rfl, by rw [hc]; rfl, ?_, ?_⟩
  · intro hr; simp [Factory.create, hr, hc]
  · intro s
    cases hr : args.replicating <;> simp [Factory.create, hr, hc]
  · cases hr : args.replicating <;> simp [Factory.create, hr, hc, State.init]

/-- C16, scenario: arguments with the replicating flag and no broker info. -/
theorem construct_without_broker_info_witness :
    (Factory.create exArgsNoInfo exEnv).1 =
      .error "Replicating subscription does not have broker info" ∧
    (construct exArgsNoInfo exEnv).2.calls = [] := by
  obtain ⟨⟨e, he, hf⟩, hcalls, -⟩ := construct_without_broker_info exArgsNoInfo exEnv rfl
  refine ⟨?_, hcalls⟩
  rw [hf rfl]
  have : (construct exArgsNoInfo exEnv).1 =
      .error "Replicating subscription does not have broker info" := rfl
  rw [this] at he
  injection he with he
  rw [he]

/-- C17, counterexample: the id-set string of the arguments does not decode.
The constructor throws after it has added an `IdSetter` to the interceptors of
the queue and registered its observer, and neither is undone. -/
theorem construct_failure_counterexample :
    (construct exArgs exEnvBadIdSet).1 = .error "cannot decode id set" ∧
    (construct exArgs exEnvBadIdSet).2.calls =
      [.addIdSetter, .primaryGetGuard, .newQueueGuard, .queueAddObserver, .snapshot] := by
  exact ⟨by rfl, by decide⟩

/-- C17, amended.  If the constructor throws, the exception goes through
`Factory::create`, which returns no subscription; the constructor has sent no
event and has not notified the Primary role (its calls are setup calls on the
queue, the guard and the snapshot provider); and when the failure is the
missing broker-info table it has made no call at all. -/
theorem construct_failure (args : Arguments) (env : Collaborators) (e : String)
    (h : (construct args env).1 = .error e) :
    (args.replicating = true → (Factory.create args env).1 = .error e) ∧
    (∀ s, (Factory.create args env).1 ≠ .ok (some s)) ∧
    (∀ c ∈ (construct args env).2.calls, c.isSetup = true) ∧
    (args.brokerInfo = none → (construct args env).2.calls = []) := by
  rcases hc : construct args env with ⟨r, s⟩
  rw [hc] at h
  simp only at h
  subst h
  refine ⟨?_, ?_, ?_, ?_⟩
  · intro hr; simp [Factory.create, hr, hc]
  · intro t
    cases hr : args.replicating <;> simp [Factory.create, hr, hc]
  · have := (construct_calls args env).2 e (by rw [hc])
    rw [hc] at this
    exact this
  · intro hn
    have : construct args env =
        (.error "Replicating subscription does not have broker info",
          State.init env.hasPrimary) := by
      simp [construct, ctorAttach_no_info args env _ hn]
    rw [hc] at this
    simp only [Prod.mk.injEq] at this
    rw [this.2]
    rfl

/-- C17 amended, scenario: the id-set string does not decode; `Factory::create`
passes the exception on and no event was sent. -/
theorem construct_failure_witness :
    (Factory.create exArgs exEnvBadIdSet).1 = .error "cannot decode id set" ∧
    (∀ ev, Call.sendEvent ev ∉ (construct exArgs exEnvBadIdSet).2.calls) := by
  obtain ⟨h1, -, h3, -⟩ := construct_failure exArgs exEnvBadIdSet "cannot decode id set" (by rfl)
  refine ⟨h1 rfl, fun ev hev => ?_⟩
  have := h3 _ hev
  simp [Call.isSetup] at this

/-! ## Factory -/

/-- The member `skip` after `deliver`. -/
theorem deliver_skip_field (s : State) (m : Message) (base : Except String Bool) :
    (deliver s m base).2.skip =
      if m.replicationId ∈ s.skip then s.skip.erase m.replicationId else s.skip := by
  by_cases hm : m.replicationId ∈ s.skip
  · simp [deliver, hm, acquire]
  · cases base <;> simp [deliver, hm, acquire, sendIdEvent] <;> split <;> simp

/-- A delivery of a message with another id leaves the membership of `i` in
`skip` and the number of calls made for `i` as they are. -/
theorem deliver_other_id (s : State) (m : Message) (base : Except String Bool)
    (i : ReplicationId) (h : m.replicationId ≠ i) :
    (i ∈ (deliver s m base).2.skip ↔ i ∈ s.skip) ∧
    (deliver s m base).2.calls.count (.guardComplete i) = s.calls.count (.guardComplete i) ∧
    (deliver s m base).2.calls.count (.sendEvent (.IdEvent i)) =
      s.calls.count (.sendEvent (.IdEvent i)) ∧
    (∀ m' : Message, m'.replicationId = i →
      (deliver s m base).2.calls.count (.consumerDeliver m') =
        s.calls.count (.consumerDeliver m')) := by
  obtain ⟨tail, ht, hcalls⟩ := deliver_calls s m base
  have hmm : ∀ m' : Message, m'.replicationId = i → ¬ m = m' := by
    intro m' hm' e; exact h (e ▸ hm')
  refine ⟨?_, ?_, ?_, ?_⟩
  · rw [deliver_skip_field]
    split
    · simp [Finset.mem_erase, Ne.symm h]
    · rfl
  · rw [hcalls]
    rcases ht with rfl | rfl <;> split <;> simp [List.count_cons, h]
  · rw [hcalls]
    rcases ht with rfl | rfl <;> split <;> simp [List.count_cons, h]
  · intro m' hm'
    rw [hcalls]
    rcases ht with rfl | rfl <;> split <;> simp [List.count_cons, hmm m' hm']

/-- A delivery of a message whose id is in `skip` removes the id from `skip`,
completes the guard for it once and makes no other call for it. -/
theorem deliver_skipped_id (s : State) (m : Message) (base : Except String Bool)
    (h : m.replicationId ∈ s.skip) :
    m.replicationId ∉ (deliver s m base).2.skip ∧
    (deliver s m base).2.calls.count (.guardComplete m.replicationId) =
      s.calls.count (.guardComplete m.replicationId) + 1 ∧
    (deliver s m base).2.calls.count (.sendEvent (.IdEvent m.replicationId)) =
      s.calls.count (.sendEvent (.IdEvent m.replicationId)) ∧
    (∀ m' : Message,
      (deliver s m base).2.calls.count (.consumerDeliver m') =
        s.calls.count (.consumerDeliver m')) := by
  obtain ⟨tail, ht, hcalls⟩ := deliver_calls s m base
  refine ⟨?_, ?_, ?_, ?_⟩
  · rw [deliver_skip_field, if_pos h]
    exact Finset.not_mem_erase _ _
  · rw [hcalls, if_pos h]
    rcases ht with rfl | rfl <;> simp [List.count_cons]
  · rw [hcalls, if_pos h]
    rcases ht with rfl | rfl <;> simp [List.count_cons]
  · intro m'
    rw [hcalls, if_pos h]
    rcases ht with rfl | rfl <;> simp [List.count_cons]

/-- Deliveries of messages with other ids leave the membership of `i` in `skip`
and the number of calls made for `i` as they are. -/
theorem run_deliveries_other (s : State) (ds : List (Message × Except String Bool))
    (i : ReplicationId) (h : i ∉ deliveredIds ds) :
    (i ∈ (run s (deliveries ds)).skip ↔ i ∈ s.skip) ∧
    (run s (deliveries ds)).calls.count (.guardComplete i) =
      s.calls.count (.guardComplete i) ∧
    (run s (deliveries ds)).calls.count (.sendEvent (.IdEvent i)) =
      s.calls.count (.sendEvent (.IdEvent i)) ∧
    (∀ m' : Message, m'.replicationId = i →
      (run s (deliveries ds)).calls.count (.consumerDeliver m') =
        s.calls.count (.consumerDeliver m')) := by
  induction ds generalizing s with
  | nil => exact ⟨Iff.rfl, rfl, rfl, fun _ _ => rfl⟩
  | cons d ds ih =>
    simp only [deliveredIds, List.map_cons, List.mem_cons, not_or] at h
    obtain ⟨a1, a2, a3, a4⟩ := deliver_other_id s d.1 d.2 i (Ne.symm h.1)
    obtain ⟨b1, b2, b3, b4⟩ := ih (deliver s d.1 d.2).2 h.2
    simp only [deliveries, run, List.map_cons, List.foldl_cons, step] at b1 b2 b3 b4 ⊢
    exact ⟨b1.trans a1, b2.trans a2, b3.trans a3, fun m' hm' => (b4 m' hm').trans (a4 m' hm')⟩

/-- Deliveries with pairwise distinct ids from a state with `i` in `skip`: no
event is sent and no base class delivery is made for `i`; if `i` is delivered
it leaves `skip` and the guard is completed for it once, else it stays in
`skip` and the guard is not completed for it. -/
theorem run_deliveries_skip (s : State) (ds : List (Message × Except String Bool))
    (i : ReplicationId) (hi : i ∈ s.skip) (hnd : (deliveredIds ds).Nodup) :
    (i ∈ deliveredIds ds →
      i ∉ (run s (deliveries ds)).skip ∧
      (run s (deliveries ds)).calls.count (.guardComplete i) =
        s.calls.count (.guardComplete i) + 1) ∧
    (i ∉ deliveredIds ds →
      i ∈ (run s (deliveries ds)).skip ∧
      (run s (deliveries ds)).calls.count (.guardComplete i) =
        s.calls.count (.guardComplete i)) ∧
    (run s (deliveries ds)).calls.count (.sendEvent (.IdEvent i)) =
      s.calls.count (.sendEvent (.IdEvent i)) ∧
    (∀ m' : Message, m'.replicationId = i →
      (run s (deliveries ds)).calls.count (.consumerDeliver m') =
        s.calls.count (.consumerDeliver m')) := by
  induction ds generalizing s with
  | nil =>
    refine ⟨fun h => ?_, fun _ => ⟨hi, rfl⟩, rfl, fun _ _ => rfl⟩
    simp [deliveredIds] at h
  | cons d ds ih =>
    simp only [deliveredIds, List.map_cons, List.nodup_cons] at hnd
    by_cases hd : d.1.replicationId = i
    · -- this delivery is the one of `i`
      have hrest : i ∉ deliveredIds ds := hd ▸ hnd.1
      obtain ⟨a1, a2, a3, a4⟩ := deliver_skipped_id s d.1 d.2 (hd ▸ hi)
      rw [hd] at a1 a2 a3
      obtain ⟨b1, b2, b3, b4⟩ := run_deliveries_other (deliver s d.1 d.2).2 ds i hrest
      simp only [deliveries, run, List.map_cons, List.foldl_cons, step] at b1 b2 b3 b4 ⊢
      refine ⟨fun _ => ⟨fun hmem => a1 (b1.mp hmem), b2.trans a2⟩, fun hno => ?_,
        b3.trans a3, fun m' hm' => (b4 m' hm').trans (a4 m')⟩
      simp [deliveredIds, hd] at hno
    · obtain ⟨a1, a2, a3, a4⟩ := deliver_other_id s d.1 d.2 i hd
      obtain ⟨b1, b2, b3, b4⟩ := ih (deliver s d.1 d.2).2 (a1.mpr hi) hnd.2
      simp only [deliveries, run, List.map_cons, List.foldl_cons, step] at b1 b2 b3 b4 ⊢
      refine ⟨fun hmem => ?_, fun hno => ?_, b3.trans a3,
        fun m' hm' => (b4 m' hm').trans (a4 m' hm')⟩
      · have hmem2 : i ∈ deliveredIds ds := by
          simp only [deliveredIds, List.map_cons, List.mem_cons] at hmem
          rcases hmem with h | h
          · exact absurd h.symm hd
          · exact h
        obtain ⟨c1, c2⟩ := b1 hmem2
        exact ⟨c1, c2.trans (by rw [a2])⟩
      · have hno2 : i ∉ deliveredIds ds := by
          simp only [deliveredIds, List.map_cons, List.mem_cons, not_or] at hno
          exact hno.2
        obtain ⟨c1, c2⟩ := b2 hno2
        exact ⟨c1, c2.trans a2⟩

/-- C19.  Skipped ids are never forwarded: for an id `i` that the constructor
put into `skip` and every sequence of deliveries with pairwise distinct ids
(and no `addSkip`), no `IdEvent` for `i` is sent and no base class delivery of a
message with id `i` is made; if the message with id `i` is delivered, `i` is
removed from `skip` and `guard->complete(i)` is called once over the whole
sequence. -/
theorem skipped_never_forwarded (args : Arguments) (env : Collaborators)
    (ds : List (Message × Except String Bool)) (i : ReplicationId)
    (hi : i ∈ (construct args env).2.skip) (hnd : (deliveredIds ds).Nodup) :
    (i ∈ deliveredIds ds →
      i ∉ (run (construct args env).2 (deliveries ds)).skip ∧
      (run (construct args env).2 (deliveries ds)).calls.count (.guardComplete i) = 1) ∧
    Call.sendEvent (.IdEvent i) ∉ (run (construct args env).2 (deliveries ds)).calls ∧
    (∀ m' : Message, m'.replicationId = i →
      Call.consumerDeliver m' ∉ (run (construct args env).2 (deliveries ds)).calls) := by
  have hsetup := (construct_calls args env).1
  have hzero : ∀ c : Call, c.isSetup = false → c ≠ .primaryReadyReplica →
      (construct args env).2.calls.count c = 0 := by
    intro c h1 h2
    apply List.count_eq_zero.mpr
    intro hmem
    rcases hsetup c hmem with h | h
    · rw [h1] at h; cases h
    · exact h2 h
  obtain ⟨h1, -, h3, h4⟩ := run_deliveries_skip (construct args env).2 ds i hi hnd
  refine ⟨fun hmem => ?_, ?_, fun m' hm' => ?_⟩
  · obtain ⟨a, b⟩ := h1 hmem
    refine ⟨a, ?_⟩
    rw [b, hzero (.guardComplete i) rfl (by simp)]
  · apply List.count_eq_zero.mp
    rw [h3, hzero (.sendEvent (.IdEvent i)) rfl (by simp)]
  · apply List.count_eq_zero.mp
    rw [h4 m' hm', hzero (.consumerDeliver m') rfl (by simp)]

/-- C19, scenario: after the reconciliation of `{1,2,3}` against `{2,3,4}` the
messages with ids 2, 4 and 3 are delivered; id 2 has left `skip`, the guard was
completed for it once, and it was not forwarded. -/
theorem skipped_never_forwarded_witness :
    2 ∈ (construct exArgs exEnv).2.skip ∧
    (run (construct exArgs exEnv).2 (deliveries
      [(⟨2, 5⟩, .ok true), (⟨4, 6⟩, .ok true), (⟨3, 7⟩, .ok false)])).calls.count
        (.guardComplete 2) = 1 ∧
    Call.sendEvent (.IdEvent 2) ∉ (run (construct exArgs exEnv).2 (deliveries
      [(⟨2, 5⟩, .ok true), (⟨4, 6⟩, .ok true), (⟨3, 7⟩, .ok false)])).calls := by
  have h := skipped_never_forwarded exArgs exEnv
    [(⟨2, 5⟩, .ok true), (⟨4, 6⟩, .ok true), (⟨3, 7⟩, .ok false)] 2 (by decide) (by decide)
  exact ⟨by decide, (h.1 (by decide)).2, h.2.1⟩

/-! ## Operations on a cancelled subscription -/

/-- C20, counterexample: on a cancelled subscription `deliver` still moves
`position`, records the id in `unready`, sends the `IdEvent` and calls the base
class delivery (and completes the guard for a skipped id), and `doDispatch`
still sends the dequeue event and calls the base class dispatch. -/
theorem cancelled_not_short_circuit_counterexample :
    exCancelled.cancelled = true ∧
    (deliver exCancelled ⟨4, 5⟩ (.ok true)).2.calls =
      [.sendEvent (.IdEvent 4), .consumerDeliver ⟨4, 5⟩] ∧
    (deliver exCancelled ⟨4, 5⟩ (.ok true)).2.position ≠ exCancelled.position ∧
    (deliver exCancelled ⟨4, 5⟩ (.ok true)).2.unready ≠ exCancelled.unready ∧
    (deliver exCancelled ⟨2, 5⟩ (.ok true)).2.calls = [.guardComplete 2, .notify] ∧
    (doDispatch exCancelled (.ok true)).2.calls =
      [.sendEvent (.DequeueEvent {1}), .consumerDoDispatch] := by
  refine ⟨rfl, by decide, by decide, by decide, by decide, by decide⟩

/-- C20, amended.  The `deliver` and `doDispatch` calls do not read `cancelled`:
with the flag set to any value they return the same result, make the same
calls and change the other members in the same way, and they leave the flag as
it is. -/
theorem deliver_doDispatch_ignore_cancelled (s : State) (m : Message)
    (base : Except String Bool) (c : Bool) :
    deliver { s with cancelled := c } m base =
      ((deliver s m base).1, { (deliver s m base).2 with cancelled := c }) ∧
    doDispatch { s with cancelled := c } base =
      ((doDispatch s base).1, { (doDispatch s base).2 with cancelled := c }) ∧
    (deliver s m base).2.cancelled = s.cancelled ∧
    (doDispatch s base).2.cancelled = s.cancelled := by
  refine ⟨?_, ?_, ?_, ?_⟩
  · by_cases hm : m.replicationId ∈ s.skip <;> cases base <;> cases hr : s.ready <;>
      by_cases hg : s.guardFirst ≤ m.sequence + 1 <;> cases hp : s.hasPrimary <;>
      by_cases hu : s.unready = ∅ <;>
      simp [deliver, checkReady, sendIdEvent, sendEvent, call, acquire, release, isGuarded,
        hm, hr, hg, hp, hu]
  · cases base <;> by_cases hd : s.dequeues = ∅ <;>
      simp [doDispatch, sendDequeueEvent, sendEvent, call, acquire, release, hd]
  · exact (step_cancelled s (.deliver m base)).2.trans (by simp [Op.isCancel])
  · exact (step_cancelled s (.doDispatch base)).2.trans (by simp [Op.isCancel])

/-! ## The ready check -/

/-- C21, counterexample: on a broker whose role is not a `Primary` the ready
check fires (not ready, position 9 behind the boundary 10, `unready` empty):
it sets `ready` and sends no `readyReplica` notification. -/
theorem checkReady_without_primary_counterexample :
    exStandaloneAtGuard.ready = false ∧
    exStandaloneAtGuard.position + 1 ≥ exStandaloneAtGuard.guardFirst ∧
    exStandaloneAtGuard.unready = ∅ ∧
    (checkReady exStandaloneAtGuard).ready = true ∧
    (checkReady exStandaloneAtGuard).calls = exStandaloneAtGuard.calls := by
  refine ⟨rfl, by decide, rfl, by decide, by decide⟩

/-- C21, amended.  The ready check sets `ready` to true, and sends one
`readyReplica` notification if there is a Primary role, exactly when before the
check `ready` is false, `position + 1 >= guard.getFirst()` and `unready` is
empty; otherwise it changes nothing and makes no call.  It never changes
`position`, `skip`, `unready`, `dequeues` or `cancelled`. -/
theorem checkReady_effect (s : State) :
    ((s.ready = false ∧ (checkReady s).ready = true) ↔
      (s.ready = false ∧ s.position + 1 ≥ s.guardFirst ∧ s.unready = ∅)) ∧
    (s.ready = false ∧ s.position + 1 ≥ s.guardFirst ∧ s.unready = ∅ →
      (checkReady s).ready = true ∧
      (checkReady s).calls =
        s.calls ++ (if s.hasPrimary then [Call.primaryReadyReplica] else [])) ∧
    (¬ (s.ready = false ∧ s.position + 1 ≥ s.guardFirst ∧ s.unready = ∅) →
      checkReady s = s) ∧
    (checkReady s).position = s.position ∧ (checkReady s).skip = s.skip ∧
    (checkReady s).unready = s.unready ∧ (checkReady s).dequeues = s.dequeues ∧
    (checkReady s).cancelled = s.cancelled := by
  refine ⟨?_, ?_, ?_, by simp, by simp, by simp, by simp, by simp⟩
  · rw [checkReady_ready]
    cases hr : s.ready <;> simp [isGuarded]
  · rintro ⟨hr, hg, hu⟩
    have hg2 : s.guardFirst ≤ s.position + 1 := hg
    refine ⟨by simp [checkReady_ready, isGuarded, hg2, hu], ?_⟩
    rw [checkReady_calls]
    cases hp : s.hasPrimary <;> simp [readyCalls, hr, isGuarded, hg2, hu, hp]
  · intro hn
    unfold checkReady
    rw [if_neg]
    intro hc
    apply hn
    simp only [Bool.and_eq_true, Bool.not_eq_true', decide_eq_true_eq, isGuarded] at hc
    exact ⟨hc.1.1, hc.1.2, hc.2⟩

/-! ## The state after construction -/

theorem ctorAttach_members (args : Arguments) (env : Collaborators) (s : State) :
    (ctorAttach args env s).2.position = s.position ∧
    (ctorAttach args env s).2.cancelled = s.cancelled ∧
    (ctorAttach args env s).2.hasPrimary = s.hasPrimary ∧
    (ctorAttach args env s).2.skip = s.skip := by
  unfold ctorAttach
  cases h1 : args.brokerInfo <;> cases h2 : env.hasIdSetter <;> cases h3 : s.hasPrimary <;>
    cases h4 : env.existingGuard <;> cases h5 : env.newGuard <;> simp [h3]

theorem ctorSnapshot_members (args : Arguments) (env : Collaborators) (s : State) :
    (ctorSnapshot args env s).2.position = s.position ∧
    (ctorSnapshot args env s).2.cancelled = s.cancelled ∧
    (ctorSnapshot args env s).2.hasPrimary = s.hasPrimary ∧
    (ctorSnapshot args env s).2.guardFirst = s.guardFirst ∧
    (ctorSnapshot args env s).2.lockHeld = s.lockHeld := by
  unfold ctorSnapshot
  cases env.primaryIds <;> cases decodeBackupIds args env <;> cases env.range <;> simp

theorem notifiedOnce_congr (s t : State) (hc : t.calls = s.calls) (hr : t.ready = s.ready)
    (hp : t.hasPrimary = s.hasPrimary) (h : notifiedOnce s) : notifiedOnce t := by
  unfold notifiedOnce readyNotices at h ⊢
  rw [hc, hr, hp]
  exact h

theorem notifiedOnce_call (s : State) (c : Call) (hc : c ≠ .primaryReadyReplica)
    (h : notifiedOnce s) : notifiedOnce (call c s) := by
  unfold notifiedOnce readyNotices at h ⊢
  rw [call_calls, List.count_append, h]
  simp [List.count_cons, hc]

theorem notifiedOnce_checkReady (s : State) (h : notifiedOnce s) :
    notifiedOnce (checkReady s) := by
  unfold notifiedOnce readyNotices at h ⊢
  rw [checkReady_calls, List.count_append, h, checkReady_ready, checkReady_hasPrimary]
  unfold readyCalls
  cases hr : s.ready <;> cases hg : isGuarded s <;> cases hp : s.hasPrimary <;>
    by_cases hu : s.unready = ∅ <;> simp [hu]

theorem notifiedOnce_sendDequeueEvent (s : State) (h : notifiedOnce s) :
    notifiedOnce (sendDequeueEvent s) := by
  unfold sendDequeueEvent
  split
  · exact h
  · exact notifiedOnce_congr _ _ rfl rfl rfl (notifiedOnce_call _ _ (by simp) h)

/-- One operation keeps the count of `readyReplica` notifications in step with
`ready`. -/
theorem step_notifiedOnce (s : State) (op : Op) (h : notifiedOnce s) :
    notifiedOnce (step s op) := by
  cases op with
  | deliver m base =>
    by_cases hm : m.replicationId ∈ s.skip
    · simp only [step, deliver, acquire, hm, if_true]
      apply notifiedOnce_congr _ _ rfl rfl rfl
      apply notifiedOnce_checkReady
      apply notifiedOnce_call _ _ (by simp)
      apply notifiedOnce_call _ _ (by simp)
      exact h
    · have key : ∀ t : State, notifiedOnce t →
          notifiedOnce (call (.consumerDeliver m) (sendIdEvent m.replicationId t)) := by
        intro t ht
        apply notifiedOnce_call _ _ (by simp)
        exact notifiedOnce_congr _ _ rfl rfl rfl (notifiedOnce_call _ _ (by simp) ht)
      cases base with
      | error e =>
        simp only [step, deliver, acquire, hm, if_false]
        apply notifiedOnce_congr _ _ rfl rfl rfl
        apply key
        split <;> exact h
      | ok b =>
        simp only [step, deliver, acquire, hm, if_false]
        apply notifiedOnce_congr _ _ rfl rfl rfl
        apply notifiedOnce_checkReady
        apply key
        split <;> exact h
  | acknowledged r =>
    simp only [step, acknowledged]
    apply notifiedOnce_call _ _ (by simp)
    apply notifiedOnce_congr _ _ rfl rfl rfl
    apply notifiedOnce_checkReady
    exact notifiedOnce_congr _ _ rfl rfl rfl (notifiedOnce_call _ _ (by simp) h)
  | dequeued id =>
    simp only [step, dequeued]
    exact notifiedOnce_call _ _ (by simp) h
  | doDispatch base =>
    have key : notifiedOnce (call .consumerDoDispatch
        (release (if (acquire s).dequeues ≠ ∅ then sendDequeueEvent (acquire s)
          else acquire s))) := by
      apply notifiedOnce_call _ _ (by simp)
      apply notifiedOnce_congr _ _ rfl rfl rfl
      split
      · exact notifiedOnce_sendDequeueEvent _ h
      · exact h
    cases base <;> exact key
  | addSkip ids => exact h
  | initialise =>
    simp only [step, initialise]
    apply notifiedOnce_congr _ _ rfl rfl rfl
    apply notifiedOnce_sendDequeueEvent
    apply notifiedOnce_congr _ _ rfl rfl rfl
    split
    · exact notifiedOnce_call _ _ (by simp) h
    · exact h
  | cancel =>
    simp only [step, cancel]
    split
    · exact h
    · apply notifiedOnce_call _ _ (by simp)
      apply notifiedOnce_call _ _ (by simp)
      apply notifiedOnce_call _ _ (by simp)
      split
      · exact notifiedOnce_call _ _ (by simp) h
      · exact h

/-- The state in which the constructor takes the lock has made setup calls
only. -/
theorem construct_before_lock_calls (args : Arguments) (env : Collaborators)
    (s1 s2 : State) (v : Locals)
    (h1 : ctorAttach args env (State.init env.hasPrimary) = (.ok (), s1))
    (h2 : ctorSnapshot args env s1 = (.ok v, s2)) :
    ∀ c ∈ s2.calls, c.isSetup = true := by
  intro c hc
  have ha := ctorAttach_calls args env (State.init env.hasPrimary)
  have hb := ctorSnapshot_calls args env s1
  rw [h1] at ha
  rw [h2] at hb
  rcases hb c hc with h | h
  · rcases ha c h with h' | h'
    · simp [State.init, State.calls] at h'
    · exact h'
  · exact h

/-- After a successful construction the count of `readyReplica` notifications is
in step with `ready`. -/
theorem construct_notifiedOnce (args : Arguments) (env : Collaborators)
    (hok : (construct args env).1 = .ok ()) : notifiedOnce (construct args env).2 := by
  obtain ⟨s1, s2, v, h1, h2, h3⟩ := construct_ok args env hok
  obtain ⟨hr, -⟩ := construct_before_lock args env s1 s2 v h1 h2
  have hcalls := construct_before_lock_calls args env s1 s2 v h1 h2
  have h0 : notifiedOnce s2 := by
    unfold notifiedOnce readyNotices
    rw [hr]
    simp only [Bool.false_and, Bool.false_eq_true, if_false]
    apply List.count_eq_zero.mpr
    intro hmem
    have := hcalls _ hmem
    simp [Call.isSetup] at this
  rw [h3]
  simp only [ctorReconcile]
  apply notifiedOnce_congr _ _ rfl rfl rfl
  apply notifiedOnce_checkReady
  exact h0

/-- C26, counterexample: on a broker whose role is not a `Primary` the
subscription constructed at front 9 behind the guard boundary 10 is ready and
no `readyReplica` notification was made. -/
theorem ready_notices_counterexample :
    (construct exArgs exEnvStandalone).1 = .ok () ∧
    (run (construct exArgs exEnvStandalone).2 []).ready = true ∧
    readyNotices (run (construct exArgs exEnvStandalone).2 []) = 0 := by
  refine ⟨by rfl, by decide, by decide⟩

/-- C26, amended.  After a successful construction and any sequence of
`deliver`, `acknowledged`, `dequeued`, `doDispatch`, `addSkip`, `initialize` and
`cancel` calls the number of `readyReplica` notifications is 0 while `ready` is
false and, once `ready` is true, 1 if there is a Primary role and 0 if there
is none. -/
theorem ready_notices (args : Arguments) (env : Collaborators) (ops : List Op)
    (hok : (construct args env).1 = .ok ()) :
    ((run (construct args env).2 ops).ready = false →
      readyNotices (run (construct args env).2 ops) = 0) ∧
    ((run (construct args env).2 ops).ready = true → env.hasPrimary = true →
      readyNotices (run (construct args env).2 ops) = 1) ∧
    ((run (construct args env).2 ops).ready = true → env.hasPrimary = false →
      readyNotices (run (construct args env).2 ops) = 0) := by
  have h0 := construct_notifiedOnce args env hok
  have hp0 : (construct args env).2.hasPrimary = env.hasPrimary := by
    obtain ⟨s1, s2, v, h1, h2, h3⟩ := construct_ok args env hok
    have ha := ctorAttach_members args env (State.init env.hasPrimary)
    have hb := ctorSnapshot_members args env s1
    rw [h1] at ha
    rw [h2] at hb
    simp only at ha hb
    rw [h3]
    simp [ctorReconcile, acquire, hb.2.2.1, ha.2.2.1, State.init]
  have key : ∀ (s : State) (l : List Op), notifiedOnce s →
      notifiedOnce (run s l) ∧ (run s l).hasPrimary = s.hasPrimary := by
    intro s l
    induction l generalizing s with
    | nil => exact fun h => ⟨h, rfl⟩
    | cons op l ih =>
      intro h
      obtain ⟨a, b⟩ := ih (step s op) (step_notifiedOnce s op h)
      exact ⟨a, b.trans (step_cancelled s op).1⟩
  obtain ⟨hn, hp⟩ := key _ ops h0
  unfold notifiedOnce at hn
  rw [hp, hp0] at hn
  refine ⟨fun h => ?_, fun h hprim => ?_, fun h hprim => ?_⟩
  · rw [hn, h]; rfl
  · rw [hn, h, hprim]; rfl
  · rw [hn, h, hprim]; rfl

/-- C26 amended, scenario: the subscription catches up through a forwarded and
acknowledged message and a delivery at the guard boundary, then takes two more
acknowledgements: the Primary role was told once. -/
theorem ready_notices_witness :
    readyNotices (run (construct exArgs exEnv).2
      [.deliver ⟨4, 5⟩ (.ok true), .acknowledged ⟨4, 5⟩, .deliver ⟨5, 9⟩ (.ok true),
       .acknowledged ⟨5, 9⟩, .acknowledged ⟨5, 9⟩]) = 1 :=
  (ready_notices exArgs exEnv _ (by rfl)).2.1 (by decide) rfl

/-! ## The initial dequeue event -/

/-- A constructor that returns had a snapshot to work with. -/
theorem construct_ok_snapshot (args : Arguments) (env : Collaborators)
    (hok : (construct args env).1 = .ok ()) :
    ∃ A B, decodeBackupIds args env = .ok A ∧ env.primaryIds = .ok B := by
  obtain ⟨s1, s2, v, -, h2, -⟩ := construct_ok args env hok
  unfold ctorSnapshot at h2
  cases hB : env.primaryIds with
  | error e => simp [hB] at h2
  | ok B =>
    cases hA : decodeBackupIds args env with
    | error e => simp [hB, hA] at h2
    | ok A => exact ⟨A, B, rfl, rfl⟩

/-- The member `dequeues` after a successful construction. -/
theorem construct_dequeues (args : Arguments) (env : Collaborators)
    (A B : ReplicationIdSet)
    (hA : decodeBackupIds args env = .ok A) (hB : env.primaryIds = .ok B)
    (hok : (construct args env).1 = .ok ()) :
    (construct args env).2.dequeues = A \ B := by
  obtain ⟨s1, s2, v, h1, h2, h3⟩ := construct_ok args env hok
  have hv := ctorSnapshot_locals args env s1 A B hA hB v (by rw [h2])
  have e2 := ctorSnapshot_dequeues args env s1
  have e1 := ctorAttach_dequeues args env (State.init env.hasPrimary)
  rw [h2] at e2
  rw [h1] at e1
  simp only at e1 e2
  rw [h3, (ctorReconcile_sets v s2).1, e2, e1, hv.2.2]
  simp [State.init]

/-- C24.  On a freshly constructed subscription `initialize` first makes the
`addReplica` notification, once, if there is a Primary role, and then sends one
`DequeueEvent` carrying the `dequeues` set if that set is not empty and nothing
if it is empty; for a fresh backup (empty id-set string) no event is sent. -/
theorem initialise_effect (args : Arguments) (env : Collaborators)
    (hok : (construct args env).1 = .ok ()) :
    (initialise (construct args env).2).calls =
      (construct args env).2.calls
        ++ (if env.hasPrimary then [Call.primaryAddReplica] else [])
        ++ (if (construct args env).2.dequeues = ∅ then []
            else [Call.sendEvent (.DequeueEvent (construct args env).2.dequeues)]) ∧
    (args.idSet = "" →
      (construct args env).2.dequeues = ∅ ∧
      (initialise (construct args env).2).calls =
        (construct args env).2.calls
          ++ (if env.hasPrimary then [Call.primaryAddReplica] else [])) := by
  have hp : (construct args env).2.hasPrimary = env.hasPrimary := by
    obtain ⟨A, B, hA, hB⟩ := construct_ok_snapshot args env hok
    obtain ⟨s1, s2, v, h1, h2, h3⟩ := construct_ok args env hok
    have ha := ctorAttach_members args env (State.init env.hasPrimary)
    have hb := ctorSnapshot_members args env s1
    rw [h1] at ha
    rw [h2] at hb
    simp only at ha hb
    rw [h3]
    simp [ctorReconcile, acquire, hb.2.2.1, ha.2.2.1, State.init]
  have hcalls := initialise_calls (construct args env).2
  rw [hp] at hcalls
  refine ⟨hcalls, fun hfresh => ?_⟩
  obtain ⟨A, B, hA, hB⟩ := construct_ok_snapshot args env hok
  have hempty : A = ∅ := by
    have h0 : decodeBackupIds args env = .ok ∅ := by
      unfold decodeBackupIds
      rw [hfresh]
      rfl
    rw [h0] at hA
    injection hA with hA
    exact hA.symm
  have hd : (construct args env).2.dequeues = ∅ := by
    rw [construct_dequeues args env A B hA hB hok, hempty]
    simp
  refine ⟨hd, ?_⟩
  rw [hcalls, hd]
  simp

/-- C24, scenario: a fresh backup on a broker with a Primary role: `initialize`
makes the `addReplica` notification and sends no event. -/
theorem initialise_effect_witness :
    (initialise (construct exArgsFresh exEnv).2).calls =
      (construct exArgsFresh exEnv).2.calls ++ [.primaryAddReplica] :=
  ((initialise_effect exArgsFresh exEnv (by rfl)).2 rfl).2

/-! ## Adding to the skip set -/

/-- C27.  The `addSkip(S)` call makes `skip` the union of `skip` and `S`, leaves
`position`, `ready`, `cancelled`, `dequeues` and `unready` as they are and makes
no call; a delivery that follows of a message whose id is in `S` takes the skip
path: it returns true, completes the guard for the id, notifies the dispatch
loop, sends no event and does not call the base class delivery. -/
theorem addSkip_effect (s : State) (ids : ReplicationIdSet) :
    (addSkip s ids).skip = s.skip ∪ ids ∧
    (addSkip s ids).position = s.position ∧
    (addSkip s ids).ready = s.ready ∧
    (addSkip s ids).cancelled = s.cancelled ∧
    (addSkip s ids).dequeues = s.dequeues ∧
    (addSkip s ids).unready = s.unready ∧
    (addSkip s ids).calls = s.calls ∧
    (∀ (m : Message) (base : Except String Bool), m.replicationId ∈ ids →
      (deliver (addSkip s ids) m base).1 = .ok true ∧
      m.replicationId ∉ (deliver (addSkip s ids) m base).2.skip ∧
      ∃ tail, (tail = [] ∨ tail = [Call.primaryReadyReplica]) ∧
        (deliver (addSkip s ids) m base).2.calls =
          s.calls ++ [.guardComplete m.replicationId, .notify] ++ tail) := by
  refine ⟨rfl, rfl, rfl, rfl, rfl, rfl, rfl, fun m base hm => ?_⟩
  have hmem : m.replicationId ∈ (addSkip s ids).skip := Finset.mem_union_right _ hm
  refine ⟨?_, ?_, ?_⟩
  · simp [deliver, acquire, hmem]
  · rw [deliver_skip_field, if_pos hmem]
    exact Finset.not_mem_erase _ _
  · obtain ⟨tail, ht, hc⟩ := deliver_calls (addSkip s ids) m base
    rw [if_pos hmem] at hc
    exact ⟨tail, ht, hc⟩

/-! ## Lock discipline -/

theorem disciplined_call (s : State) (c : Call) (h : disciplined s.trace)
    (hc : c.isCallOut = true → s.lockHeld = false) : disciplined (call c s).trace := by
  intro t ht
  simp only [call, List.mem_append, List.mem_singleton] at ht
  rcases ht with ht | rfl
  · exact h t ht
  · exact hc

theorem disciplined_sendEvent (s : State) (e : Event) (h : disciplined s.trace) :
    disciplined (sendEvent e s).trace :=
  disciplined_call (release s) _ h (fun _ => rfl)

theorem disciplined_checkReady (s : State) (h : disciplined s.trace) :
    disciplined (checkReady s).trace := by
  unfold checkReady
  split
  · show disciplined (State.trace (ite _ _ _))
    split
    · exact disciplined_call _ _ h (fun _ => rfl)
    · exact h
  · exact h

theorem disciplined_sendDequeueEvent (s : State) (h : disciplined s.trace) :
    disciplined (sendDequeueEvent s).trace := by
  unfold sendDequeueEvent
  split
  · exact h
  · exact disciplined_sendEvent _ _ h

/-- The lock is held again when `sendEvent` and the ready check return to the
locked section. -/
theorem lockHeld_after_callout (s : State) :
    (∀ e, (sendEvent e s).lockHeld = true) ∧
    (s.lockHeld = true → (checkReady s).lockHeld = true) ∧
    (s.lockHeld = true → (sendDequeueEvent s).lockHeld = true) := by
  refine ⟨fun e => rfl, fun h => ?_, fun h => ?_⟩
  · unfold checkReady
    split
    · rfl
    · exact h
  · unfold sendDequeueEvent
    split
    · exact h
    · rfl

/-- One operation entered without the lock makes its call-outs without the lock
and returns without it. -/
theorem step_disciplined (s : State) (op : Op) (hl : s.lockHeld = false)
    (h : disciplined s.trace) :
    disciplined (step s op).trace ∧ (step s op).lockHeld = false := by
  have nc : ∀ c : Call, c.isCallOut = false → ∀ t : State, disciplined t.trace →
      disciplined (call c t).trace := by
    intro c hc t ht
    exact disciplined_call t c ht (fun hx => by rw [hc] at hx; cases hx)
  cases op with
  | deliver m base =>
    by_cases hm : m.replicationId ∈ s.skip
    · simp only [step, deliver, acquire, hm, if_true]
      refine ⟨?_, rfl⟩
      show disciplined (checkReady _).trace
      apply disciplined_checkReady
      apply nc _ (by rfl)
      apply nc _ (by rfl)
      exact h
    · have key : ∀ t : State, disciplined t.trace →
          disciplined (call (.consumerDeliver m) (sendIdEvent m.replicationId t)).trace := by
        intro t ht
        apply nc _ (by rfl)
        exact disciplined_sendEvent _ _ ht
      cases base with
      | error e =>
        simp only [step, deliver, acquire, hm, if_false]
        refine ⟨?_, rfl⟩
        show disciplined (call _ _).trace
        apply key
        split <;> exact h
      | ok b =>
        simp only [step, deliver, acquire, hm, if_false]
        refine ⟨?_, rfl⟩
        show disciplined (checkReady _).trace
        apply disciplined_checkReady
        apply key
        split <;> exact h
  | acknowledged r =>
    simp only [step, acknowledged]
    refine ⟨?_, rfl⟩
    apply nc _ (by rfl)
    show disciplined (checkReady _).trace
    apply disciplined_checkReady
    exact nc _ (by rfl) _ h
  | dequeued id =>
    simp only [step, dequeued]
    exact ⟨nc _ (by rfl) _ h, rfl⟩
  | doDispatch base =>
    have key : disciplined (call .consumerDoDispatch
        (release (if (acquire s).dequeues ≠ ∅ then sendDequeueEvent (acquire s)
          else acquire s))).trace := by
      apply nc _ (by rfl)
      show disciplined (State.trace (ite _ _ _))
      split
      · exact disciplined_sendDequeueEvent _ h
      · exact h
    cases base <;> exact ⟨key, rfl⟩
  | addSkip ids => exact ⟨h, rfl⟩
  | initialise =>
    simp only [step, initialise]
    refine ⟨?_, rfl⟩
    show disciplined (sendDequeueEvent _).trace
    apply disciplined_sendDequeueEvent
    show disciplined (State.trace (ite _ _ _))
    split
    · exact disciplined_call _ _ h (fun _ => hl)
    · exact h
  | cancel =>
    simp only [step, cancel]
    split
    · exact ⟨h, rfl⟩
    · refine ⟨?_, ?_⟩
      · apply nc _ (by rfl)
        apply nc _ (by rfl)
        apply nc _ (by rfl)
        split
        · exact disciplined_call _ _ h (fun _ => rfl)
        · exact h
      · show State.lockHeld (ite _ _ _) = false
        split <;> rfl

theorem ctorAttach_disciplined (args : Arguments) (env : Collaborators) (s : State)
    (h : disciplined s.trace) :
    disciplined (ctorAttach args env s).2.trace ∧
    (ctorAttach args env s).2.lockHeld = s.lockHeld := by
  have nc : ∀ c : Call, c.isCallOut = false → ∀ t : State, disciplined t.trace →
      disciplined (call c t).trace := by
    intro c hc t ht
    exact disciplined_call t c ht (fun hx => by rw [hc] at hx; cases hx)
  unfold ctorAttach
  cases h1 : args.brokerInfo <;> cases h2 : env.hasIdSetter <;> cases h3 : s.hasPrimary <;>
    cases h4 : env.existingGuard <;> cases h5 : env.newGuard <;>
    simp [h3] <;>
    first
    | exact h
    | exact nc _ (by rfl) _ h
    | exact nc _ (by rfl) _ (nc _ (by rfl) _ h)
    | exact nc _ (by rfl) _ (nc _ (by rfl) _ (nc _ (by rfl) _ h))
    | exact nc _ (by rfl) _ (nc _ (by rfl) _ (nc _ (by rfl) _ (nc _ (by rfl) _ h)))

theorem ctorSnapshot_disciplined (args : Arguments) (env : Collaborators) (s : State)
    (h : disciplined s.trace) : disciplined (ctorSnapshot args env s).2.trace := by
  have nc : ∀ c : Call, c.isCallOut = false → ∀ t : State, disciplined t.trace →
      disciplined (call c t).trace := by
    intro c hc t ht
    exact disciplined_call t c ht (fun hx => by rw [hc] at hx; cases hx)
  unfold ctorSnapshot
  cases env.primaryIds <;> cases decodeBackupIds args env <;> cases env.range <;>
    simp <;>
    first
    | exact nc _ (by rfl) _ h
    | exact nc _ (by rfl) _ (nc _ (by rfl) _ h)

/-- The constructor makes its call-outs without the lock and returns without
it. -/
theorem construct_disciplined (args : Arguments) (env : Collaborators) :
    disciplined (construct args env).2.trace ∧ (construct args env).2.lockHeld = false := by
  have h0 : disciplined (State.init env.hasPrimary).trace := by
    intro t ht; simp [State.init] at ht
  obtain ⟨ha, hal⟩ := ctorAttach_disciplined args env (State.init env.hasPrimary) h0
  rcases h1 : ctorAttach args env (State.init env.hasPrimary) with ⟨r1, s1⟩
  rw [h1] at ha hal
  simp only at ha hal
  cases r1 with
  | error e =>
    simp only [construct, h1]
    exact ⟨ha, hal⟩
  | ok u =>
    have hb := ctorSnapshot_disciplined args env s1 ha
    have hbl := (ctorSnapshot_members args env s1).2.2.2.2
    rcases h2 : ctorSnapshot args env s1 with ⟨r2, s2⟩
    rw [h2] at hb hbl
    simp only at hb hbl
    cases r2 with
    | error e =>
      simp only [construct, h1, h2]
      exact ⟨hb, hbl.trans hal⟩
    | ok v =>
      simp only [construct, h1, h2, ctorReconcile]
      refine ⟨?_, rfl⟩
      show disciplined (checkReady _).trace
      exact disciplined_checkReady _ hb

/-- C25.  Lock discipline on call-outs: in the constructor and in every
sequence of operations after it, each Primary-role notification and each event
send is made while the mutex is not held; every operation entered without the
mutex returns without it; and the mutex is held again when `sendEvent` and the
ready check return to the locked section that called them. -/
theorem lock_discipline (args : Arguments) (env : Collaborators) (ops : List Op) :
    disciplined (construct args env).2.trace ∧
    disciplined (run (construct args env).2 ops).trace ∧
    (∀ (s : State) (op : Op), s.lockHeld = false → disciplined s.trace →
      disciplined (step s op).trace ∧ (step s op).lockHeld = false) ∧
    (∀ (s : State) (e : Event), s.lockHeld = true → (sendEvent e s).lockHeld = true) ∧
    (∀ s : State, s.lockHeld = true → (checkReady s).lockHeld = true) := by
  obtain ⟨h0, hl0⟩ := construct_disciplined args env
  have key : ∀ (l : List Op) (s : State), s.lockHeld = false → disciplined s.trace →
      disciplined (run s l).trace := by
    intro l
    induction l with
    | nil => exact fun _ _ h => h
    | cons op l ih =>
      intro s hl h
      obtain ⟨a, b⟩ := step_disciplined s op hl h
      exact ih (step s op) b a
  exact ⟨h0, key ops _ hl0 h0, step_disciplined,
    fun s e _ => (lockHeld_after_callout s).1 e, fun s => (lockHeld_after_callout s).2.1⟩

/-! ## Dequeues during construction -/

/-- Without a dequeue the constructor run against the queue model is the
constructor run against the snapshot of that queue. -/
theorem constructInterleaved_nil (args : Arguments) (env : Collaborators)
    (queueIds : ReplicationIdSet) (h : env.primaryIds = .ok queueIds) :
    constructInterleaved args env queueIds [] [] [] = construct args env := by
  have henv : { env with
      primaryIds := .ok ((queueIds \ (∅ : Finset ReplicationId)) \ ∅) } = env := by
    cases env
    simp only at h
    simp only [Finset.sdiff_empty, h]
  simp only [constructInterleaved, construct, List.toFinset_nil, List.foldl_nil, henv]

/-- The observer calls recorded for a list of dequeues. -/
theorem foldl_dequeued (l : List ReplicationId) (s : State) :
    (l.foldl dequeued s).dequeues = s.dequeues ∪ l.toFinset ∧
    (l.foldl dequeued s).calls = s.calls ++ List.replicate l.length .notify := by
  induction l generalizing s with
  | nil => simp
  | cons d l ih =>
    obtain ⟨a, b⟩ := ih (dequeued s d)
    simp only [List.foldl_cons]
    rw [a, b, (dequeued_addSkip_calls s).1 d]
    constructor
    · ext x
      simp [dequeued, acquire]
    · simp [List.replicate_succ]

/-- When the first part of the constructor returns, the observer is registered
and no snapshot was taken on the way. -/
theorem ctorAttach_ok_calls (args : Arguments) (env : Collaborators) (s : State)
    (hok : (ctorAttach args env s).1 = .ok ()) :
    Call.queueAddObserver ∈ (ctorAttach args env s).2.calls ∧
    (Call.snapshot ∈ (ctorAttach args env s).2.calls → Call.snapshot ∈ s.calls) := by
  unfold ctorAttach at hok ⊢
  cases h1 : args.brokerInfo <;> cases h2 : env.hasIdSetter <;> cases h3 : s.hasPrimary <;>
    cases h4 : env.existingGuard <;> cases h5 : env.newGuard <;>
    simp [h1, h2, h3, h4, h5, State.calls, call] at hok ⊢

/-- When the second part of the constructor returns it has taken the snapshot
and then read the queue range. -/
theorem ctorSnapshot_ok_calls (args : Arguments) (env : Collaborators) (s : State)
    (hok : ∃ v, (ctorSnapshot args env s).1 = .ok v) :
    (ctorSnapshot args env s).2.calls = s.calls ++ [.snapshot, .queueGetRange] := by
  obtain ⟨v, hv⟩ := hok
  unfold ctorSnapshot at hv ⊢
  cases h1 : env.primaryIds <;> cases h2 : decodeBackupIds args env <;>
    cases h3 : env.range <;> simp [h1, h2, h3] at hv ⊢

/-- C22.  No dequeue is missed during reconciliation: the constructor registers
its observer before it takes the snapshot, so that an id `d` of the backup id
set that the primary dequeues before the registration, between the
registration and the snapshot, or after the snapshot is in `dequeues` when the
constructor returns; the union with `initDequeues` under the lock keeps every
id that the observer recorded. -/
theorem no_dequeue_missed (args : Arguments) (env : Collaborators)
    (queueIds A : ReplicationIdSet) (before between after : List ReplicationId)
    (d : ReplicationId)
    (hA : decodeBackupIds args env = .ok A) (hd : d ∈ A)
    (hdq : d ∈ before ∨ d ∈ between ∨ d ∈ after)
    (hok : (constructInterleaved args env queueIds before between after).1 = .ok ()) :
    d ∈ (constructInterleaved args env queueIds before between after).2.dequeues ∧
    (∀ (v : Locals) (s : State), s.dequeues ⊆ (ctorReconcile v s).dequeues) ∧
    (∃ pre post,
      (constructInterleaved args env queueIds before between after).2.calls =
        pre ++ [.snapshot] ++ post ∧
      Call.queueAddObserver ∈ pre ∧ Call.snapshot ∉ pre) := by
  have hkeep : ∀ (v : Locals) (s : State), s.dequeues ⊆ (ctorReconcile v s).dequeues := by
    intro v s
    rw [(ctorReconcile_sets v s).1]
    exact Finset.subset_union_left
  unfold constructInterleaved at hok ⊢
  rcases h1 : ctorAttach args env (State.init env.hasPrimary) with ⟨r1, s1⟩
  rw [h1] at hok
  simp only at hok ⊢
  cases r1 with
  | error e => simp at hok
  | ok u =>
    simp only at hok ⊢
    rcases h2 : ctorSnapshot args
        { env with primaryIds := .ok ((queueIds \ before.toFinset) \ between.toFinset) }
        (between.foldl dequeued s1) with ⟨r2, s2⟩
    rw [h2] at hok
    cases r2 with
    | error e => simp at hok
    | ok v =>
      simp only
      have hv := ctorSnapshot_locals args
        { env with primaryIds := .ok ((queueIds \ before.toFinset) \ between.toFinset) }
        (between.foldl dequeued s1) A _ hA rfl v (by rw [h2])
      have hs2 := ctorSnapshot_dequeues args
        { env with primaryIds := .ok ((queueIds \ before.toFinset) \ between.toFinset) }
        (between.foldl dequeued s1)
      rw [h2] at hs2
      simp only at hs2
      refine ⟨?_, hkeep, ?_⟩
      · rw [(ctorReconcile_sets v _).1, (foldl_dequeued after s2).1, hs2,
          (foldl_dequeued between s1).1, hv.2.2]
        simp only [Finset.mem_union, Finset.mem_sdiff, List.mem_toFinset]
        rcases hdq with h | h | h
        · by_cases hb : d ∈ between
          · exact Or.inl (Or.inl (Or.inr hb))
          · exact Or.inr ⟨hd, fun hc => hc.1.2 h⟩
        · exact Or.inl (Or.inl (Or.inr h))
        · exact Or.inl (Or.inr h)
      · have ha := ctorAttach_ok_calls args env (State.init env.hasPrimary) (by rw [h1])
        rw [h1] at ha
        simp only at ha
        have hc2 := ctorSnapshot_ok_calls args
          { env with primaryIds := .ok ((queueIds \ before.toFinset) \ between.toFinset) }
          (between.foldl dequeued s1) ⟨v, by rw [h2]⟩
        rw [h2] at hc2
        simp only at hc2
        refine ⟨s1.calls ++ List.replicate between.length .notify,
          [.queueGetRange] ++ List.replicate after.length .notify
            ++ readyCalls (acquire { (after.foldl dequeued s2) with
                dequeues := (after.foldl dequeued s2).dequeues ∪ v.initDequeues,
                skip := v.backupIds \ v.initDequeues, position := v.front }), ?_, ?_, ?_⟩
        · simp only [ctorReconcile, release_calls, checkReady_calls]
          have e1 : (acquire (after.foldl dequeued s2)).calls =
              s2.calls ++ List.replicate after.length .notify := (foldl_dequeued after s2).2
          have e2 : (between.foldl dequeued s1).calls =
              s1.calls ++ List.replicate between.length .notify := (foldl_dequeued between s1).2
          show (acquire (after.foldl dequeued s2)).calls ++ _ = _
          rw [e1, hc2, e2]
          simp [List.append_assoc]
          rfl
        · exact List.mem_append_left _ ha.1
        · intro hmem
          rcases List.mem_append.mp hmem with h | h
          · have := ha.2 h
            simp [State.init, State.calls] at this
          · simp [List.mem_replicate] at h

/-- C22, scenario: the backup holds `{1,2,3}`, the queue holds `{1,2,3,4}`, and
the primary dequeues 1 before the observer is registered, 2 before the snapshot
and 3 after it: 3 is in `dequeues`, which is `{1,2,3}`. -/
theorem no_dequeue_missed_witness :
    3 ∈ (constructInterleaved exArgs exEnv {1, 2, 3, 4} [1] [2] [3]).2.dequeues ∧
    (constructInterleaved exArgs exEnv {1, 2, 3, 4} [1] [2] [3]).2.dequeues = {1, 2, 3} :=
  ⟨(no_dequeue_missed exArgs exEnv {1, 2, 3, 4} {1, 2, 3} [1] [2] [3] 3 (by rfl) (by decide)
      (Or.inr (Or.inr (by decide))) (by rfl)).1, by decide⟩

end ReplicatingSubscription


namespace Alloc

/-! ## The loops of the allocator -/

theorem moveItems_of_le (n : Nat) (src dst : Pool) (h : n ≤ src.length) :
    moveItems n src dst = some (src.drop n, dst ++ src.take n) := by
  induction n generalizing src dst with
  | zero => simp [moveItems]
  | succ n ih =>
    cases src with
    | nil => simp at h
    | cons item src =>
      simp only [List.length_cons, Nat.add_le_add_iff_right] at h
      simp [moveItems, ih src (dst ++ [item]) h]

theorem moveItems_some (n : Nat) (src dst src' dst' : Pool)
    (h : moveItems n src dst = some (src', dst')) :
    n ≤ src.length ∧ src' = src.drop n ∧ dst' = dst ++ src.take n := by
  induction n generalizing src dst with
  | zero =>
    simp [moveItems] at h
    simp [h.1, h.2]
  | succ n ih =>
    cases src with
    | nil => simp [moveItems] at h
    | cons item src =>
      simp only [moveItems] at h
      obtain ⟨a, b, c⟩ := ih src (dst ++ [item]) h
      exact ⟨by simp; omega, by simp [b], by simp [c]⟩

/-- The heap loop takes `k` items, `k` at most the batch size, and counts each
of them in `held_by_threads` and `total_alloc_from_heap`. -/
theorem mallocBatch_spec (n : Nat) (heap : List (Option Item)) (pool : Pool)
    (stats : dx_alloc_stats_t) :
    ∃ k, k ≤ n ∧
      (mallocBatch n heap pool stats).1.length = pool.length + k ∧
      (mallocBatch n heap pool stats).2.held_by_threads = stats.held_by_threads + k ∧
      (mallocBatch n heap pool stats).2.total_alloc_from_heap =
        stats.total_alloc_from_heap + k ∧
      (mallocBatch n heap pool stats).2.total_free_to_heap = stats.total_free_to_heap ∧
      (∀ item rest, heap = some item :: rest → 1 ≤ n → 1 ≤ k) := by
  induction n generalizing heap pool stats with
  | zero => exact ⟨0, by simp [mallocBatch]⟩
  | succ n ih =>
    cases heap with
    | nil => exact ⟨0, by simp [mallocBatch]⟩
    | cons r heap =>
      cases r with
      | none => exact ⟨0, by simp [mallocBatch]⟩
      | some item =>
        obtain ⟨k, h1, h2, h3, h4, h5, -⟩ := ih heap (pool ++ [item])
          { stats with held_by_threads := stats.held_by_threads + 1,
                       total_alloc_from_heap := stats.total_alloc_from_heap + 1 }
        refine ⟨k + 1, by omega, ?_, ?_, ?_, ?_, fun _ _ _ _ => by omega⟩
        · simp only [mallocBatch, h2, List.length_append, List.length_singleton]; omega
        · simp only [mallocBatch, h3]; omega
        · simp only [mallocBatch, h4]; omega
        · simp only [mallocBatch, h5]

/-- The loop that enforces the cap leaves the last `max` items (all of them if
there are not more), counts each freed item in `total_free_to_heap` and touches
no other counter. -/
theorem freeExcess_spec (max : Nat) (global : Pool) (stats : dx_alloc_stats_t) :
    (freeExcess max global stats).1.length = min global.length max ∧
    (freeExcess max global stats).2.total_free_to_heap =
      stats.total_free_to_heap + (global.length - min global.length max) ∧
    (freeExcess max global stats).2.held_by_threads = stats.held_by_threads ∧
    (freeExcess max global stats).2.total_alloc_from_heap = stats.total_alloc_from_heap := by
  induction global generalizing stats with
  | nil => simp [freeExcess]
  | cons item rest ih =>
    by_cases h : (item :: rest).length > max
    · obtain ⟨a, b, c, d⟩ := ih
        { stats with total_free_to_heap := stats.total_free_to_heap + 1 }
      simp only [freeExcess, h, if_true]
      simp only [List.length_cons] at h ⊢
      refine ⟨?_, ?_, c, d⟩
      · rw [a]; simp only [Nat.min_def]; split <;> split <;> omega
      · rw [b]; simp only [Nat.min_def]; split <;> split <;> omega
    · have e : freeExcess max (item :: rest) stats = (item :: rest, stats) := by
        simp only [freeExcess, h, if_false]
      rw [e]
      simp only [List.length_cons] at h ⊢
      refine ⟨?_, ?_, trivial, trivial⟩
      · simp only [Nat.min_def]; split <;> omega
      · simp only [Nat.min_def]; split <;> omega


/-! ## One call of the allocator -/

theorem chooseConfig_spec (desc : dx_alloc_type_desc_t) :
    (∀ c, desc.config = some c → chooseConfig desc = c) ∧
    (desc.config = none →
      (chooseConfig desc).transfer_batch_size ≤ (chooseConfig desc).local_free_list_max) := by
  constructor
  · intro c hc
    simp [chooseConfig, hc]
  · intro hc
    simp only [chooseConfig, hc]
    split <;> decide

/-- On a descriptor without a global pool `dx_alloc_init` either fails its
`assert` or hangs an empty global pool and zeroed statistics on the descriptor
and keeps a configuration that was given. -/
theorem dx_alloc_init_some (desc d1 : dx_alloc_type_desc_t) (hr : desc.runtime = none)
    (h : dx_alloc_init desc = some d1) :
    d1.runtime = some { global_pool := [], stats := zeroStats } ∧
    ∃ c, d1.config = some c ∧ c.transfer_batch_size ≤ c.local_free_list_max ∧
      (∀ c0, desc.config = some c0 → c = c0) := by
  obtain ⟨ts, ad, tot, cfg0, rt0⟩ := desc
  simp only at hr
  subst hr
  simp only [dx_alloc_init] at h
  have hcc := (chooseConfig_spec ⟨ts, ad, totalSize ⟨ts, ad, tot, cfg0, none⟩, cfg0, none⟩).1
  generalize chooseConfig ⟨ts, ad, totalSize ⟨ts, ad, tot, cfg0, none⟩, cfg0, none⟩ = cfg
    at h hcc
  by_cases hle : cfg.local_free_list_max ≥ cfg.transfer_batch_size
  · rw [if_pos hle] at h
    injection h with h
    subst h
    exact ⟨rfl, cfg, rfl, hle, fun c0 hc0 => hcc c0 hc0⟩
  · rw [if_neg hle] at h
    cases h

/-- With a configuration that passes the `assert`, or none, `dx_alloc_init`
returns. -/
theorem dx_alloc_init_total (desc : dx_alloc_type_desc_t) (hr : desc.runtime = none)
    (hcfg : ∀ c, desc.config = some c → c.transfer_batch_size ≤ c.local_free_list_max) :
    ∃ d1, dx_alloc_init desc = some d1 := by
  obtain ⟨ts, ad, tot, cfg0, rt0⟩ := desc
  simp only at hr hcfg
  subst hr
  simp only [dx_alloc_init]
  obtain ⟨h1, h2⟩ :=
    chooseConfig_spec ⟨ts, ad, totalSize ⟨ts, ad, tot, cfg0, none⟩, cfg0, none⟩
  have hle : (chooseConfig
        ⟨ts, ad, totalSize ⟨ts, ad, tot, cfg0, none⟩, cfg0, none⟩).local_free_list_max ≥
      (chooseConfig
        ⟨ts, ad, totalSize ⟨ts, ad, tot, cfg0, none⟩, cfg0, none⟩).transfer_batch_size := by
    cases cfg0 with
    | some c =>
      rw [h1 c rfl]
      exact hcfg c rfl
    | none => exact h2 rfl
  rw [if_pos hle]
  exact ⟨_, rfl⟩

/-- On a descriptor without a global pool `dx_alloc` is `dx_alloc_init` followed
by `dx_alloc` on the descriptor it leaves. -/
theorem dx_alloc_uninit (desc : dx_alloc_type_desc_t) (tpool : Option Pool)
    (heap : List (Option Item)) (hr : desc.runtime = none) :
    dx_alloc desc tpool heap =
      match dx_alloc_init desc with
      | none => none
      | some d1 => dx_alloc d1 tpool heap := by
  cases h : dx_alloc_init desc with
  | none => simp [dx_alloc, hr, h]
  | some d1 =>
    obtain ⟨h1, -⟩ := dx_alloc_init_some desc d1 hr h
    simp only [dx_alloc, hr, h, h1]

/-- One `dx_alloc` on a descriptor with a global pool: it returns, keeps the
configuration, takes `k` items from the heap and `j` from the global free list
(none of either when the thread list has an item), hands out one item if the
thread list has one then, and counts accordingly. -/
theorem dx_alloc_core (desc : dx_alloc_type_desc_t) (tpool : Option Pool)
    (heap : List (Option Item)) (c : dx_alloc_config_t) (rt : Runtime)
    (hc : desc.config = some c) (hr : desc.runtime = some rt) :
    ∃ r desc' pool' rt' k j,
      dx_alloc desc tpool heap = some (r, desc', some pool') ∧
      desc'.config = some c ∧ desc'.runtime = some rt' ∧
      rt'.stats.total_alloc_from_heap = rt.stats.total_alloc_from_heap + k ∧
      rt'.stats.total_free_to_heap = rt.stats.total_free_to_heap ∧
      rt'.stats.held_by_threads = rt.stats.held_by_threads + k + j ∧
      rt'.global_pool.length + j = rt.global_pool.length ∧
      pool'.length + (if r.isSome then 1 else 0) = (ensurePool tpool).length + k + j ∧
      (r.isSome = true ↔ 1 ≤ (ensurePool tpool).length + k + j) ∧
      (ensurePool tpool ≠ [] → k = 0 ∧ j = 0) ∧
      (ensurePool tpool = [] → k + j ≤ c.transfer_batch_size ∧
        (c.transfer_batch_size ≤ rt.global_pool.length → j = c.transfer_batch_size) ∧
        (∀ item rest, rt.global_pool.length < c.transfer_batch_size →
          heap = some item :: rest → 1 ≤ k)) := by
  cases hL : ensurePool tpool with
  | cons item rest =>
    refine ⟨some item, desc, rest, rt, 0, 0, ?_, hc, hr, rfl, rfl, rfl, rfl, ?_, ?_, ?_, ?_⟩
    · simp [dx_alloc, hr, hL]
    · simp
    · simp
    · intro _; exact ⟨rfl, rfl⟩
    · intro h; cases h
  | nil =>
    by_cases hg : c.transfer_batch_size ≤ rt.global_pool.length
    · have hm := moveItems_of_le c.transfer_batch_size rt.global_pool [] hg
      have hd : dx_alloc desc tpool heap = some (takeHead
          { desc with runtime := some (
              { global_pool := rt.global_pool.drop c.transfer_batch_size,
                stats := { rt.stats with
                  batches_rebalanced_to_threads := rt.stats.batches_rebalanced_to_threads + 1,
                  held_by_threads := rt.stats.held_by_threads + c.transfer_batch_size } }) }
          (rt.global_pool.take c.transfer_batch_size)) := by
        simp [dx_alloc, hr, hL, hc, hg, hm]
      have hlen : (rt.global_pool.take c.transfer_batch_size).length = c.transfer_batch_size := by
        simp [List.length_take, hg]
      cases hT : rt.global_pool.take c.transfer_batch_size with
      | nil =>
        rw [hT] at hd hlen
        simp only [List.length_nil] at hlen
        refine ⟨none, _, [], _, 0, 0, hd, hc, rfl, ?_, ?_, ?_, ?_, ?_, ?_, ?_, ?_⟩
        · rfl
        · rfl
        · simp only; omega
        · simp only [List.length_drop]; omega
        · simp
        · simp
        · intro h; exact absurd rfl h
        · intro _
          exact ⟨by omega, fun _ => by omega, fun _ _ hlt => by omega⟩
      | cons item rest =>
        rw [hT] at hd hlen
        simp only [List.length_cons] at hlen
        refine ⟨some item, _, rest, _, 0, c.transfer_batch_size, hd, hc, rfl, ?_, ?_, ?_, ?_,
          ?_, ?_, ?_, ?_⟩
        · rfl
        · rfl
        · simp only; omega
        · simp only [List.length_drop]; omega
        · simp; omega
        · simp; omega
        · intro h; exact absurd rfl h
        · intro _
          exact ⟨by omega, fun _ => rfl, fun _ _ hlt => by omega⟩
    · obtain ⟨k, hk, h2, h3, h4, h5, h6⟩ :=
        mallocBatch_spec c.transfer_batch_size heap [] rt.stats
      have hd : dx_alloc desc tpool heap = some (takeHead
          { desc with runtime := some (
              { global_pool := rt.global_pool,
                stats := (mallocBatch c.transfer_batch_size heap [] rt.stats).2 }) }
          (mallocBatch c.transfer_batch_size heap [] rt.stats).1) := by
        simp [dx_alloc, hr, hL, hc, hg]
      simp only [List.length_nil, Nat.zero_add] at h2
      cases hT : (mallocBatch c.transfer_batch_size heap [] rt.stats).1 with
      | nil =>
        rw [hT] at hd h2
        simp only [List.length_nil] at h2
        refine ⟨none, _, [], _, k, 0, hd, hc, rfl, h4, h5, ?_, rfl, ?_, ?_, ?_, ?_⟩
        · simp only; omega
        · simp; omega
        · simp; omega
        · intro h; exact absurd rfl h
        · intro _
          exact ⟨by omega, fun hle => absurd hle hg, fun item rest _ hh => h6 item rest hh (by omega)⟩
      | cons item rest =>
        rw [hT] at hd h2
        simp only [List.length_cons] at h2
        refine ⟨some item, _, rest, _, k, 0, hd, hc, rfl, h4, h5, ?_, rfl, ?_, ?_, ?_, ?_⟩
        · simp only; omega
        · simp; omega
        · simp; omega
        · intro h; exact absurd rfl h
        · intro _
          exact ⟨by omega, fun hle => absurd hle hg, fun item rest _ hh => h6 item rest hh (by omega)⟩


/-- One `dx_dealloc` that returns, on a descriptor with a global pool: the item
goes to the thread list; if that list is then longer than `local_free_list_max`,
`j = transfer_batch_size` items move to the global list and `f` items are freed
to the heap to enforce the cap, else nothing else happens. -/
theorem dx_dealloc_some (desc desc' : dx_alloc_type_desc_t) (tpool tpool' : Option Pool)
    (p : Item) (c : dx_alloc_config_t) (rt : Runtime)
    (hc : desc.config = some c) (hr : desc.runtime = some rt)
    (h : dx_dealloc desc tpool p = some (desc', tpool')) :
    ∃ pool' rt' j f,
      tpool' = some pool' ∧ desc'.config = some c ∧ desc'.runtime = some rt' ∧
      pool'.length + j = (ensurePool tpool).length + 1 ∧
      rt'.global_pool.length + f = rt.global_pool.length + j ∧
      rt'.stats.total_free_to_heap = rt.stats.total_free_to_heap + f ∧
      rt'.stats.total_alloc_from_heap = rt.stats.total_alloc_from_heap ∧
      rt'.stats.held_by_threads = rt.stats.held_by_threads - j ∧
      ((ensurePool tpool).length + 1 ≤ c.local_free_list_max → j = 0 ∧ f = 0) ∧
      (c.local_free_list_max < (ensurePool tpool).length + 1 → j = c.transfer_batch_size) ∧
      (c.global_free_list_max = 0 → f = 0) ∧
      (c.global_free_list_max ≠ 0 → c.local_free_list_max < (ensurePool tpool).length + 1 →
        rt'.global_pool.length ≤ c.global_free_list_max) := by
  unfold dx_dealloc at h
  simp only [hc, hr, List.length_append, List.length_singleton] at h
  by_cases hle : (ensurePool tpool).length + 1 ≤ c.local_free_list_max
  · rw [if_pos hle] at h
    simp only [Option.some.injEq, Prod.mk.injEq] at h
    obtain ⟨h1, h2⟩ := h
    subst h1
    refine ⟨_, rt, 0, 0, h2.symm, hc, hr, by simp, rfl, rfl, rfl, rfl, fun _ => ⟨rfl, rfl⟩,
      fun hlt => by omega, fun _ => rfl, fun _ hlt => by omega⟩
  · rw [if_neg hle] at h
    cases hm : moveItems c.transfer_batch_size (ensurePool tpool ++ [p]) rt.global_pool with
    | none => simp [hm] at h
    | some r =>
      obtain ⟨pool1, global1⟩ := r
      obtain ⟨hn, hp1, hg1⟩ := moveItems_some _ _ _ _ _ hm
      simp only [List.length_append, List.length_singleton] at hn
      simp only [hm] at h
      by_cases hz : c.global_free_list_max = 0
      · simp only [hz, ne_eq, not_true_eq_false, if_false, Option.some.injEq,
          Prod.mk.injEq] at h
        obtain ⟨h1, h2⟩ := h
        subst h1
        refine ⟨pool1, _, c.transfer_batch_size, 0, h2.symm, rfl, rfl, ?_, ?_, rfl, rfl, rfl,
          fun hx => absurd hx hle, fun _ => rfl, fun _ => rfl, fun hx => absurd hz hx⟩
        · rw [hp1]; simp only [List.length_drop, List.length_append, List.length_singleton]
          omega
        · rw [hg1]
          simp only [List.length_append, List.length_take, List.length_singleton]
          omega
      · obtain ⟨a, b, cc, d⟩ := freeExcess_spec c.global_free_list_max global1
          { rt.stats with
            batches_rebalanced_to_global := rt.stats.batches_rebalanced_to_global + 1,
            held_by_threads := rt.stats.held_by_threads - c.transfer_batch_size }
        simp only [ne_eq, hz, not_false_eq_true, if_true, Option.some.injEq,
          Prod.mk.injEq] at h
        obtain ⟨h1, h2⟩ := h
        subst h1
        have hgl : global1.length = rt.global_pool.length + c.transfer_batch_size := by
          rw [hg1]
          simp only [List.length_append, List.length_take, List.length_singleton]
          omega
        refine ⟨pool1, _, c.transfer_batch_size,
          global1.length - min global1.length c.global_free_list_max, h2.symm, rfl, rfl,
          ?_, ?_, ?_, ?_, ?_, fun hx => absurd hx hle, fun _ => rfl,
          fun hx => absurd hx hz, fun _ _ => ?_⟩
        · rw [hp1]; simp only [List.length_drop, List.length_append, List.length_singleton]
          omega
        · simp only [a, ← hgl]
          simp only [Nat.min_def]; split <;> omega
        · simp only [b]
        · simp only [d]
        · simp only [cc]
        · simp only [a]
          exact Nat.min_le_right _ _

/-- With a configuration that passes the `assert`, `dx_dealloc` on a descriptor
with a global pool returns: the rebalance finds `transfer_batch_size` items on
the thread list. -/
theorem dx_dealloc_total (desc : dx_alloc_type_desc_t) (tpool : Option Pool) (p : Item)
    (c : dx_alloc_config_t) (rt : Runtime)
    (hc : desc.config = some c) (hr : desc.runtime = some rt)
    (hb : c.transfer_batch_size ≤ c.local_free_list_max) :
    (∃ r, dx_dealloc desc tpool p = some r) ∧
    (c.local_free_list_max < (ensurePool tpool).length + 1 →
      moveItems c.transfer_batch_size (ensurePool tpool ++ [p]) rt.global_pool =
        some ((ensurePool tpool ++ [p]).drop c.transfer_batch_size,
          rt.global_pool ++ (ensurePool tpool ++ [p]).take c.transfer_batch_size) ∧
      ((ensurePool tpool ++ [p]).take c.transfer_batch_size).length = c.transfer_batch_size) := by
  have hmove : c.local_free_list_max < (ensurePool tpool).length + 1 →
      c.transfer_batch_size ≤ (ensurePool tpool ++ [p]).length := by
    intro hlt
    simp only [List.length_append, List.length_singleton]
    omega
  constructor
  · unfold dx_dealloc
    simp only [hc, hr, List.length_append, List.length_singleton]
    by_cases hle : (ensurePool tpool).length + 1 ≤ c.local_free_list_max
    · rw [if_pos hle]; exact ⟨_, rfl⟩
    · rw [if_neg hle]
      rw [moveItems_of_le _ _ _ (hmove (by omega))]
      exact ⟨_, rfl⟩
  · intro hlt
    refine ⟨moveItems_of_le _ _ _ (hmove hlt), ?_⟩
    have := hmove hlt
    simp only [List.length_take]
    omega

/-- On a descriptor without a global pool a `dx_dealloc` that returns has put
the item on the thread list and left the descriptor alone. -/
theorem dx_dealloc_uninit (desc desc' : dx_alloc_type_desc_t) (tpool tpool' : Option Pool)
    (p : Item) (hr : desc.runtime = none)
    (h : dx_dealloc desc tpool p = some (desc', tpool')) : desc' = desc := by
  unfold dx_dealloc at h
  cases hc : desc.config with
  | none => simp [hc] at h
  | some c =>
    simp only [hc, hr] at h
    split at h
    · simp only [Option.some.injEq, Prod.mk.injEq] at h
      exact h.1.symm
    · cases h


/-! ## The accounting of the statistics -/

theorem handle_alloc_eq (w : World) (heap : List (Option Item)) (r : Option Item)
    (desc' : dx_alloc_type_desc_t) (tpool' : Option Pool)
    (h : dx_alloc w.desc w.tpool heap = some (r, desc', tpool')) :
    ∃ w', handle w (.alloc heap) = some w' ∧ w'.desc = desc' ∧ w'.tpool = tpool' ∧
      w'.out.length = w.out.length + (if r.isSome then 1 else 0) := by
  cases r with
  | none => exact ⟨⟨desc', tpool', w.out⟩, by simp only [handle, h], rfl, rfl, by simp⟩
  | some p => exact ⟨⟨desc', tpool', p :: w.out⟩, by simp only [handle, h], rfl, rfl, by simp⟩

/-- One call that gives back only what is handed out returns and keeps the
descriptor in order and the statistics accounted. -/
theorem handle_accounted (w : World) (r : Request) (hready : Ready w) (hacc : Accounted w)
    (hused : ∀ p, r = .dealloc p → p ∈ w.out) :
    ∃ w', handle w r = some w' ∧ Ready w' ∧ Accounted w' := by
  obtain ⟨hcfg, hrt⟩ := hready
  cases r with
  | alloc heap =>
    -- the descriptor that the body of `dx_alloc` works on, after `dx_alloc_init`
    have hinit : ∃ d1 c rt, dx_alloc w.desc w.tpool heap = dx_alloc d1 w.tpool heap ∧
        d1.config = some c ∧ d1.runtime = some rt ∧
        c.transfer_batch_size ≤ c.local_free_list_max ∧
        (rt.stats.total_alloc_from_heap - rt.stats.total_free_to_heap =
            rt.stats.held_by_threads + rt.global_pool.length ∧
          rt.stats.total_free_to_heap ≤ rt.stats.total_alloc_from_heap ∧
          rt.stats.held_by_threads = w.localList.length + w.out.length) := by
      cases hr : w.desc.runtime with
      | none =>
        rw [hr] at hrt
        obtain ⟨d1, hd1⟩ := dx_alloc_init_total w.desc hr hcfg
        obtain ⟨h1, c, h2, h3, -⟩ := dx_alloc_init_some w.desc d1 hr hd1
        refine ⟨d1, c, _, ?_, h2, h1, h3, ?_⟩
        · rw [dx_alloc_uninit w.desc w.tpool heap hr, hd1]
        · simp [zeroStats, hrt.1, hrt.2]
      | some rt =>
        rw [hr] at hrt
        cases hc : w.desc.config with
        | none => exact absurd hc hrt
        | some c => exact ⟨w.desc, c, rt, rfl, hc, hr, hcfg c hc, hacc rt hr⟩
    obtain ⟨d1, c, rt, hd, hc, hr, hb, ha1, ha2, ha3⟩ := hinit
    obtain ⟨res, desc', pool', rt', k, j, e0, e1, e2, e3, e4, e5, e6, e7, -⟩ :=
      dx_alloc_core d1 w.tpool heap c rt hc hr
    obtain ⟨w', hw, hwd, hwt, hwo⟩ := handle_alloc_eq w heap res desc' (some pool') (hd.trans e0)
    refine ⟨w', hw, ⟨?_, ?_⟩, ?_⟩
    · intro c' hc'
      rw [hwd, e1] at hc'
      injection hc' with hc'
      subst hc'
      exact hb
    · rw [hwd, e2]
      simp only
      rw [e1]
      simp
    · intro rt2 hrt2
      rw [hwd, e2] at hrt2
      injection hrt2 with hrt2
      subst hrt2
      have hl : w'.localList.length = pool'.length := by simp [World.localList, hwt, ensurePool]
      have hl0 : w.localList.length = (ensurePool w.tpool).length := rfl
      rw [hl, hwo]
      refine ⟨?_, ?_, ?_⟩ <;> omega
  | dealloc p =>
    have hp := hused p rfl
    cases hr : w.desc.runtime with
    | none =>
      rw [hr] at hrt
      rw [hrt.1] at hp
      cases hp
    | some rt =>
      rw [hr] at hrt
      cases hc : w.desc.config with
      | none => exact absurd hc hrt
      | some c =>
        have hb := hcfg c hc
        obtain ⟨⟨⟨desc', tpool'⟩, hres⟩, -⟩ := dx_dealloc_total w.desc w.tpool p c rt hc hr hb
        obtain ⟨pool', rt', j, f, e0, e1, e2, e3, e4, e5, e6, e7, e8, e9, -, -⟩ :=
          dx_dealloc_some w.desc desc' w.tpool tpool' p c rt hc hr hres
        obtain ⟨ha1, ha2, ha3⟩ := hacc rt hr
        refine ⟨⟨desc', tpool', w.out.erase p⟩, by simp only [handle, hres], ⟨?_, ?_⟩, ?_⟩
        · intro c' hc'
          simp only [e1] at hc'
          injection hc' with hc'
          subst hc'
          exact hb
        · simp only [e2, e1]
          simp
        · intro rt2 hrt2
          simp only [e2] at hrt2
          injection hrt2 with hrt2
          subst hrt2
          have hl : (World.localList ⟨desc', tpool', w.out.erase p⟩).length = pool'.length := by
            simp [World.localList, e0, ensurePool]
          have hl0 : w.localList.length = (ensurePool w.tpool).length := rfl
          have ho : (w.out.erase p).length = w.out.length - 1 := List.length_erase_of_mem hp
          have hpos : 1 ≤ w.out.length := List.length_pos_of_mem hp
          rw [hl]
          simp only [ho]
          by_cases hle : (ensurePool w.tpool).length + 1 ≤ c.local_free_list_max
          · obtain ⟨hj, hf⟩ := e8 hle
            refine ⟨?_, ?_, ?_⟩ <;> omega
          · have hj := e9 (by omega)
            refine ⟨?_, ?_, ?_⟩ <;> omega

/-- A sequence of calls that gives back only what is handed out returns and
keeps the statistics accounted. -/
theorem handleAll_accounted (reqs : List Request) (w : World) (hready : Ready w)
    (hacc : Accounted w) (hused : wellUsed w reqs = true) :
    ∃ w', handleAll w reqs = some w' ∧ Ready w' ∧ Accounted w' := by
  induction reqs generalizing w with
  | nil => exact ⟨w, rfl, hready, hacc⟩
  | cons r reqs ih =>
    simp only [wellUsed, Bool.and_eq_true] at hused
    have hu : ∀ p, r = .dealloc p → p ∈ w.out := by
      intro p hp
      subst hp
      simpa using hused.1
    obtain ⟨w1, h1, hr1, ha1⟩ := handle_accounted w r hready hacc hu
    have h2 := hused.2
    rw [h1] at h2
    obtain ⟨w2, h3, hr2, ha2⟩ := ih w1 hr1 ha1 h2
    exact ⟨w2, by simp only [handleAll, h1, h3], hr2, ha2⟩

/-- A fresh world is in order and accounted. -/
theorem fresh_ready (type_size : Nat) (additional_size : Option Nat)
    (config : Option dx_alloc_config_t)
    (hcfg : ∀ c, config = some c → c.transfer_batch_size ≤ c.local_free_list_max) :
    Ready (World.fresh type_size additional_size config) ∧
    Accounted (World.fresh type_size additional_size config) := by
  refine ⟨⟨hcfg, ⟨rfl, rfl⟩⟩, ?_⟩
  intro rt hrt
  cases hrt

/-- C28.  Accounting invariant of the pool allocator: from a descriptor before
its first use, with a configuration whose `transfer_batch_size` is at most its
`local_free_list_max` (or with none, which selects a default one), every
sequence of `dx_alloc` and `dx_dealloc` calls of one thread that gives back only
items that are handed out returns, and afterwards `total_alloc_from_heap −
total_free_to_heap = held_by_threads +` the length of the global free list,
and `held_by_threads` is the number of items of the thread-local free list plus
the number of items handed out. -/
theorem accounting_invariant (type_size : Nat) (additional_size : Option Nat)
    (config : Option dx_alloc_config_t) (reqs : List Request)
    (hcfg : ∀ c, config = some c → c.transfer_batch_size ≤ c.local_free_list_max)
    (hused : wellUsed (World.fresh type_size additional_size config) reqs = true) :
    ∃ w, handleAll (World.fresh type_size additional_size config) reqs = some w ∧
      ∀ rt, w.desc.runtime = some rt →
        rt.stats.total_alloc_from_heap - rt.stats.total_free_to_heap =
          rt.stats.held_by_threads + rt.global_pool.length ∧
        rt.stats.total_free_to_heap ≤ rt.stats.total_alloc_from_heap ∧
        rt.stats.held_by_threads = w.localList.length + w.out.length := by
  obtain ⟨h1, h2⟩ := fresh_ready type_size additional_size config hcfg
  obtain ⟨w, hw, -, ha⟩ := handleAll_accounted reqs _ h1 h2 hused
  exact ⟨w, hw, ha⟩

/-- C28, scenario: batches of 2, thread list of at most 3, global list of at
most 2; six items are allocated and given back.  At the end 6 items were taken
from the heap, 2 were freed, 2 are held by the thread and 2 are on the global
list. -/
theorem accounting_invariant_witness :
    ∃ w, handleAll (World.fresh 8 none (some exConfig)) exRequests = some w ∧
      ∀ rt, w.desc.runtime = some rt →
        rt.stats.total_alloc_from_heap - rt.stats.total_free_to_heap =
          rt.stats.held_by_threads + rt.global_pool.length ∧
        rt.stats.total_free_to_heap ≤ rt.stats.total_alloc_from_heap ∧
        rt.stats.held_by_threads = w.localList.length + w.out.length :=
  accounting_invariant 8 none (some exConfig) exRequests
    (by intro c hc; injection hc with hc; subst hc; decide) (by decide)


/-! ## The bound of the thread-local free list -/

/-- C29.  Local free-list bound: with `1 <= transfer_batch_size <=
local_free_list_max` and a thread-local free list of at most
`local_free_list_max` items, `dx_alloc` returns and leaves at most
`local_free_list_max` items on the list, and so does `dx_dealloc` on a descriptor
that `dx_alloc_init` has set up; when `dx_dealloc` rebalances, the thread list
holds the `transfer_batch_size` items that are moved to the global list, so the
head of an empty list is never removed. -/
theorem local_list_bound (desc : dx_alloc_type_desc_t) (tpool : Option Pool)
    (c : dx_alloc_config_t) (hc : desc.config = some c)
    (h1 : 1 ≤ c.transfer_batch_size)
    (h2 : c.transfer_batch_size ≤ c.local_free_list_max)
    (hl : (ensurePool tpool).length ≤ c.local_free_list_max) :
    (∀ heap, ∃ r desc' pool', dx_alloc desc tpool heap = some (r, desc', some pool') ∧
      pool'.length ≤ c.local_free_list_max) ∧
    (∀ p rt, desc.runtime = some rt →
      (∃ desc' pool', dx_dealloc desc tpool p = some (desc', some pool') ∧
        pool'.length ≤ c.local_free_list_max) ∧
      (c.local_free_list_max < (ensurePool tpool).length + 1 →
        moveItems c.transfer_batch_size (ensurePool tpool ++ [p]) rt.global_pool =
          some ((ensurePool tpool ++ [p]).drop c.transfer_batch_size,
            rt.global_pool ++ (ensurePool tpool ++ [p]).take c.transfer_batch_size) ∧
        ((ensurePool tpool ++ [p]).take c.transfer_batch_size).length =
          c.transfer_batch_size)) := by
  constructor
  · intro heap
    have hinit : ∃ d1 rt, dx_alloc desc tpool heap = dx_alloc d1 tpool heap ∧
        d1.config = some c ∧ d1.runtime = some rt := by
      cases hr : desc.runtime with
      | none =>
        obtain ⟨d1, hd1⟩ := dx_alloc_init_total desc hr (fun c' hc' => by
          rw [hc] at hc'; injection hc' with hc'; subst hc'; exact h2)
        obtain ⟨e1, c', e2, -, e3⟩ := dx_alloc_init_some desc d1 hr hd1
        have : c' = c := e3 c hc
        subst this
        exact ⟨d1, _, by rw [dx_alloc_uninit desc tpool heap hr, hd1], e2, e1⟩
      | some rt => exact ⟨desc, rt, rfl, hc, hr⟩
    obtain ⟨d1, rt, hd, hc1, hr1⟩ := hinit
    obtain ⟨r, desc', pool', rt', k, j, e0, -, -, -, -, -, -, e7, e8, e9, e10⟩ :=
      dx_alloc_core d1 tpool heap c rt hc1 hr1
    refine ⟨r, desc', pool', hd.trans e0, ?_⟩
    by_cases hne : ensurePool tpool = []
    · obtain ⟨hkj, -, -⟩ := e10 hne
      rw [hne] at e7 e8
      simp only [List.length_nil] at e7 e8
      cases hr : r.isSome
      · rw [hr] at e7; simp at e7; omega
      · rw [hr] at e7; simp at e7; omega
    · obtain ⟨hk, hj⟩ := e9 hne
      have : (if r.isSome = true then 1 else 0) ≤ 1 := by split <;> omega
      omega
  · intro p rt hr
    obtain ⟨⟨⟨desc', tpool'⟩, hres⟩, hmove⟩ := dx_dealloc_total desc tpool p c rt hc hr h2
    obtain ⟨pool', rt', j, f, e0, -, -, e3, -, -, -, -, e8, e9, -, -⟩ :=
      dx_dealloc_some desc desc' tpool tpool' p c rt hc hr hres
    refine ⟨⟨desc', pool', by rw [hres, e0], ?_⟩, hmove⟩
    by_cases hle : (ensurePool tpool).length + 1 ≤ c.local_free_list_max
    · obtain ⟨hj, -⟩ := e8 hle
      omega
    · have := e9 (by omega)
      omega

/-- C29, scenario: batches of 2 and a thread list of at most 3: on a thread
list of 3 items `dx_dealloc` moves 2 items to the global list and leaves 2. -/
theorem local_list_bound_witness :
    ∃ desc' pool',
      dx_dealloc ⟨8, none, 8, some exConfig, some ⟨[], zeroStats⟩⟩ (some [1, 2, 3]) 4 =
        some (desc', some pool') ∧ pool'.length ≤ 3 :=
  ((local_list_bound ⟨8, none, 8, some exConfig, some ⟨[], zeroStats⟩⟩ (some [1, 2, 3])
    exConfig rfl (by decide) (by decide) (by decide)).2 4 ⟨[], zeroStats⟩ rfl).1

/-! ## The cap of the global free list -/

/-- On a descriptor with a global pool and without a configuration a `dx_alloc`
that returns has taken the head of the thread list and left the descriptor
alone. -/
theorem dx_alloc_noconfig (desc desc' : dx_alloc_type_desc_t) (tpool tpool' : Option Pool)
    (heap : List (Option Item)) (r : Option Item) (rt : Runtime)
    (hr : desc.runtime = some rt) (hc : desc.config = none)
    (h : dx_alloc desc tpool heap = some (r, desc', tpool')) : desc' = desc := by
  unfold dx_alloc at h
  simp only [hr, hc] at h
  split at h
  · simp only [Option.some.injEq, Prod.mk.injEq] at h
    exact h.2.1.symm
  · cases h

/-- One call that returns keeps the cap of the global free list. -/
theorem handle_capped (w w' : World) (r : Request) (hcap : Capped w)
    (h : handle w r = some w') : Capped w' := by
  cases r with
  | alloc heap =>
    have hd : ∃ res, dx_alloc w.desc w.tpool heap = some (res, w'.desc, w'.tpool) := by
      simp only [handle] at h
      split at h
      · cases h
      · rename_i p desc tpool heq
        injection h with h
        subst h
        exact ⟨_, heq⟩
      · rename_i desc tpool heq
        injection h with h
        subst h
        exact ⟨_, heq⟩
    obtain ⟨res, hd⟩ := hd
    -- the descriptor that the body of `dx_alloc` works on, after `dx_alloc_init`
    have hinit : ∃ d1, dx_alloc w.desc w.tpool heap = dx_alloc d1 w.tpool heap ∧
        ∃ rt1, d1.runtime = some rt1 ∧
        ∀ c, d1.config = some c →
          (c.global_free_list_max ≠ 0 → rt1.global_pool.length ≤ c.global_free_list_max) ∧
          (c.global_free_list_max = 0 → rt1.stats.total_free_to_heap = 0) := by
      cases hr : w.desc.runtime with
      | none =>
        cases hi : dx_alloc_init w.desc with
        | none =>
          rw [dx_alloc_uninit w.desc w.tpool heap hr, hi] at hd
          cases hd
        | some d1 =>
          obtain ⟨e1, -⟩ := dx_alloc_init_some w.desc d1 hr hi
          refine ⟨d1, by rw [dx_alloc_uninit w.desc w.tpool heap hr, hi], _, e1, ?_⟩
          intro c _
          simp [zeroStats]
      | some rt => exact ⟨w.desc, rfl, rt, hr, fun c hc => hcap rt c hr hc⟩
    obtain ⟨d1, hd1, rt1, hr1, hcap1⟩ := hinit
    rw [hd1] at hd
    cases hc : d1.config with
    | none =>
      have := dx_alloc_noconfig d1 w'.desc w.tpool w'.tpool heap res rt1 hr1 hc hd
      intro rt c hrt hcc
      rw [this, hc] at hcc
      cases hcc
    | some c =>
      obtain ⟨r2, desc2, pool2, rt2, k, j, e0, e1, e2, -, e4, -, e6, -⟩ :=
        dx_alloc_core d1 w.tpool heap c rt1 hc hr1
      rw [e0] at hd
      simp only [Option.some.injEq, Prod.mk.injEq] at hd
      obtain ⟨-, hdd, -⟩ := hd
      intro rt c' hrt hcc
      rw [← hdd, e2] at hrt
      rw [← hdd, e1] at hcc
      injection hrt with hrt
      injection hcc with hcc
      subst hrt hcc
      obtain ⟨a, b⟩ := hcap1 c hc
      exact ⟨fun hz => by have := a hz; omega, fun hz => by rw [e4]; exact b hz⟩
  | dealloc p =>
    have hd : dx_dealloc w.desc w.tpool p = some (w'.desc, w'.tpool) := by
      simp only [handle] at h
      split at h
      · cases h
      · rename_i desc tpool heq
        injection h with h
        subst h
        exact heq
    cases hr : w.desc.runtime with
    | none =>
      have := dx_dealloc_uninit w.desc w'.desc w.tpool w'.tpool p hr hd
      intro rt c hrt hcc
      rw [this, hr] at hrt
      cases hrt
    | some rt =>
      cases hc : w.desc.config with
      | none => simp [dx_dealloc, hc] at hd
      | some c =>
        obtain ⟨pool', rt', j, f, -, e1, e2, e3, e4, e5, -, -, e8, e9, e10, e11⟩ :=
          dx_dealloc_some w.desc w'.desc w.tpool w'.tpool p c rt hc hr hd
        obtain ⟨a, b⟩ := hcap rt c hr hc
        intro rt2 c2 hrt2 hcc2
        rw [e2] at hrt2
        rw [e1] at hcc2
        injection hrt2 with hrt2
        injection hcc2 with hcc2
        subst hrt2 hcc2
        refine ⟨fun hz => ?_, fun hz => ?_⟩
        · by_cases hle : (ensurePool w.tpool).length + 1 ≤ c.local_free_list_max
          · obtain ⟨hj, hf⟩ := e8 hle
            have := a hz
            omega
          · exact e11 hz (by omega)
        · rw [e5, e10 hz, b hz]

/-- A sequence of calls that returns keeps the cap of the global free list. -/
theorem handleAll_capped (reqs : List Request) (w w' : World) (hcap : Capped w)
    (h : handleAll w reqs = some w') : Capped w' := by
  induction reqs generalizing w with
  | nil =>
    simp only [handleAll, Option.some.injEq] at h
    subst h
    exact hcap
  | cons r reqs ih =>
    simp only [handleAll] at h
    cases hs : handle w r with
    | none => simp [hs] at h
    | some w1 =>
      rw [hs] at h
      exact ih w1 (handle_capped w w1 r hcap hs) h

/-- C30.  Global cap of the pool allocator: from a descriptor before its first
use (empty global pool), after every sequence of `dx_alloc` and `dx_dealloc`
calls that returns, the global free list holds at most `global_free_list_max`
items if that is not 0, and nothing was freed to the heap if it is 0; the
sequence does return when the configuration passes the `assert` of
`dx_alloc_init` and only handed out items are given back.  In one `dx_dealloc`
`total_free_to_heap` grows by the number of items that leave the two free
lists, and `dx_alloc` does not change it. -/
theorem global_cap (type_size : Nat) (additional_size : Option Nat)
    (config : Option dx_alloc_config_t) (reqs : List Request) :
    (∀ w, handleAll (World.fresh type_size additional_size config) reqs = some w →
      ∀ rt c, w.desc.runtime = some rt → w.desc.config = some c →
        (c.global_free_list_max ≠ 0 → rt.global_pool.length ≤ c.global_free_list_max) ∧
        (c.global_free_list_max = 0 → rt.stats.total_free_to_heap = 0)) ∧
    ((∀ c, config = some c → c.transfer_batch_size ≤ c.local_free_list_max) →
      wellUsed (World.fresh type_size additional_size config) reqs = true →
      ∃ w, handleAll (World.fresh type_size additional_size config) reqs = some w) ∧
    (∀ (desc desc' : dx_alloc_type_desc_t) (tpool tpool' : Option Pool) (p : Item)
        (c : dx_alloc_config_t) (rt rt' : Runtime),
      desc.config = some c → desc.runtime = some rt → desc'.runtime = some rt' →
      dx_dealloc desc tpool p = some (desc', tpool') →
      rt'.stats.total_free_to_heap + rt'.global_pool.length + (ensurePool tpool').length =
        rt.stats.total_free_to_heap + rt.global_pool.length + (ensurePool tpool).length + 1) ∧
    (∀ (desc desc' : dx_alloc_type_desc_t) (tpool tpool' : Option Pool)
        (heap : List (Option Item)) (r : Option Item) (c : dx_alloc_config_t)
        (rt rt' : Runtime),
      desc.config = some c → desc.runtime = some rt → desc'.runtime = some rt' →
      dx_alloc desc tpool heap = some (r, desc', tpool') →
      rt'.stats.total_free_to_heap = rt.stats.total_free_to_heap) := by
  refine ⟨?_, ?_, ?_, ?_⟩
  · intro w hw
    have h0 : Capped (World.fresh type_size additional_size config) := by
      intro rt c hrt _
      cases hrt
    exact handleAll_capped reqs _ w h0 hw
  · intro hcfg hused
    obtain ⟨h1, h2⟩ := fresh_ready type_size additional_size config hcfg
    obtain ⟨w, hw, -, -⟩ := handleAll_accounted reqs _ h1 h2 hused
    exact ⟨w, hw⟩
  · intro desc desc' tpool tpool' p c rt rt' hc hr hr' h
    obtain ⟨pool', rt2, j, f, e0, -, e2, e3, e4, e5, -⟩ :=
      dx_dealloc_some desc desc' tpool tpool' p c rt hc hr h
    rw [e2] at hr'
    injection hr' with hr'
    subst hr'
    rw [e0]
    have hp : ensurePool (some pool') = pool' := rfl
    rw [hp]
    omega
  · intro desc desc' tpool tpool' heap r c rt rt' hc hr hr' h
    obtain ⟨r2, desc2, pool2, rt2, k, j, e0, -, e2, -, e4, -⟩ :=
      dx_alloc_core desc tpool heap c rt hc hr
    rw [e0] at h
    simp only [Option.some.injEq, Prod.mk.injEq] at h
    rw [← h.2.1, e2] at hr'
    injection hr' with hr'
    subst hr'
    exact e4

/-! ## Null only on heap exhaustion -/

/-- What `dx_alloc_init` leaves as configuration on a descriptor without a
global pool is the configuration in use. -/
theorem dx_alloc_init_config (desc d1 : dx_alloc_type_desc_t) (hr : desc.runtime = none)
    (h : dx_alloc_init desc = some d1) :
    d1.config = configInUse desc ∧
      d1.runtime = some { global_pool := globalList desc, stats := zeroStats } := by
  obtain ⟨ts, ad, tot, cfg0, rt0⟩ := desc
  simp only at hr
  subst hr
  simp only [dx_alloc_init] at h
  simp only [configInUse, globalList]
  generalize chooseConfig ⟨ts, ad, totalSize ⟨ts, ad, tot, cfg0, none⟩, cfg0, none⟩ = cfg
    at h ⊢
  by_cases hle : cfg.local_free_list_max ≥ cfg.transfer_batch_size
  · rw [if_pos hle] at h
    injection h with h
    subst h
    exact ⟨rfl, rfl⟩
  · rw [if_neg hle] at h
    cases h

/-- On a descriptor without a global pool `dx_alloc_init` returns exactly when
the configuration in use passes the `assert`. -/
theorem dx_alloc_init_isSome (desc : dx_alloc_type_desc_t) (c : dx_alloc_config_t)
    (hr : desc.runtime = none) (hc : configInUse desc = some c) :
    (dx_alloc_init desc).isSome = true ↔ c.transfer_batch_size ≤ c.local_free_list_max := by
  obtain ⟨ts, ad, tot, cfg0, rt0⟩ := desc
  simp only at hr
  subst hr
  simp only [configInUse] at hc
  injection hc with hc
  simp only [dx_alloc_init]
  rw [hc]
  by_cases hle : c.local_free_list_max ≥ c.transfer_batch_size
  · rw [if_pos hle]
    simp
    exact hle
  · rw [if_neg hle]
    simp
    omega

/-- When the first call of `malloc` fails the loop of `dx_alloc` takes nothing
from the heap. -/
theorem mallocBatch_fail (n : Nat) (heap : List (Option Item)) (pool : Pool)
    (stats : dx_alloc_stats_t) (hfail : ∀ item rest, heap ≠ some item :: rest) :
    mallocBatch n heap pool stats = (pool, stats) := by
  cases n with
  | zero => rfl
  | succ n =>
    cases heap with
    | nil => rfl
    | cons x rest =>
      cases x with
      | none => rfl
      | some item => exact absurd rfl (hfail item rest)

/-- C31, counterexample.  A descriptor before its first use whose configuration
has `transfer_batch_size = 2` and `local_free_list_max = 1`: the thread has no
free item, the global list does not exist yet, and the heap gives memory; the
`assert` of `dx_alloc_init` fails and `dx_alloc` returns no item. -/
theorem dx_alloc_assert_counterexample :
    configInUse (exDesc (some exConfigNarrow)) = some exConfigNarrow ∧
    1 ≤ exConfigNarrow.transfer_batch_size ∧
    dx_alloc (exDesc (some exConfigNarrow)) none [some 10, some 11] = none := by
  decide

/-- C31 (amended).  Null only on heap exhaustion: for every descriptor whose
configuration in use has `transfer_batch_size >= 1`: if the descriptor has a
global pool already, or its configuration passes the `assert` of
`dx_alloc_init` (`local_free_list_max >= transfer_batch_size`), then `dx_alloc`
returns; the item is non-null whenever the thread-local free list is non-empty,
or the global free list holds at least `transfer_batch_size` items, or the first
call of `malloc` succeeds; and it is null exactly when the thread-local list is
empty, the global list holds fewer than `transfer_batch_size` items and the
first call of `malloc` fails.  On a descriptor without a global pool whose
configuration fails the `assert`, `dx_alloc` does not return. -/
theorem dx_alloc_null_only_on_exhaustion (desc : dx_alloc_type_desc_t) (tpool : Option Pool)
    (heap : List (Option Item)) (c : dx_alloc_config_t)
    (hc : configInUse desc = some c) (hb : 1 ≤ c.transfer_batch_size) :
    ((desc.runtime = none → c.transfer_batch_size ≤ c.local_free_list_max) →
      ∃ r desc' pool', dx_alloc desc tpool heap = some (r, desc', some pool') ∧
        ((ensurePool tpool ≠ [] ∨ c.transfer_batch_size ≤ (globalList desc).length ∨
            (∃ item rest, heap = some item :: rest)) → r ≠ none) ∧
        (r = none ↔ ensurePool tpool = [] ∧
          (globalList desc).length < c.transfer_batch_size ∧
          ∀ item rest, heap ≠ some item :: rest)) ∧
    (desc.runtime = none → c.local_free_list_max < c.transfer_batch_size →
      dx_alloc desc tpool heap = none) := by
  refine ⟨fun hassert => ?_, fun hr hlt => ?_⟩
  swap
  · rw [dx_alloc_uninit desc tpool heap hr]
    have hs := dx_alloc_init_isSome desc c hr hc
    cases hd : dx_alloc_init desc with
    | none => rfl
    | some d1 =>
      rw [hd] at hs
      have := hs.1 rfl
      omega
  have hinit : ∃ d1 rt, dx_alloc desc tpool heap = dx_alloc d1 tpool heap ∧
      d1.config = some c ∧ d1.runtime = some rt ∧ rt.global_pool = globalList desc := by
    cases hr : desc.runtime with
    | none =>
      have hs := (dx_alloc_init_isSome desc c hr hc).2 (hassert hr)
      cases hd : dx_alloc_init desc with
      | none => rw [hd] at hs; cases hs
      | some d1 =>
        obtain ⟨e1, e2⟩ := dx_alloc_init_config desc d1 hr hd
        exact ⟨d1, _, by rw [dx_alloc_uninit desc tpool heap hr, hd], e1.trans hc, e2, rfl⟩
    | some rt =>
      refine ⟨desc, rt, rfl, ?_, hr, ?_⟩
      · simpa [configInUse, hr] using hc
      · simp [globalList, hr]
  obtain ⟨d1, rt, hd, hc1, hr1, hg⟩ := hinit
  obtain ⟨r, desc', pool', rt', k, j, e0, -, -, -, -, -, -, -, e8, -, e10⟩ :=
    dx_alloc_core d1 tpool heap c rt hc1 hr1
  rw [hg] at e10
  have hsome : r ≠ none ↔ r.isSome = true := by
    cases r <;> simp
  have pos : (ensurePool tpool ≠ [] ∨
      c.transfer_batch_size ≤ (globalList desc).length ∨
      (∃ item rest, heap = some item :: rest)) → r ≠ none := by
    rw [hsome, e8]
    intro h
    by_cases hne : ensurePool tpool = []
    · obtain ⟨-, h2, h3⟩ := e10 hne
      by_cases hgl : c.transfer_batch_size ≤ (globalList desc).length
      · have := h2 hgl
        omega
      · rcases h with h | h | ⟨item, rest, h⟩
        · exact absurd hne h
        · exact absurd h hgl
        · have := h3 item rest (by omega) h
          omega
    · have : 1 ≤ (ensurePool tpool).length := by
        cases hp : ensurePool tpool with
        | nil => exact absurd hp hne
        | cons a l => simp
      omega
  refine ⟨r, desc', pool', hd.trans e0, pos, ?_, ?_⟩
  · intro hnone
    refine ⟨?_, ?_, ?_⟩
    · by_contra h; exact pos (Or.inl h) hnone
    · by_contra h; exact pos (Or.inr (Or.inl (by omega))) hnone
    · intro item rest h; exact pos (Or.inr (Or.inr ⟨item, rest, h⟩)) hnone
  · rintro ⟨hL, hgl, hfail⟩
    have hgl1 : ¬ rt.global_pool.length ≥ c.transfer_batch_size := by
      rw [hg]; omega
    have hcomp : dx_alloc d1 tpool heap = some (none,
        { d1 with runtime := some ( { global_pool := rt.global_pool, stats := rt.stats } ) },
        some []) := by
      simp [dx_alloc, hr1, hL, hc1, hgl1, mallocBatch_fail _ heap [] rt.stats hfail, takeHead]
    rw [hcomp] at e0
    injection e0 with e0
    injection e0 with e0 _
    exact e0.symm

/-- C31, scenario: a descriptor before its first use with batches of 2 and a
thread list of at most 3; the heap gives two items and `dx_alloc` hands out the
first one. -/
theorem dx_alloc_null_only_on_exhaustion_witness :
    configInUse (exDesc (some exConfig)) = some exConfig ∧
    1 ≤ exConfig.transfer_batch_size ∧
    ∃ r desc' pool', dx_alloc (exDesc (some exConfig)) none [some 10, some 11] =
        some (r, desc', some pool') ∧
      ((ensurePool none ≠ [] ∨
          exConfig.transfer_batch_size ≤ (globalList (exDesc (some exConfig))).length ∨
          (∃ item rest, [some 10, some 11] = some item :: rest)) → r ≠ none) ∧
      (r = none ↔ ensurePool none = [] ∧
        (globalList (exDesc (some exConfig))).length < exConfig.transfer_batch_size ∧
        ∀ item rest, [some 10, some 11] ≠ some item :: rest) :=
  ⟨by decide, by decide,
    (dx_alloc_null_only_on_exhaustion (exDesc (some exConfig)) none [some 10, some 11] exConfig
      (by decide) (by decide)).1 (by intro _; decide)⟩

end Alloc

namespace Broker

/-! ## The status of a management method -/

/-- C32.  Status mapping of `Broker::ManagementMethod`, for every method id (the
labels of the `switch` being different from each other).  `METHOD_ECHO` gives
`STATUS_OK` and calls nothing.  `METHOD_CONNECT` with the arguments of a
connect request: if `useSsl` is set it gives `STATUS_FEATURE_NOT_IMPLEMENTED`
and declares no link; otherwise it calls `links.declare` once with the
arguments, then calls `store->create` on the link returned if and only if
`durable` is set and the link was newly created, and gives `STATUS_OK` (an
exception of either call escapes instead); with arguments of another class the
cast throws and nothing is called.  `METHOD_JOINCLUSTER` and
`METHOD_LEAVECLUSTER` give `STATUS_NOT_IMPLEMENTED`, and every other method id
gives `STATUS_UNKNOWN_METHOD`, with no call. -/
theorem ManagementMethod_status (ids : MethodIds) (env : Surroundings) (methodId : Nat)
    (args : Args) (hd : ids.distinct = true) :
    (methodId = ids.METHOD_ECHO →
      ManagementMethod ids env methodId args = (.ok status_t.STATUS_OK, [])) ∧
    (methodId = ids.METHOD_CONNECT →
      (∀ hp, args = Args.brokerConnect hp → hp.i_useSsl = true →
        ManagementMethod ids env methodId args =
          (.ok status_t.STATUS_FEATURE_NOT_IMPLEMENTED, [])) ∧
      (∀ hp link created, args = Args.brokerConnect hp → hp.i_useSsl = false →
        env.declared = .ok (link, created) →
        (ManagementMethod ids env methodId args).2 =
          Effect.linksDeclare hp.i_host hp.i_port hp.i_useSsl hp.i_durable hp.i_authMechanism
              hp.i_username hp.i_password ::
            (if hp.i_durable = true ∧ created = true then [Effect.storeCreate link] else []) ∧
        (Effect.storeCreate link ∈ (ManagementMethod ids env methodId args).2 ↔
          hp.i_durable = true ∧ created = true) ∧
        ((hp.i_durable = true ∧ created = true → ∃ u, env.created = .ok u) →
          (ManagementMethod ids env methodId args).1 = .ok status_t.STATUS_OK) ∧
        (∀ e, hp.i_durable = true → created = true → env.created = .error e →
          (ManagementMethod ids env methodId args).1 = .error e)) ∧
      (∀ hp e, args = Args.brokerConnect hp → hp.i_useSsl = false →
        env.declared = .error e →
        ManagementMethod ids env methodId args =
          (.error e, [Effect.linksDeclare hp.i_host hp.i_port hp.i_useSsl hp.i_durable
            hp.i_authMechanism hp.i_username hp.i_password])) ∧
      (args = Args.other →
        ManagementMethod ids env methodId args = (.error "std::bad_cast", []))) ∧
    (methodId = ids.METHOD_JOINCLUSTER ∨ methodId = ids.METHOD_LEAVECLUSTER →
      ManagementMethod ids env methodId args = (.ok status_t.STATUS_NOT_IMPLEMENTED, [])) ∧
    (methodId ≠ ids.METHOD_ECHO → methodId ≠ ids.METHOD_CONNECT →
      methodId ≠ ids.METHOD_JOINCLUSTER → methodId ≠ ids.METHOD_LEAVECLUSTER →
      ManagementMethod ids env methodId args = (.ok status_t.STATUS_UNKNOWN_METHOD, [])) := by
  simp only [MethodIds.distinct, decide_eq_true_eq, List.nodup_cons, List.mem_cons,
    List.mem_singleton, List.not_mem_nil, not_or, List.nodup_nil, and_true, not_false_eq_true]
    at hd
  obtain ⟨⟨h12, h13, h14⟩, ⟨h23, h24⟩, h34⟩ := hd
  refine ⟨?_, ?_, ?_, ?_⟩
  · intro h
    simp [ManagementMethod, h]
  · intro h
    subst h
    have h1 : ¬ ids.METHOD_CONNECT = ids.METHOD_ECHO := fun e => h12 e.symm
    refine ⟨?_, ?_, ?_, ?_⟩
    · intro hp ha hs
      simp [ManagementMethod, h1, ha, asBrokerConnect, hs]
    · intro hp link created ha hs hdecl
      by_cases hdc : hp.i_durable = true ∧ created = true
      · obtain ⟨hdur, hcr⟩ := hdc
        cases hc : env.created with
        | error e =>
          simp [ManagementMethod, h1, ha, asBrokerConnect, hs, hdecl, hdur, hcr, hc]
        | ok u =>
          simp [ManagementMethod, h1, ha, asBrokerConnect, hs, hdecl, hdur, hcr, hc]
      · have hb : (hp.i_durable && created) = false := by
          cases hdur : hp.i_durable <;> cases hcr : created <;> simp_all
        simp [ManagementMethod, h1, ha, asBrokerConnect, hs, hdecl, hb, hdc]
        exact fun e hdur hcr => absurd ⟨hdur, hcr⟩ hdc
    · intro hp e ha hs hdecl
      simp [ManagementMethod, h1, ha, asBrokerConnect, hs, hdecl]
    · intro ha
      simp [ManagementMethod, h1, ha, asBrokerConnect]
  · intro h
    rcases h with h | h
    · subst h
      have h1 : ¬ ids.METHOD_JOINCLUSTER = ids.METHOD_ECHO := fun e => h13 e.symm
      have h2 : ¬ ids.METHOD_JOINCLUSTER = ids.METHOD_CONNECT := fun e => h23 e.symm
      simp [ManagementMethod, h1, h2]
    · subst h
      have h1 : ¬ ids.METHOD_LEAVECLUSTER = ids.METHOD_ECHO := fun e => h14 e.symm
      have h2 : ¬ ids.METHOD_LEAVECLUSTER = ids.METHOD_CONNECT := fun e => h24 e.symm
      simp [ManagementMethod, h1, h2]
  · intro h1 h2 h3 h4
    simp [ManagementMethod, h1, h2, h3, h4]

/-- C32, scenario: with the methods numbered 1 to 4, a connect request for a
durable link without SSL, a registry that creates link 7 and a store that takes
it: the status is `STATUS_OK`, after `links.declare` and `store->create` of
link 7. -/
theorem ManagementMethod_status_witness :
    exIds.distinct = true ∧
    (ManagementMethod exIds exSurroundings 2 (Args.brokerConnect exConnect)).1 =
      .ok status_t.STATUS_OK ∧
    (Effect.storeCreate 7 ∈
      (ManagementMethod exIds exSurroundings 2 (Args.brokerConnect exConnect)).2) :=
  ⟨by decide,
    (((ManagementMethod_status exIds exSurroundings 2 (Args.brokerConnect exConnect)
      (by decide)).2.1 rfl).2.1 exConnect 7 true rfl rfl rfl).2.2.1 (fun _ => ⟨(), rfl⟩),
    ((((ManagementMethod_status exIds exSurroundings 2 (Args.brokerConnect exConnect)
      (by decide)).2.1 rfl).2.1 exConnect 7 true rfl rfl rfl).2.1).2 ⟨rfl, rfl⟩⟩

end Broker
